import Mathlib

/-!
# Generic wxHeaderCtrl: layout, hit-testing and the drag state machine

A shallow embedding of `src/generic/headerctrlg.cpp`, followed by the properties
proved about it.

Conventions of the embedding.

* `unsigned int` values are natural numbers; the sentinel `COL_NONE` is
  `(unsigned)-1 = 2^32 - 1`, hence the hypothesis `m_numColumns ≤ COL_NONE` in
  the theorems that tell a column from the sentinel.  `int` values (pixel
  coordinates, widths) are mathematical integers: signed overflow is undefined
  behaviour in C++ and is assumed not to happen.
* Where the range of `int` matters the 32-bit arithmetic is spelled out:
  `GetColStart32` is `GetColStart` with the sum `pos += col.GetWidth()` kept in
  a 32-bit `int`, an overflowing sum wrapping around as it does in the compiled
  code (`wrapInt`).  It agrees with `GetColStart` whenever the exact position
  fits an `int` (`GetColStart32_eq_of_fits`).
* `m_colIndices` is the list of logical indices in display order.
* The columns are owned by a collaborator and are read through `GetColumn`,
  a field of the state here, as are the style flag and the separator margin.
* A function that walks `m_colIndices` with an unbounded loop (`GetColStart`)
  returns `none` when the loop would run past the end of the array, and a
  failing `assert` is `none` as well; callers propagate `none`.
* Dispatching a notification appends it to the list of notifications returned
  by the operation; the handler is a function giving, for each notification,
  the result of `ProcessEvent` and of `IsAllowed`.  The handler does not call
  back into the control.
* Painting, cursors, overlays and mouse capture are not part of the state; the
  refresh functions are kept only for their calls of `GetColStart`.
* `GetColumnPos`, `MoveColumnInOrderArray` and `IsDragging` belong to the base
  class and the class declaration, which are not in this file: they are
  modelled from the specification and marked so.
-/

namespace HeaderCtrl

/-! ## Data model -/

/-- The sentinel `(unsigned)-1`. -/
def COL_NONE : Nat := 4294967295

/-- Conversion of an `int` to `unsigned int`. -/
def toUnsigned (i : Int) : Nat := (i % 4294967296).toNat

/-- The unsigned subtraction `n - 1`. -/
def unsignedPred (n : Nat) : Nat := (n + 4294967295) % 4294967296

/-- The least `int`. -/
def INT_MIN : Int := -2147483648

/-- The greatest `int`. -/
def INT_MAX : Int := 2147483647

/-- The value a 32-bit `int` holds when the exact result of an operation is `i`:
`i` itself when it fits, and the two's-complement wrap-around otherwise. -/
def wrapInt (i : Int) : Int := (i + 2147483648) % 4294967296 - 2147483648

/-- The part of a column hit by a point. -/
inductive Region where
  | NoWhere
  | LeftHalf
  | RightHalf
  | Separator
  deriving DecidableEq, Repr

/-- The accessors of `wxHeaderColumn` read by the control. -/
structure wxHeaderColumn where
  /-- Result of `GetWidth()`. -/
  width : Int
  /-- Result of `GetMinWidth()`. -/
  minWidth : Int
  /-- Result of `IsShown()`; `IsHidden()` is its negation. -/
  shown : Bool
  /-- Result of `IsResizeable()`. -/
  resizeable : Bool
  /-- Result of `IsReorderable()`. -/
  reorderable : Bool
  deriving DecidableEq, Repr

/-- The fields of `wxHeaderCtrl` together with what it reads from its
collaborators. -/
structure wxHeaderCtrl where
  m_numColumns : Nat
  m_colIndices : List Nat
  m_hover : Nat
  m_colBeingResized : Nat
  m_colBeingReordered : Nat
  m_dragOffset : Int
  m_scrollOffset : Int
  m_wasSeparatorDClick : Bool
  /-- The collaborator method `GetColumn(idx)`. -/
  GetColumn : Nat → wxHeaderColumn
  /-- Result of `HasFlag(wxHD_ALLOW_REORDER)`. -/
  allowReorder : Bool
  /-- Result of `FromDIP(8)`, the separator sensitivity in pixels. -/
  separatorClickMargin : Int

/-- The notifications sent to the event handler, with the data they carry. -/
inductive Notification where
  | BeginResize (col : Nat) (width : Int)
  | Resizing (col : Nat) (width : Int)
  | EndResize (col : Nat) (width : Int)
  | BeginReorder (col : Nat)
  | EndReorder (col : Nat) (newOrder : Nat)
  | DraggingCancelled (col : Nat)
  | Click (col : Nat)
  | DClick (col : Nat)
  | RightClick (col : Nat)
  | RightDClick (col : Nat)
  | MiddleClick (col : Nat)
  | MiddleDClick (col : Nat)
  | SeparatorDClick (col : Nat)
  deriving DecidableEq, Repr

/-- What the handler answers to a notification. -/
structure HandlerResult where
  /-- Result of `ProcessEvent(event)`. -/
  processed : Bool
  /-- Result of `event.IsAllowed()` afterwards. -/
  allowed : Bool
  deriving DecidableEq, Repr

/-- The event handler as seen by the control. -/
abbrev Handler := Notification → HandlerResult

/-- The test `ProcessEvent(event) && !event.IsAllowed()`. -/
def vetoed (h : Handler) (e : Notification) : Bool :=
  (h e).processed && !(h e).allowed

/-- Result of `GetButton()`. -/
inductive MouseButton where
  | Left
  | Right
  | Middle
  | Other
  deriving DecidableEq, Repr

/-- The answers of the `wxMouseEvent` accessors read by `OnMouse`. -/
structure wxMouseEvent where
  /-- Result of `GetX()`. -/
  x : Int
  /-- Result of `LeftDown()`. -/
  leftDown : Bool
  /-- Result of `LeftUp()`. -/
  leftUp : Bool
  /-- Result of `Moving()`. -/
  moving : Bool
  /-- Result of `Leaving()`. -/
  leaving : Bool
  /-- Result of `ButtonUp()`, for any button. -/
  buttonUp : Bool
  /-- Result of `ButtonDClick()`, for any button. -/
  buttonDClick : Bool
  /-- Result of `GetButton()`. -/
  button : MouseButton
  deriving DecidableEq, Repr

/-- The key code `WXK_ESCAPE`. -/
def WXK_ESCAPE : Nat := 27

/-! ## Creation and column bookkeeping -/

/-- Method `wxHeaderCtrl::Init`; the collaborators are given. -/
def Init (getColumn : Nat → wxHeaderColumn) (allowReorder : Bool) (margin : Int) :
    wxHeaderCtrl where
  m_numColumns := 0
  m_colIndices := []
  m_hover := COL_NONE
  m_colBeingResized := COL_NONE
  m_colBeingReordered := COL_NONE
  m_dragOffset := 0
  m_scrollOffset := 0
  m_wasSeparatorDClick := false
  GetColumn := getColumn
  allowReorder := allowReorder
  separatorClickMargin := margin

/-- Method `wxHeaderCtrl::DoGetCount`, reached through `GetColumnCount()`. -/
def GetColumnCount (s : wxHeaderCtrl) : Nat := s.m_numColumns

/-- Method `wxHeaderCtrl::DoSetColumnsOrder`. -/
def DoSetColumnsOrder (s : wxHeaderCtrl) (order : List Nat) : wxHeaderCtrl :=
  { s with m_colIndices := order }

/-- Method `wxHeaderCtrl::DoGetColumnsOrder`. -/
def DoGetColumnsOrder (s : wxHeaderCtrl) : List Nat := s.m_colIndices

/-! ## Geometry -/

/-- The loop of `GetColStart`: `pos` is the running position, the list is the
part of `m_colIndices` not yet read.  The loop has no bound of its own, so
running out of entries is `none`.  The position is summed exactly here;
`GetColStartLoop32` is the same loop with the sum kept in a 32-bit `int`. -/
def GetColStartLoop (getColumn : Nat → wxHeaderColumn) (idx : Nat) :
    List Nat → Int → Option Int
  | [], _ => none
  | i :: rest, pos =>
    if i = idx then some pos
    else
      GetColStartLoop getColumn idx rest
        (if (getColumn i).shown then pos + (getColumn i).width else pos)

/-- Method `wxHeaderCtrl::GetColStart`. -/
def GetColStart (s : wxHeaderCtrl) (idx : Nat) : Option Int :=
  GetColStartLoop s.GetColumn idx s.m_colIndices s.m_scrollOffset

/-- The loop of `GetColStart` with `pos` a 32-bit `int`: the same walk as
`GetColStartLoop`, the sum `pos += col.GetWidth()` being taken in `int`. -/
def GetColStartLoop32 (getColumn : Nat → wxHeaderColumn) (idx : Nat) :
    List Nat → Int → Option Int
  | [], _ => none
  | i :: rest, pos =>
    if i = idx then some pos
    else
      GetColStartLoop32 getColumn idx rest
        (if (getColumn i).shown then wrapInt (pos + (getColumn i).width) else pos)

/-- Method `wxHeaderCtrl::GetColStart` in 32-bit `int` arithmetic. -/
def GetColStart32 (s : wxHeaderCtrl) (idx : Nat) : Option Int :=
  GetColStartLoop32 s.GetColumn idx s.m_colIndices s.m_scrollOffset

/-- Method `wxHeaderCtrl::GetColEnd`. -/
def GetColEnd (s : wxHeaderCtrl) (idx : Nat) : Option Int :=
  match GetColStart s idx with
  | none => none
  | some x => some (x + (s.GetColumn idx).width)

/-- The loop of `FindColumnAtPoint` over the entries still to visit, with the
running `pos`. -/
def FindColumnAtPointLoop (getColumn : Nat → wxHeaderColumn) (separatorClickMargin : Int)
    (xLogical : Int) : List Nat → Int → Nat × Region
  | [], _ => (COL_NONE, Region.NoWhere)
  | idx :: rest, pos =>
    if (getColumn idx).shown = false then
      FindColumnAtPointLoop getColumn separatorClickMargin xLogical rest pos
    else
      if (getColumn idx).resizeable = true ∧
          |xLogical - (pos + (getColumn idx).width)| < separatorClickMargin then
        (idx, Region.Separator)
      else if xLogical < pos + (getColumn idx).width ∧ xLogical ≥ pos then
        if xLogical - pos < pos + (getColumn idx).width - xLogical then
          (idx, Region.LeftHalf)
        else
          (idx, Region.RightHalf)
      else
        FindColumnAtPointLoop getColumn separatorClickMargin xLogical rest
          (pos + (getColumn idx).width)

/-- Method `wxHeaderCtrl::FindColumnAtPoint`: the column and the region, the latter
being the out parameter `pos_region`.  The loop visits the first `count`
entries of `m_colIndices`. -/
def FindColumnAtPoint (s : wxHeaderCtrl) (xPhysical : Int) : Nat × Region :=
  FindColumnAtPointLoop s.GetColumn s.separatorClickMargin (xPhysical - s.m_scrollOffset)
    (s.m_colIndices.take (GetColumnCount s)) 0

/-- Method `wxHeaderCtrl::FindColumnClosestToPoint`. -/
def FindColumnClosestToPoint (s : wxHeaderCtrl) (xPhysical : Int) : Nat × Region :=
  if (FindColumnAtPoint s xPhysical).1 ≠ COL_NONE then
    FindColumnAtPoint s xPhysical
  else if GetColumnCount s = 0 then
    (COL_NONE, Region.NoWhere)
  else
    (s.m_colIndices.getD (GetColumnCount s - 1) COL_NONE, Region.NoWhere)

/-- The loop of `FindColumnAfter` over the entries still to visit. -/
def FindColumnAfterLoop (column_idx : Nat) : List Nat → Nat
  | [] => COL_NONE
  | [_] => COL_NONE
  | i :: j :: rest =>
    if i = column_idx then j else FindColumnAfterLoop column_idx (j :: rest)

/-- Method `wxHeaderCtrl::FindColumnAfter`. -/
def FindColumnAfter (s : wxHeaderCtrl) (column_idx : Nat) : Nat :=
  FindColumnAfterLoop column_idx (s.m_colIndices.take (GetColumnCount s))

/-- The loop of `FindColumnBefore`, with the running `before_idx`; a list
exhausted without finding the target gives `COL_NONE`. -/
def FindColumnBeforeLoop (column_idx : Nat) : List Nat → Nat → Nat
  | [], _ => COL_NONE
  | i :: rest, before_idx =>
    if i = column_idx then before_idx else FindColumnBeforeLoop column_idx rest i

/-- Method `wxHeaderCtrl::FindColumnBefore`. -/
def FindColumnBefore (s : wxHeaderCtrl) (column_idx : Nat) : Nat :=
  FindColumnBeforeLoop column_idx (s.m_colIndices.take (GetColumnCount s)) COL_NONE

/-- Method `wxHeaderCtrl::RefreshCol`, kept for its call of `GetColStart`. -/
def RefreshCol (s : wxHeaderCtrl) (idx : Nat) : Option Unit :=
  match GetColStart s idx with
  | none => none
  | some _ => some ()

/-- Method `wxHeaderCtrl::RefreshColIfNotNone`. -/
def RefreshColIfNotNone (s : wxHeaderCtrl) (idx : Nat) : Option Unit :=
  if idx ≠ COL_NONE then RefreshCol s idx else some ()

/-- Method `wxHeaderCtrl::RefreshColsAfter`, kept for its call of `GetColStart`. -/
def RefreshColsAfter (s : wxHeaderCtrl) (idx : Nat) : Option Unit :=
  match GetColStart s idx with
  | none => none
  | some _ => some ()

/-! ## Helpers of the base class -/

/-- Method `wxArrayInt::Index`: the first position of the value, `wxNOT_FOUND = -1`
when it is absent. -/
def Index (order : List Nat) (v : Nat) : Int :=
  if v ∈ order then (order.indexOf v : Int) else -1

/-- Modelled from the spec: `wxHeaderCtrlBase::GetColumnPos` is defined in the
base class, outside this file.  The spec calls it the display position of a
column: its position in the display order. -/
def GetColumnPos (s : wxHeaderCtrl) (idx : Nat) : Nat :=
  toUnsigned (Index s.m_colIndices idx)

/-- Modelled from the spec: `wxHeaderCtrlBase::MoveColumnInOrderArray` is
defined in the base class, outside this file.  The spec: remove the source
logical index from the permutation and reinsert it at the computed position. -/
def MoveColumnInOrderArray (order : List Nat) (idx pos : Nat) : List Nat :=
  List.insertIdx pos idx (order.erase idx)

/-- Method `wxHeaderCtrl::DoMoveCol`. -/
def DoMoveCol (s : wxHeaderCtrl) (idx pos : Nat) : wxHeaderCtrl :=
  { s with m_colIndices := MoveColumnInOrderArray s.m_colIndices idx pos }

/-! ## Dragging: resizing and reordering -/

/-- Method `wxHeaderCtrl::IsResizing`. -/
def IsResizing (s : wxHeaderCtrl) : Bool := s.m_colBeingResized != COL_NONE

/-- Method `wxHeaderCtrl::IsReordering`. -/
def IsReordering (s : wxHeaderCtrl) : Bool := s.m_colBeingReordered != COL_NONE

/-- Modelled from the spec: `IsDragging` is defined in the class declaration,
outside this file.  The spec: a drag is an active resize or an active
reorder. -/
def IsDragging (s : wxHeaderCtrl) : Bool := IsResizing s || IsReordering s

/-- Method `wxHeaderCtrl::CancelDragging`.  The reference `col` designates
`m_colBeingResized` when resizing and `m_colBeingReordered` otherwise; the
result of `ProcessEvent` is not looked at. -/
def CancelDragging (s : wxHeaderCtrl) : wxHeaderCtrl × List Notification :=
  if IsResizing s then
    ({ s with m_colBeingResized := COL_NONE },
      [Notification.DraggingCancelled s.m_colBeingResized])
  else
    ({ s with m_colBeingReordered := COL_NONE },
      [Notification.DraggingCancelled s.m_colBeingReordered])

/-- Method `wxHeaderCtrl::ConstrainByMinWidth`: the returned width, and the value left
in the reference parameter `xPhysical`. -/
def ConstrainByMinWidth (s : wxHeaderCtrl) (col : Nat) (xPhysical : Int) :
    Option (Int × Int) :=
  match GetColStart s col with
  | none => none
  | some xStart =>
    let xMinEnd := xStart + (s.GetColumn col).minWidth
    let xPhysical := if xPhysical < xMinEnd then xMinEnd else xPhysical
    some (xPhysical - xStart, xPhysical)

/-- The notification built at the start of `StartOrContinueResizing`. -/
def resizeNotification (s : wxHeaderCtrl) (col : Nat) (width : Int) : Notification :=
  if IsResizing s then Notification.Resizing col width
  else Notification.BeginResize col width

/-- Method `wxHeaderCtrl::StartOrContinueResizing`. -/
def StartOrContinueResizing (h : Handler) (s : wxHeaderCtrl) (col : Nat) (xPhysical : Int) :
    Option (wxHeaderCtrl × List Notification) :=
  match ConstrainByMinWidth s col xPhysical with
  | none => none
  | some (width, _) =>
    let event := resizeNotification s col width
    let r : wxHeaderCtrl × List Notification :=
      if vetoed h event then
        if IsResizing s then
          ((CancelDragging s).1, event :: (CancelDragging s).2)
        else
          (s, [event])
      else
        if IsResizing s then (s, [event])
        else ({ s with m_colBeingResized := col }, [event])
    match RefreshColsAfter r.1 col with
    | none => none
    | some _ => some r

/-- Method `wxHeaderCtrl::EndResizing`. -/
def EndResizing (s : wxHeaderCtrl) (xPhysical : Int) :
    Option (wxHeaderCtrl × List Notification) :=
  match ConstrainByMinWidth s s.m_colBeingResized xPhysical with
  | none => none
  | some (width, _) =>
    some ({ s with m_colBeingResized := COL_NONE },
      [Notification.EndResize s.m_colBeingResized width])

/-- Method `wxHeaderCtrl::UpdateReorderingMarker`: drawing only, kept for its calls of
`GetColStart` and `GetColEnd`. -/
def UpdateReorderingMarker (s : wxHeaderCtrl) (xPhysical : Int) : Option Unit :=
  if (FindColumnClosestToPoint s xPhysical).1 ≠ COL_NONE then
    if (FindColumnClosestToPoint s xPhysical).2 = Region.LeftHalf then
      match GetColStart s (FindColumnClosestToPoint s xPhysical).1 with
      | none => none
      | some _ => some ()
    else if (FindColumnClosestToPoint s xPhysical).2 ≠ Region.NoWhere then
      match GetColEnd s (FindColumnClosestToPoint s xPhysical).1 with
      | none => none
      | some _ => some ()
    else some ()
  else some ()

/-- Method `wxHeaderCtrl::StartReordering`. -/
def StartReordering (h : Handler) (s : wxHeaderCtrl) (col : Nat) (xPhysical : Int) :
    Option (wxHeaderCtrl × List Notification) :=
  if vetoed h (Notification.BeginReorder col) then
    some (s, [Notification.BeginReorder col])
  else
    match GetColStart s col with
    | none => none
    | some start =>
      some ({ s with m_dragOffset := xPhysical - start, m_colBeingReordered := col },
        [Notification.BeginReorder col])

/-- The second half of `EndReordering`, entered when the retargeted column
differs from the dragged one and the region is not `NoWhere`: the position
computation, the simulated move and the `EndReorder` notification.  Here `s`
is the state with `m_colBeingReordered` already reset. -/
def EndReorderingMove (h : Handler) (s : wxHeaderCtrl) (colOld colNew : Nat)
    (located_by_previous_col : Bool) (dropped_region : Region) :
    Option (wxHeaderCtrl × Bool × List Notification) :=
  let new_pos := GetColumnPos s colNew
  let old_pos := GetColumnPos s colOld
  let retarget : Bool :=
    decide (old_pos < new_pos) &&
      (decide (new_pos ≠ unsignedPred (GetColumnCount s)) || located_by_previous_col ||
        decide (dropped_region = Region.LeftHalf))
  let colNew2 := if retarget then FindColumnBefore s colNew else colNew
  if retarget ∧ colNew2 = COL_NONE then
    none -- assert(colNew != COL_NONE)
  else
    let new_pos2 := if retarget then GetColumnPos s colNew2 else new_pos
    let move_left : Bool := decide (old_pos < new_pos)
    let new_colIndices := MoveColumnInOrderArray s.m_colIndices colOld new_pos2
    let old_after_pos := Index new_colIndices colNew2
    let new_after_pos := Index new_colIndices colOld
    if toUnsigned old_after_pos ≠ old_pos ∨ toUnsigned new_after_pos ≠ new_pos2 ∨
        move_left = true ∨ old_pos > new_pos2 then
      if (h (Notification.EndReorder colOld new_pos2)).processed = false ∨
          (h (Notification.EndReorder colOld new_pos2)).allowed = true then
        some (DoMoveCol s colOld new_pos2, true, [Notification.EndReorder colOld new_pos2])
      else
        some (s, true, [Notification.EndReorder colOld new_pos2])
    else
      some (s, true, [])

/-- Method `wxHeaderCtrl::EndReordering`: the new state, the returned flag and the
notifications dispatched. -/
def EndReordering (h : Handler) (s : wxHeaderCtrl) (xPhysical : Int) :
    Option (wxHeaderCtrl × Bool × List Notification) :=
  let colOld := s.m_colBeingReordered
  let colNew := (FindColumnClosestToPoint s xPhysical).1
  let dropped_region := (FindColumnClosestToPoint s xPhysical).2
  let s1 : wxHeaderCtrl := { s with m_colBeingReordered := COL_NONE }
  let located_by_previous_col : Bool :=
    (decide (dropped_region = Region.RightHalf) || decide (dropped_region = Region.Separator)) &&
      decide (colNew ≠ COL_NONE) && decide (FindColumnAfter s1 colNew ≠ COL_NONE)
  let colNew1 := if located_by_previous_col then FindColumnAfter s1 colNew else colNew
  match GetColStart s1 colOld with
  | none => none
  | some start =>
    if xPhysical - start = s1.m_dragOffset then
      some (s1, false, [])
    else if colNew1 = COL_NONE then
      some (s1, false, [])
    else if colNew1 ≠ colOld ∧ dropped_region ≠ Region.NoWhere then
      EndReorderingMove h s1 colOld colNew1 located_by_previous_col dropped_region
    else
      some (s1, true, [])

/-! ## Event handlers -/

/-- Method `wxHeaderCtrl::OnCaptureLost`. -/
def OnCaptureLost (s : wxHeaderCtrl) : wxHeaderCtrl × List Notification :=
  if IsDragging s then CancelDragging s else (s, [])

/-- Method `wxHeaderCtrl::OnKeyDown`, given the result of `GetKeyCode()`. -/
def OnKeyDown (s : wxHeaderCtrl) (keyCode : Nat) : wxHeaderCtrl × List Notification :=
  if keyCode = WXK_ESCAPE then
    if IsDragging s then CancelDragging s else (s, [])
  else
    (s, [])

/-- The switch of `OnMouse` choosing the click notification: the constructor
to use, if any, and the new value of `m_wasSeparatorDClick`. -/
def clickEventType (mevent : wxMouseEvent) (mouse_region : Region) (wasSeparatorDClick : Bool) :
    Option (Nat → Notification) × Bool :=
  let click := mevent.buttonUp
  let dblclk := mevent.buttonDClick
  if click || dblclk then
    match mevent.button with
    | MouseButton.Left =>
      if mouse_region = Region.Separator ∧ dblclk = true then
        (some Notification.SeparatorDClick, true)
      else if wasSeparatorDClick = false then
        (some (if click then Notification.Click else Notification.DClick), false)
      else
        (none, false)
    | MouseButton.Right =>
      (some (if click then Notification.RightClick else Notification.RightDClick), false)
    | MouseButton.Middle =>
      (some (if click then Notification.MiddleClick else Notification.MiddleDClick), false)
    | MouseButton.Other => (none, false)
  else
    (none, false)

/-- The hover update of `OnMouse`: when the column under the pointer changes,
`m_hover` is written and both columns are refreshed. -/
def updateHover (s : wxHeaderCtrl) (col : Nat) : Option wxHeaderCtrl :=
  if col ≠ s.m_hover then
    match RefreshColIfNotNone { s with m_hover := col } s.m_hover with
    | none => none
    | some _ =>
      match RefreshColIfNotNone { s with m_hover := col } col with
      | none => none
      | some _ => some { s with m_hover := col }
  else some s

/-- The end of `OnMouse`, after the hover update: cursor on plain motion, start
of a drag on a left press, click notifications.  Here `col` and `mouse_region`
are the result of the hit-test and `wasSeparatorDClick` is the value
`m_wasSeparatorDClick` had on entry. -/
def OnMouseButtons (h : Handler) (s : wxHeaderCtrl) (col : Nat) (mouse_region : Region)
    (wasSeparatorDClick : Bool) (mevent : wxMouseEvent) :
    Option (wxHeaderCtrl × List Notification) :=
  if mevent.moving then some (s, [])
  else if col = COL_NONE then some (s, [])
  else if mevent.leftDown then
    if mouse_region = Region.Separator then
      StartOrContinueResizing h s col mevent.x
    else if s.allowReorder = true ∧ (s.GetColumn col).reorderable = true then
      StartReordering h s col mevent.x
    else
      some (s, [])
  else
    match clickEventType mevent mouse_region wasSeparatorDClick with
    | (none, _) => some (s, [])
    | (some evt, sep) => some ({ s with m_wasSeparatorDClick := sep }, [evt col])

/-- The part of `OnMouse` after the handling of drags in progress: hit-test,
hover update, then `OnMouseButtons`.  Here `m_wasSeparatorDClick` has already
been reset in `s` and its old value is `wasSeparatorDClick`. -/
def OnMouseOverColumn (h : Handler) (s : wxHeaderCtrl) (wasSeparatorDClick : Bool)
    (mevent : wxMouseEvent) : Option (wxHeaderCtrl × List Notification) :=
  match updateHover s
      (if mevent.leaving then COL_NONE else (FindColumnAtPoint s mevent.x).1) with
  | none => none
  | some s1 =>
    OnMouseButtons h s1
      (if mevent.leaving then COL_NONE else (FindColumnAtPoint s mevent.x).1)
      (if mevent.leaving then Region.NoWhere else (FindColumnAtPoint s mevent.x).2)
      wasSeparatorDClick mevent

/-- Method `wxHeaderCtrl::OnMouse`. -/
def OnMouse (h : Handler) (s0 : wxHeaderCtrl) (mevent : wxMouseEvent) :
    Option (wxHeaderCtrl × List Notification) :=
  let wasSeparatorDClick := s0.m_wasSeparatorDClick
  let s : wxHeaderCtrl := { s0 with m_wasSeparatorDClick := false }
  if IsResizing s then
    if mevent.leftUp then EndResizing s mevent.x
    else StartOrContinueResizing h s s.m_colBeingResized mevent.x
  else if IsReordering s then
    if mevent.leftUp = false then
      match UpdateReorderingMarker s mevent.x with
      | none => none
      | some _ => some (s, [])
    else
      match EndReordering h s mevent.x with
      | none => none
      | some (s2, true, evs) => some (s2, evs)
      | some (s2, false, evs) =>
        match OnMouseOverColumn h s2 wasSeparatorDClick mevent with
        | none => none
        | some (s3, evs2) => some (s3, evs ++ evs2)
  else
    OnMouseOverColumn h s wasSeparatorDClick mevent

/-! ## Notions used to state the properties -/

/-- The display order holds each logical index of `[0, N)` exactly once. -/
def IsPermutation (s : wxHeaderCtrl) : Prop :=
  s.m_colIndices.Perm (List.range s.m_numColumns)

instance (s : wxHeaderCtrl) : Decidable (IsPermutation s) := by
  unfold IsPermutation; infer_instance

/-- The state `EndReordering` works on after resetting `m_colBeingReordered`. -/
def reorderCleared (s : wxHeaderCtrl) : wxHeaderCtrl :=
  { s with m_colBeingReordered := COL_NONE }

/-- The flag `located_by_previous_col` computed by `EndReordering`. -/
def locatedByPreviousCol (s : wxHeaderCtrl) (xPhysical : Int) : Bool :=
  (decide ((FindColumnClosestToPoint s xPhysical).2 = Region.RightHalf) ||
      decide ((FindColumnClosestToPoint s xPhysical).2 = Region.Separator)) &&
    decide ((FindColumnClosestToPoint s xPhysical).1 ≠ COL_NONE) &&
    decide (FindColumnAfter s (FindColumnClosestToPoint s xPhysical).1 ≠ COL_NONE)

/-- The value of `colNew` in `EndReordering` after the retargeting to the next
column. -/
def dropTarget (s : wxHeaderCtrl) (xPhysical : Int) : Nat :=
  if locatedByPreviousCol s xPhysical then
    FindColumnAfter s (FindColumnClosestToPoint s xPhysical).1
  else (FindColumnClosestToPoint s xPhysical).1

/-- The position handed to the `EndReorder` notification and to `DoMoveCol`, as a
function of the display positions of the dragged column and of the target. -/
def dropPosition (s : wxHeaderCtrl) (colOld colNew : Nat) (located_by_previous_col : Bool)
    (dropped_region : Region) : Nat :=
  if s.m_colIndices.indexOf colOld < s.m_colIndices.indexOf colNew ∧
      (s.m_colIndices.indexOf colNew + 1 ≠ s.m_numColumns ∨ located_by_previous_col = true ∨
        dropped_region = Region.LeftHalf) then
    s.m_colIndices.indexOf colNew - 1
  else
    s.m_colIndices.indexOf colNew

/-- The total width of the shown columns among the given entries of the display
order. -/
def totalShownWidth (getColumn : Nat → wxHeaderColumn) : List Nat → Int
  | [] => 0
  | i :: rest =>
    (if (getColumn i).shown then (getColumn i).width else 0) + totalShownWidth getColumn rest

/-- The permutation invariant together with the validity of the indices kept in
the state: the count fits an `unsigned int`, and the hovered, resized and
reordered columns are `COL_NONE` or logical indices of `[0, N)`. -/
def WellFormed (s : wxHeaderCtrl) : Prop :=
  IsPermutation s ∧ s.m_numColumns ≤ COL_NONE ∧
    (s.m_hover = COL_NONE ∨ s.m_hover < s.m_numColumns) ∧
    (s.m_colBeingResized = COL_NONE ∨ s.m_colBeingResized < s.m_numColumns) ∧
    (s.m_colBeingReordered = COL_NONE ∨ s.m_colBeingReordered < s.m_numColumns)

instance (s : wxHeaderCtrl) : Decidable (WellFormed s) := by
  unfold WellFormed; infer_instance

/-- The width carried by a resize notification is at least the minimum width
of its column; other notifications carry no width. -/
def widthRespectsMin (s : wxHeaderCtrl) : Notification → Prop
  | Notification.BeginResize col width => (s.GetColumn col).minWidth ≤ width
  | Notification.Resizing col width => (s.GetColumn col).minWidth ≤ width
  | Notification.EndResize col width => (s.GetColumn col).minWidth ≤ width
  | _ => True

/-- The position carried by an `EndReorder` notification is a display position
of `[0, N)`. -/
def positionInRange (s : wxHeaderCtrl) : Notification → Prop
  | Notification.EndReorder _ newOrder => newOrder < s.m_numColumns
  | _ => True

/-- Both operations leave the layout alone: same order, count, columns, scroll
offset, margin and reorder flag. -/
def SameLayout (s t : wxHeaderCtrl) : Prop :=
  t.m_colIndices = s.m_colIndices ∧ t.m_numColumns = s.m_numColumns ∧
    t.GetColumn = s.GetColumn ∧ t.m_scrollOffset = s.m_scrollOffset ∧
    t.separatorClickMargin = s.separatorClickMargin ∧ t.allowReorder = s.allowReorder

/-- The click notifications, which carry a column only. -/
def isClickNotification : Notification → Prop
  | Notification.Click _ => True
  | Notification.DClick _ => True
  | Notification.RightClick _ => True
  | Notification.RightDClick _ => True
  | Notification.MiddleClick _ => True
  | Notification.MiddleDClick _ => True
  | Notification.SeparatorDClick _ => True
  | _ => False

/-- At most one of the two drags is active. -/
def Exclusive (s : wxHeaderCtrl) : Prop :=
  ¬ (IsResizing s = true ∧ IsReordering s = true)

/-- The states of the control: `Init`, then any sequence of mouse, key and
capture-lost events, with any handler.  Between events the owner may change
the columns, their count, their order or the scroll offset (`DoSetCount`,
`DoSetColumnsOrder`, `DoMoveCol`, `DoScrollHorz`, the column accessors): none
of these writes `m_colBeingResized` or `m_colBeingReordered`, which is all the
`configure` step asks. -/
inductive Reachable : wxHeaderCtrl → Prop
  | init (getColumn : Nat → wxHeaderColumn) (allowReorder : Bool) (margin : Int) :
      Reachable (Init getColumn allowReorder margin)
  | configure (s t : wxHeaderCtrl) : Reachable s →
      t.m_colBeingResized = s.m_colBeingResized →
      t.m_colBeingReordered = s.m_colBeingReordered → Reachable t
  | mouse (h : Handler) (s : wxHeaderCtrl) (mevent : wxMouseEvent) (t : wxHeaderCtrl)
      (evs : List Notification) : Reachable s → OnMouse h s mevent = some (t, evs) →
      Reachable t
  | key (s : wxHeaderCtrl) (keyCode : Nat) : Reachable s → Reachable (OnKeyDown s keyCode).1
  | captureLost (s : wxHeaderCtrl) : Reachable s → Reachable (OnCaptureLost s).1

/-- A column 50 pixels wide, shown, resizeable and reorderable, with no minimum
width. -/
def column50 : wxHeaderColumn :=
  { width := 50, minWidth := 0, shown := true, resizeable := true, reorderable := true }

/-- Three columns A, B, C (logical indices 0, 1, 2) of 50 pixels each, displayed
in that order, nothing hovered or dragged, no scrolling, a separator margin of
8 pixels, reordering allowed. -/
def threeColumns : wxHeaderCtrl :=
  { m_numColumns := 3, m_colIndices := [0, 1, 2], m_hover := COL_NONE,
    m_colBeingResized := COL_NONE, m_colBeingReordered := COL_NONE, m_dragOffset := 0,
    m_scrollOffset := 0, m_wasSeparatorDClick := false, GetColumn := fun _ => column50,
    allowReorder := true, separatorClickMargin := 8 }

/-- The state `threeColumns` after a left press at x = 10, inside A: A is hovered
and being reordered, with drag offset 10. -/
def threeColumnsDraggingA : wxHeaderCtrl :=
  { threeColumns with m_hover := 0, m_colBeingReordered := 0, m_dragOffset := 10 }

/-- A handler that processes no notification. -/
def noHandler : Handler := fun _ => { processed := false, allowed := true }

/-- A left button press at `x`. -/
def leftDownAt (x : Int) : wxMouseEvent :=
  { x := x, leftDown := true, leftUp := false, moving := false, leaving := false,
    buttonUp := false, buttonDClick := false, button := MouseButton.Left }

/-- A left button release at `x`. -/
def leftUpAt (x : Int) : wxMouseEvent :=
  { x := x, leftDown := false, leftUp := true, moving := false, leaving := false,
    buttonUp := true, buttonDClick := false, button := MouseButton.Left }

/-- Two columns A, B of 50 pixels with A being reordered and a drag offset of 90:
the offset recorded by a press at x = 90 when A was wider than that, A having
been narrowed to 50 pixels by its owner since. -/
def staleDragOffset : wxHeaderCtrl :=
  { m_numColumns := 2, m_colIndices := [0, 1], m_hover := 0,
    m_colBeingResized := COL_NONE, m_colBeingReordered := 0, m_dragOffset := 90,
    m_scrollOffset := 0, m_wasSeparatorDClick := false, GetColumn := fun _ => column50,
    allowReorder := true, separatorClickMargin := 8 }

/-- Two columns A, B of 50 pixels, B with a minimum width of 30, B being
resized. -/
def resizingWithMinWidth : wxHeaderCtrl :=
  { m_numColumns := 2, m_colIndices := [0, 1], m_hover := 1,
    m_colBeingResized := 1, m_colBeingReordered := COL_NONE, m_dragOffset := 0,
    m_scrollOffset := 0, m_wasSeparatorDClick := false,
    GetColumn := fun i =>
      if i = 1 then
        { width := 50, minWidth := 30, shown := true, resizeable := true, reorderable := true }
      else column50,
    allowReorder := true, separatorClickMargin := 8 }

/-- The state `threeColumns` after a left press at x = 110, inside C: C is hovered
and being reordered, with drag offset 10. -/
def threeColumnsDraggingC : wxHeaderCtrl :=
  { threeColumns with m_hover := 2, m_colBeingReordered := 2, m_dragOffset := 10 }

/-- The state `threeColumns` scrolled to the offset 2147483600, 47 pixels short of
the greatest `int`. -/
def scrolledNearIntMax : wxHeaderCtrl :=
  { threeColumns with m_scrollOffset := 2147483600 }

/-- A handler that processes every notification and vetoes it. -/
def vetoAll : Handler := fun _ => { processed := true, allowed := false }

/-- A left button double click at `x`. -/
def leftDClickAt (x : Int) : wxMouseEvent :=
  { x := x, leftDown := false, leftUp := false, moving := false, leaving := false,
    buttonUp := false, buttonDClick := true, button := MouseButton.Left }

/-- The test of `EndReordering` under which the target is replaced by
`FindColumnBefore(colNew)`: `old_pos < new_pos`, and then
`new_pos != GetColumnCount() - 1 || located_by_previous_col ||
dropped_region == Region::LeftHalf`. -/
def callsFindColumnBefore (s : wxHeaderCtrl) (colOld colNew : Nat)
    (located_by_previous_col : Bool) (dropped_region : Region) : Bool :=
  decide (GetColumnPos s colOld < GetColumnPos s colNew) &&
    (decide (GetColumnPos s colNew ≠ unsignedPred (GetColumnCount s)) ||
      located_by_previous_col || decide (dropped_region = Region.LeftHalf))

/-- A run of the loop of `GetColStart`, with what it did besides computing `pos`:
`n` is the loop counter, that is the number of iterations completed, `reads`
lists the indices at which `m_colIndices` was read and `queries` the logical
indices handed to `GetColumn`, both in execution order. -/
structure GetColStartRun where
  pos : Int
  n : Nat
  reads : List Nat
  queries : List Nat
  deriving DecidableEq, Repr

/-- The loop of `GetColStart` with its bookkeeping.  The list is the part of
`m_colIndices` from index `n` on; reading `m_colIndices[n]` when nothing is
left is a read past the end of the array, and is `none`.  The entry is read
first, the loop breaks before `GetColumn` is called when the entry is `idx`. -/
def GetColStartRunLoop (getColumn : Nat → wxHeaderColumn) (idx : Nat) :
    List Nat → GetColStartRun → Option GetColStartRun
  | [], _ => none
  | i :: rest, r =>
    if i = idx then some { r with reads := r.reads ++ [r.n] }
    else
      GetColStartRunLoop getColumn idx rest
        { pos := if (getColumn i).shown then r.pos + (getColumn i).width else r.pos,
          n := r.n + 1,
          reads := r.reads ++ [r.n],
          queries := r.queries ++ [i] }

/-- Method `wxHeaderCtrl::GetColStart` together with the bookkeeping of its loop. -/
def GetColStartTraced (s : wxHeaderCtrl) (idx : Nat) : Option GetColStartRun :=
  GetColStartRunLoop s.GetColumn idx s.m_colIndices
    { pos := s.m_scrollOffset, n := 0, reads := [], queries := [] }

/-! ## Lemmas and theorems -/

theorem IsPermutation.nodup {s : wxHeaderCtrl} (hp : IsPermutation s) : s.m_colIndices.Nodup :=
  (List.Perm.nodup_iff hp).2 (List.nodup_range _)

theorem IsPermutation.length_eq {s : wxHeaderCtrl} (hp : IsPermutation s) :
    s.m_colIndices.length = s.m_numColumns := by
  have := List.Perm.length_eq hp
  simpa using this

theorem IsPermutation.mem_iff {s : wxHeaderCtrl} (hp : IsPermutation s) (i : Nat) :
    i ∈ s.m_colIndices ↔ i < s.m_numColumns := by
  rw [List.Perm.mem_iff hp, List.mem_range]

theorem IsPermutation.take_eq {s : wxHeaderCtrl} (hp : IsPermutation s) :
    s.m_colIndices.take (GetColumnCount s) = s.m_colIndices := by
  apply List.take_of_length_le
  rw [hp.length_eq]; exact le_refl _

theorem GetColStartLoop_isSome (g : Nat → wxHeaderColumn) (idx : Nat) :
    ∀ (l : List Nat) (pos : Int), idx ∈ l → ∃ st, GetColStartLoop g idx l pos = some st := by
  intro l
  induction l with
  | nil => intro pos hmem; simp at hmem
  | cons i rest ih =>
    intro pos hmem
    by_cases hi : i = idx
    · exact ⟨pos, by simp [GetColStartLoop, hi]⟩
    · have hrest : idx ∈ rest := by
        rcases List.mem_cons.1 hmem with h | h
        · exact absurd h.symm hi
        · exact h
      simpa [GetColStartLoop, hi] using ih _ hrest

theorem GetColStartLoop_mem (g : Nat → wxHeaderColumn) (idx : Nat) :
    ∀ (l : List Nat) (pos st : Int), GetColStartLoop g idx l pos = some st → idx ∈ l := by
  intro l
  induction l with
  | nil => intro pos st hst; simp [GetColStartLoop] at hst
  | cons i rest ih =>
    intro pos st hst
    by_cases hi : i = idx
    · simp [hi]
    · simp only [GetColStartLoop, hi, if_false] at hst
      exact List.mem_cons_of_mem _ (ih _ _ hst)

theorem GetColStartLoop_ge (g : Nat → wxHeaderColumn) (idx : Nat) :
    ∀ (l : List Nat) (pos st : Int), (∀ i ∈ l, 0 ≤ (g i).width) →
      GetColStartLoop g idx l pos = some st → pos ≤ st := by
  intro l
  induction l with
  | nil => intro pos st _ hst; simp [GetColStartLoop] at hst
  | cons i rest ih =>
    intro pos st hw hst
    by_cases hi : i = idx
    · simp [GetColStartLoop, hi] at hst; omega
    · simp only [GetColStartLoop, hi, if_false] at hst
      have h1 := ih _ _ (fun k hk => hw k (List.mem_cons_of_mem _ hk)) hst
      have h2 := hw i (List.mem_cons_self _ _)
      split at h1 <;> omega

theorem GetColStartLoop_mono (g : Nat → wxHeaderColumn) :
    ∀ (l : List Nat) (pos : Int) (i j ci cj : Nat) (a b : Int), l.Nodup →
      (∀ k ∈ l, 0 ≤ (g k).width) → i < j → l[i]? = some ci → l[j]? = some cj →
      GetColStartLoop g ci l pos = some a → GetColStartLoop g cj l pos = some b → a ≤ b := by
  intro l
  induction l with
  | nil => intro pos i j ci cj a b _ _ _ hi; simp at hi
  | cons c rest ih =>
    intro pos i j ci cj a b hnd hw hij hi hj ha hb
    have hw2 : ∀ k ∈ rest, 0 ≤ (g k).width := fun k hk => hw k (List.mem_cons_of_mem _ hk)
    have hnd2 := List.nodup_cons.1 hnd
    obtain ⟨j2, rfl⟩ : ∃ j2, j = j2 + 1 := ⟨j - 1, by omega⟩
    have hj2 : rest[j2]? = some cj := by simpa using hj
    have hcj : cj ∈ rest := List.getElem?_mem hj2
    have hne : c ≠ cj := fun h => hnd2.1 (h ▸ hcj)
    simp only [GetColStartLoop, hne, if_false] at hb
    cases i with
    | zero =>
      have hci : c = ci := by simpa using hi
      simp [GetColStartLoop, hci] at ha
      have h1 := GetColStartLoop_ge g cj rest _ b hw2 hb
      have h2 := hw c (List.mem_cons_self _ _)
      split at h1 <;> omega
    | succ i2 =>
      have hi2 : rest[i2]? = some ci := by simpa using hi
      have hci : ci ∈ rest := List.getElem?_mem hi2
      have hne2 : c ≠ ci := fun h => hnd2.1 (h ▸ hci)
      simp only [GetColStartLoop, hne2, if_false] at ha
      exact ih _ i2 j2 ci cj a b hnd2.2 hw2 (by omega) hi2 hj2 ha hb

theorem wrapInt_of_fits {i : Int} (hlo : INT_MIN ≤ i) (hhi : i ≤ INT_MAX) : wrapInt i = i := by
  unfold INT_MIN at hlo
  unfold INT_MAX at hhi
  unfold wrapInt
  omega

theorem totalShownWidth_nonneg (g : Nat → wxHeaderColumn) :
    ∀ l : List Nat, (∀ i ∈ l, 0 ≤ (g i).width) → 0 ≤ totalShownWidth g l := by
  intro l
  induction l with
  | nil => intro _; exact le_refl _
  | cons i rest ih =>
    intro hw
    have h1 := hw i (List.mem_cons_self _ _)
    have h2 := ih (fun k hk => hw k (List.mem_cons_of_mem _ hk))
    unfold totalShownWidth
    split <;> omega

/-- The exact value of `GetColStart`: the initial position plus the widths of the
shown columns displayed before the column. -/
theorem GetColStartLoop_eq_totalShownWidth (g : Nat → wxHeaderColumn) :
    ∀ (l : List Nat) (j c : Nat) (pos : Int), l.Nodup → l[j]? = some c →
      GetColStartLoop g c l pos = some (pos + totalShownWidth g (l.take j)) := by
  intro l
  induction l with
  | nil => intro j c pos _ hj; simp at hj
  | cons i rest ih =>
    intro j c pos hnd hj
    have hnd2 := List.nodup_cons.1 hnd
    cases j with
    | zero =>
      have hic : i = c := by simpa using hj
      simp [GetColStartLoop, hic, totalShownWidth]
    | succ j2 =>
      have hj2 : rest[j2]? = some c := by simpa using hj
      have hne : i ≠ c := fun h => hnd2.1 (h ▸ List.getElem?_mem hj2)
      rw [GetColStartLoop, if_neg hne, ih j2 c _ hnd2.2 hj2, List.take_succ_cons,
        totalShownWidth]
      congr 1
      split <;> omega

/-- The 32-bit loop computes the exact value whenever that value fits an `int`. -/
theorem GetColStartLoop32_eq_of_fits (g : Nat → wxHeaderColumn) (idx : Nat) :
    ∀ (l : List Nat) (pos v : Int), (∀ i ∈ l, 0 ≤ (g i).width) → INT_MIN ≤ pos →
      GetColStartLoop g idx l pos = some v → v ≤ INT_MAX →
      GetColStartLoop32 g idx l pos = some v := by
  intro l
  induction l with
  | nil => intro pos v _ _ hv; simp [GetColStartLoop] at hv
  | cons i rest ih =>
    intro pos v hw hlo hv hhi
    have hw2 : ∀ k ∈ rest, 0 ≤ (g k).width := fun k hk => hw k (List.mem_cons_of_mem _ hk)
    have hwi := hw i (List.mem_cons_self _ _)
    by_cases hi : i = idx
    · rw [GetColStartLoop, if_pos hi] at hv
      rw [GetColStartLoop32, if_pos hi]
      exact hv
    · rw [GetColStartLoop, if_neg hi] at hv
      rw [GetColStartLoop32, if_neg hi]
      by_cases hsh : (g i).shown = true
      · rw [if_pos hsh] at hv
        have hge := GetColStartLoop_ge g idx rest _ v hw2 hv
        rw [if_pos hsh, wrapInt_of_fits (by omega) (by omega)]
        exact ih _ v hw2 (by omega) hv hhi
      · rw [if_neg hsh] at hv
        rw [if_neg hsh]
        exact ih _ v hw2 hlo hv hhi

/-- Method `GetColStart32` agrees with `GetColStart` whenever the exact position fits
an `int`. -/
theorem GetColStart32_eq_of_fits (s : wxHeaderCtrl) (idx : Nat) (v : Int)
    (hw : ∀ i ∈ s.m_colIndices, 0 ≤ (s.GetColumn i).width) (hlo : INT_MIN ≤ s.m_scrollOffset)
    (hv : GetColStart s idx = some v) (hhi : v ≤ INT_MAX) : GetColStart32 s idx = some v :=
  GetColStartLoop32_eq_of_fits s.GetColumn idx s.m_colIndices s.m_scrollOffset v hw hlo hv hhi

/-- C9, amended: on a permutation of at least one column with non-negative
widths, `GetColStart` (in 32-bit `int` arithmetic) of the first displayed column
is the scroll offset, and `GetColStart(P[i]) <= GetColStart(P[j])` for all
positions `i < j` such that the scroll offset plus the widths of the shown
columns displayed before position `j` does not exceed the greatest `int`. -/
theorem GetColStart_monotone_in_display_order (s : wxHeaderCtrl) (hperm : IsPermutation s)
    (hN : 1 ≤ s.m_numColumns) (hw : ∀ k, k < s.m_numColumns → 0 ≤ (s.GetColumn k).width) :
    (∃ c, s.m_colIndices[0]? = some c ∧ GetColStart32 s c = some s.m_scrollOffset) ∧
    ∀ (i j ci cj : Nat), i < j → s.m_colIndices[i]? = some ci → s.m_colIndices[j]? = some cj →
      INT_MIN ≤ s.m_scrollOffset →
      s.m_scrollOffset + totalShownWidth s.GetColumn (s.m_colIndices.take j) ≤ INT_MAX →
      ∃ a b, GetColStart32 s ci = some a ∧ GetColStart32 s cj = some b ∧ a ≤ b := by
  have hw2 : ∀ k ∈ s.m_colIndices, 0 ≤ (s.GetColumn k).width :=
    fun k hk => hw k ((hperm.mem_iff k).1 hk)
  constructor
  · have hlen := hperm.length_eq
    cases hl : s.m_colIndices with
    | nil => rw [hl] at hlen; simp at hlen; omega
    | cons c rest => exact ⟨c, by simp, by simp [GetColStart32, hl, GetColStartLoop32]⟩
  · intro i j ci cj hij hi hj hlo hfit
    obtain ⟨a, ha⟩ := GetColStartLoop_isSome s.GetColumn ci s.m_colIndices s.m_scrollOffset
      (List.getElem?_mem hi)
    have hb := GetColStartLoop_eq_totalShownWidth s.GetColumn s.m_colIndices j cj
      s.m_scrollOffset hperm.nodup hj
    have hab := GetColStartLoop_mono s.GetColumn _ _ i j ci cj a _ hperm.nodup hw2 hij hi hj
      ha hb
    exact ⟨a, _, GetColStart32_eq_of_fits s ci a hw2 hlo ha (le_trans hab hfit),
      GetColStart32_eq_of_fits s cj _ hw2 hlo hb hfit, hab⟩

theorem GetColStartLoop_cons_of_mem (g : Nat → wxHeaderColumn) (i c : Nat) (rest : List Nat)
    (p : Int) (hnd : (i :: rest).Nodup) (hc : c ∈ rest) :
    GetColStartLoop g c (i :: rest) p =
      GetColStartLoop g c rest (if (g i).shown then p + (g i).width else p) := by
  have hne : i ≠ c := fun h => (List.nodup_cons.1 hnd).1 (h ▸ hc)
  simp [GetColStartLoop, hne]

theorem FindColumnAtPointLoop_hidden (g : Nat → wxHeaderColumn) (m xl pos : Int) (i : Nat)
    (rest : List Nat) (hsh : (g i).shown = false) :
    FindColumnAtPointLoop g m xl (i :: rest) pos = FindColumnAtPointLoop g m xl rest pos := by
  rw [FindColumnAtPointLoop, if_pos hsh]

theorem FindColumnAtPointLoop_separator (g : Nat → wxHeaderColumn) (m xl pos : Int) (i : Nat)
    (rest : List Nat) (hsh : (g i).shown = true)
    (hsep : (g i).resizeable = true ∧ |xl - (pos + (g i).width)| < m) :
    FindColumnAtPointLoop g m xl (i :: rest) pos = (i, Region.Separator) := by
  rw [FindColumnAtPointLoop, if_neg (by simp [hsh]), if_pos hsep]

theorem FindColumnAtPointLoop_left (g : Nat → wxHeaderColumn) (m xl pos : Int) (i : Nat)
    (rest : List Nat) (hsh : (g i).shown = true)
    (hsep : ¬ ((g i).resizeable = true ∧ |xl - (pos + (g i).width)| < m))
    (hin : xl < pos + (g i).width ∧ xl ≥ pos)
    (hhalf : xl - pos < pos + (g i).width - xl) :
    FindColumnAtPointLoop g m xl (i :: rest) pos = (i, Region.LeftHalf) := by
  rw [FindColumnAtPointLoop, if_neg (by simp [hsh]), if_neg hsep, if_pos hin, if_pos hhalf]

theorem FindColumnAtPointLoop_right (g : Nat → wxHeaderColumn) (m xl pos : Int) (i : Nat)
    (rest : List Nat) (hsh : (g i).shown = true)
    (hsep : ¬ ((g i).resizeable = true ∧ |xl - (pos + (g i).width)| < m))
    (hin : xl < pos + (g i).width ∧ xl ≥ pos)
    (hhalf : ¬ (xl - pos < pos + (g i).width - xl)) :
    FindColumnAtPointLoop g m xl (i :: rest) pos = (i, Region.RightHalf) := by
  rw [FindColumnAtPointLoop, if_neg (by simp [hsh]), if_neg hsep, if_pos hin, if_neg hhalf]

theorem FindColumnAtPointLoop_next (g : Nat → wxHeaderColumn) (m xl pos : Int) (i : Nat)
    (rest : List Nat) (hsh : (g i).shown = true)
    (hsep : ¬ ((g i).resizeable = true ∧ |xl - (pos + (g i).width)| < m))
    (hin : ¬ (xl < pos + (g i).width ∧ xl ≥ pos)) :
    FindColumnAtPointLoop g m xl (i :: rest) pos =
      FindColumnAtPointLoop g m xl rest (pos + (g i).width) := by
  rw [FindColumnAtPointLoop, if_neg (by simp [hsh]), if_neg hsep, if_neg hin]

theorem FindColumnAtPointLoop_sound (g : Nat → wxHeaderColumn) (m xl off : Int) :
    ∀ (l : List Nat) (pos : Int), l.Nodup →
      FindColumnAtPointLoop g m xl l pos = (COL_NONE, Region.NoWhere) ∨
      ((FindColumnAtPointLoop g m xl l pos).1 ∈ l ∧
        (g (FindColumnAtPointLoop g m xl l pos).1).shown = true ∧
        ∃ st, GetColStartLoop g (FindColumnAtPointLoop g m xl l pos).1 l (off + pos) = some st ∧
          (((FindColumnAtPointLoop g m xl l pos).2 = Region.Separator ∧
              (g (FindColumnAtPointLoop g m xl l pos).1).resizeable = true ∧
              |xl - (st - off + (g (FindColumnAtPointLoop g m xl l pos).1).width)| < m) ∨
           (((FindColumnAtPointLoop g m xl l pos).2 = Region.LeftHalf ∨
              (FindColumnAtPointLoop g m xl l pos).2 = Region.RightHalf) ∧
              st - off ≤ xl ∧
              xl < st - off + (g (FindColumnAtPointLoop g m xl l pos).1).width))) := by
  intro l
  induction l with
  | nil => intro pos _; left; rfl
  | cons i rest ih =>
    intro pos hnd
    have hnd2 := (List.nodup_cons.1 hnd).2
    by_cases hsh : (g i).shown = false
    · have hstep : FindColumnAtPointLoop g m xl (i :: rest) pos =
          FindColumnAtPointLoop g m xl rest pos := by
        simp [FindColumnAtPointLoop, hsh]
      rw [hstep]
      rcases ih pos hnd2 with h | ⟨hmem, hshown, st, hst, hreg⟩
      · exact Or.inl h
      · refine Or.inr ⟨List.mem_cons_of_mem _ hmem, hshown, st, ?_, hreg⟩
        rw [GetColStartLoop_cons_of_mem g i _ rest _ hnd hmem]
        simpa [hsh] using hst
    · have hsh2 : (g i).shown = true := by simpa using hsh
      by_cases hsep : (g i).resizeable = true ∧ |xl - (pos + (g i).width)| < m
      · have hstep : FindColumnAtPointLoop g m xl (i :: rest) pos = (i, Region.Separator) :=
          FindColumnAtPointLoop_separator g m xl pos i rest hsh2 hsep
        rw [hstep]
        refine Or.inr ⟨List.mem_cons_self _ _, hsh2, off + pos, by simp [GetColStartLoop], ?_⟩
        left
        refine ⟨rfl, hsep.1, ?_⟩
        have : off + pos - off + (g i).width = pos + (g i).width := by ring
        simpa [this] using hsep.2
      · by_cases hin : xl < pos + (g i).width ∧ xl ≥ pos
        · have hmemi : i ∈ i :: rest := List.mem_cons_self _ _
          have hsti : GetColStartLoop g i (i :: rest) (off + pos) = some (off + pos) := by
            simp [GetColStartLoop]
          by_cases hhalf : xl - pos < pos + (g i).width - xl
          · have hstep : FindColumnAtPointLoop g m xl (i :: rest) pos = (i, Region.LeftHalf) :=
              FindColumnAtPointLoop_left g m xl pos i rest hsh2 hsep hin hhalf
            rw [hstep]
            refine Or.inr ⟨hmemi, hsh2, off + pos, hsti, Or.inr ⟨Or.inl rfl, ?_, ?_⟩⟩
            · have := hin.2; show off + pos - off ≤ xl; omega
            · have := hin.1; show xl < off + pos - off + (g i).width; omega
          · have hstep : FindColumnAtPointLoop g m xl (i :: rest) pos = (i, Region.RightHalf) :=
              FindColumnAtPointLoop_right g m xl pos i rest hsh2 hsep hin hhalf
            rw [hstep]
            refine Or.inr ⟨hmemi, hsh2, off + pos, hsti, Or.inr ⟨Or.inr rfl, ?_, ?_⟩⟩
            · have := hin.2; show off + pos - off ≤ xl; omega
            · have := hin.1; show xl < off + pos - off + (g i).width; omega
        · have hstep : FindColumnAtPointLoop g m xl (i :: rest) pos =
              FindColumnAtPointLoop g m xl rest (pos + (g i).width) :=
            FindColumnAtPointLoop_next g m xl pos i rest hsh2 hsep hin
          rw [hstep]
          rcases ih (pos + (g i).width) hnd2 with h | ⟨hmem, hshown, st, hst, hreg⟩
          · exact Or.inl h
          · refine Or.inr ⟨List.mem_cons_of_mem _ hmem, hshown, st, ?_, hreg⟩
            rw [GetColStartLoop_cons_of_mem g i _ rest _ hnd hmem]
            have : off + pos + (g i).width = off + (pos + (g i).width) := by ring
            simpa [hsh2, this] using hst

theorem mem_ne_COL_NONE {s : wxHeaderCtrl} (hperm : IsPermutation s)
    (hcount : s.m_numColumns ≤ COL_NONE) {i : Nat} (hi : i ∈ s.m_colIndices) : i ≠ COL_NONE := by
  have := (hperm.mem_iff i).1 hi
  omega

/-- What `FindColumnAtPoint` returns on a permutation, in terms of `GetColStart`. -/
theorem FindColumnAtPoint_cases (s : wxHeaderCtrl) (hperm : IsPermutation s) (x : Int) :
    FindColumnAtPoint s x = (COL_NONE, Region.NoWhere) ∨
    ((FindColumnAtPoint s x).1 ∈ s.m_colIndices ∧
      (s.GetColumn (FindColumnAtPoint s x).1).shown = true ∧
      ∃ st, GetColStart s (FindColumnAtPoint s x).1 = some st ∧
        (((FindColumnAtPoint s x).2 = Region.Separator ∧
            (s.GetColumn (FindColumnAtPoint s x).1).resizeable = true ∧
            |(x - s.m_scrollOffset) -
              (st + (s.GetColumn (FindColumnAtPoint s x).1).width - s.m_scrollOffset)| <
                s.separatorClickMargin) ∨
         (((FindColumnAtPoint s x).2 = Region.LeftHalf ∨
            (FindColumnAtPoint s x).2 = Region.RightHalf) ∧
            st ≤ x ∧ x < st + (s.GetColumn (FindColumnAtPoint s x).1).width))) := by
  have h := FindColumnAtPointLoop_sound s.GetColumn s.separatorClickMargin
    (x - s.m_scrollOffset) s.m_scrollOffset s.m_colIndices 0 hperm.nodup
  unfold FindColumnAtPoint GetColStart
  rw [hperm.take_eq]
  rcases h with h | ⟨hmem, hshown, st, hst, hreg⟩
  · exact Or.inl h
  · refine Or.inr ⟨hmem, hshown, st, by simpa using hst, ?_⟩
    rcases hreg with ⟨h1, h2, h3⟩ | ⟨h1, h2, h3⟩
    · left
      refine ⟨h1, h2, ?_⟩
      have he : st + (s.GetColumn (FindColumnAtPointLoop s.GetColumn s.separatorClickMargin
          (x - s.m_scrollOffset) s.m_colIndices 0).1).width - s.m_scrollOffset =
          st - s.m_scrollOffset + (s.GetColumn (FindColumnAtPointLoop s.GetColumn
            s.separatorClickMargin (x - s.m_scrollOffset) s.m_colIndices 0).1).width := by ring
      rw [he]; exact h3
    · right
      exact ⟨h1, by omega, by omega⟩

theorem FindColumnAfterLoop_eq (c : Nat) :
    ∀ l : List Nat, FindColumnAfterLoop c l = l.getD (l.indexOf c + 1) COL_NONE := by
  intro l
  induction l with
  | nil => simp [FindColumnAfterLoop]
  | cons a rest ih =>
    cases rest with
    | nil => simp [FindColumnAfterLoop]
    | cons b rest2 =>
      by_cases hac : a = c
      · simp [FindColumnAfterLoop, hac]
      · rw [FindColumnAfterLoop, if_neg hac, ih, List.indexOf_cons_ne _ hac]
        simp

theorem FindColumnBeforeLoop_eq (c : Nat) :
    ∀ (l : List Nat) (b : Nat), FindColumnBeforeLoop c l b =
      if c ∈ l then (if l.indexOf c = 0 then b else l.getD (l.indexOf c - 1) COL_NONE)
      else COL_NONE := by
  intro l
  induction l with
  | nil => intro b; simp [FindColumnBeforeLoop]
  | cons a rest ih =>
    intro b
    by_cases hac : a = c
    · simp [FindColumnBeforeLoop, hac]
    · have hca : ¬ c = a := fun h => hac h.symm
      rw [FindColumnBeforeLoop, if_neg hac, ih, List.indexOf_cons_ne _ hac]
      by_cases hmem : c ∈ rest
      · simp only [hmem, List.mem_cons, or_true, if_true, Nat.succ_ne_zero, if_false]
        by_cases h0 : rest.indexOf c = 0
        · simp [h0]
        · obtain ⟨k, hk⟩ : ∃ k, rest.indexOf c = k + 1 := ⟨rest.indexOf c - 1, by omega⟩
          simp [hk]
      · simp [hmem, hca]

theorem indexOf_getD_of_nodup {l : List Nat} (hnd : l.Nodup) {k : Nat} (hk : k < l.length)
    (d : Nat) : l.getD k d ∈ l ∧ l.indexOf (l.getD k d) = k := by
  rw [List.getD_eq_getElem l d hk]
  exact ⟨List.getElem_mem _, List.indexOf_getElem hnd k hk⟩

theorem indexOf_erase_of_ne (S T : Nat) (hTS : T ≠ S) :
    ∀ l : List Nat, S ∈ l → (l.erase S).indexOf T =
      if l.indexOf T < l.indexOf S then l.indexOf T else l.indexOf T - 1 := by
  intro l
  induction l with
  | nil => intro h; simp at h
  | cons a rest ih =>
    intro hS
    by_cases haS : a = S
    · subst haS
      have : ¬ a = T := fun h => hTS h.symm
      simp [List.indexOf_cons_ne _ this]
    · have hS2 : S ∈ rest := by
        rcases List.mem_cons.1 hS with h | h
        · exact absurd h.symm haS
        · exact h
      have herase : (a :: rest).erase S = a :: rest.erase S := by
        simp [List.erase_cons, haS]
      rw [herase, List.indexOf_cons_ne _ haS]
      by_cases haT : a = T
      · subst haT; simp
      · rw [List.indexOf_cons_ne _ haT, List.indexOf_cons_ne _ haT, ih hS2]
        have hSlt : rest.indexOf S < rest.length := List.indexOf_lt_length.2 hS2
        have hne : rest.indexOf T ≠ rest.indexOf S := by
          intro heq
          by_cases hT2 : T ∈ rest
          · exact hTS ((List.indexOf_inj hT2 hS2).1 heq)
          · have := List.indexOf_of_not_mem hT2
            omega
        split <;> split <;> omega

theorem indexOf_insertIdx_self (S : Nat) :
    ∀ (r : List Nat) (p : Nat), S ∉ r → p ≤ r.length → (List.insertIdx p S r).indexOf S = p := by
  intro r
  induction r with
  | nil => intro p _ hp; have : p = 0 := by simpa using hp
           subst this; simp
  | cons a rest ih =>
    intro p hS hp
    cases p with
    | zero => simp
    | succ q =>
      have haS : a ≠ S := fun h => hS (h ▸ List.mem_cons_self _ _)
      have hS2 : S ∉ rest := fun h => hS (List.mem_cons_of_mem _ h)
      rw [List.insertIdx_succ_cons, List.indexOf_cons_ne _ haS, ih q hS2 (by simpa using hp)]

theorem indexOf_insertIdx_of_ne (S T : Nat) (hTS : T ≠ S) :
    ∀ (r : List Nat) (p : Nat), p ≤ r.length → (List.insertIdx p S r).indexOf T =
      if r.indexOf T < p then r.indexOf T else r.indexOf T + 1 := by
  intro r
  induction r with
  | nil => intro p hp; have : p = 0 := by simpa using hp
           subst this
           have : ¬ S = T := fun h => hTS h.symm
           simp [List.indexOf_cons_ne _ this]
  | cons a rest ih =>
    intro p hp
    have hST : ¬ S = T := fun h => hTS h.symm
    cases p with
    | zero => simp [List.indexOf_cons_ne _ hST]
    | succ q =>
      rw [List.insertIdx_succ_cons]
      by_cases haT : a = T
      · subst haT; simp
      · rw [List.indexOf_cons_ne _ haT, List.indexOf_cons_ne _ haT, ih q (by simpa using hp)]
        split <;> split <;> omega

theorem filter_insertIdx_self (S : Nat) :
    ∀ (r : List Nat) (p : Nat), (List.insertIdx p S r).filter (fun i => decide (i ≠ S)) =
      r.filter (fun i => decide (i ≠ S)) := by
  intro r
  induction r with
  | nil => intro p; cases p <;> simp
  | cons a rest ih =>
    intro p
    cases p with
    | zero => simp
    | succ q => rw [List.insertIdx_succ_cons, List.filter_cons, List.filter_cons, ih q]

theorem perm_insertIdx_erase {l : List Nat} {S : Nat} (hS : S ∈ l) {p : Nat}
    (hp : p + 1 ≤ l.length) : (List.insertIdx p S (l.erase S)).Perm l := by
  have hlen : (l.erase S).length = l.length - 1 := List.length_erase_of_mem hS
  have h1 : (List.insertIdx p S (l.erase S)).Perm (S :: l.erase S) :=
    List.perm_insertIdx S (l.erase S) (by omega)
  exact h1.trans (List.perm_cons_erase hS).symm

theorem toUnsigned_natCast (n : Nat) (hn : n < 4294967296) : toUnsigned (n : Int) = n := by
  unfold toUnsigned
  omega

theorem GetColumnPos_of_mem {s : wxHeaderCtrl} (hperm : IsPermutation s)
    (hcount : s.m_numColumns ≤ COL_NONE) {c : Nat} (hc : c ∈ s.m_colIndices) :
    GetColumnPos s c = s.m_colIndices.indexOf c := by
  have h1 : s.m_colIndices.indexOf c < s.m_colIndices.length := List.indexOf_lt_length.2 hc
  have h2 := hperm.length_eq
  unfold COL_NONE at hcount
  unfold GetColumnPos Index
  rw [if_pos hc]
  exact toUnsigned_natCast _ (by omega)

theorem unsignedPred_of_pos {n : Nat} (h1 : 1 ≤ n) (h2 : n ≤ COL_NONE) :
    unsignedPred n = n - 1 := by
  unfold COL_NONE at h2
  unfold unsignedPred
  omega

theorem FindColumnBefore_of_pos {s : wxHeaderCtrl} (hperm : IsPermutation s) {c : Nat}
    (hc : c ∈ s.m_colIndices) (hpos : 0 < s.m_colIndices.indexOf c) :
    FindColumnBefore s c ∈ s.m_colIndices ∧
      s.m_colIndices.indexOf (FindColumnBefore s c) = s.m_colIndices.indexOf c - 1 := by
  have hlt : s.m_colIndices.indexOf c < s.m_colIndices.length := List.indexOf_lt_length.2 hc
  unfold FindColumnBefore
  rw [hperm.take_eq, FindColumnBeforeLoop_eq, if_pos hc, if_neg (by omega)]
  exact indexOf_getD_of_nodup hperm.nodup (by omega) _

theorem FindColumnAfter_of_not_last {s : wxHeaderCtrl} (hperm : IsPermutation s) {c : Nat}
    (hlt : s.m_colIndices.indexOf c + 1 < s.m_colIndices.length) :
    FindColumnAfter s c ∈ s.m_colIndices ∧
      s.m_colIndices.indexOf (FindColumnAfter s c) = s.m_colIndices.indexOf c + 1 := by
  unfold FindColumnAfter
  rw [hperm.take_eq, FindColumnAfterLoop_eq]
  exact indexOf_getD_of_nodup hperm.nodup hlt _

theorem FindColumnAfter_of_last {s : wxHeaderCtrl} (hperm : IsPermutation s) {c : Nat}
    (hge : s.m_colIndices.length ≤ s.m_colIndices.indexOf c + 1) :
    FindColumnAfter s c = COL_NONE := by
  unfold FindColumnAfter
  rw [hperm.take_eq, FindColumnAfterLoop_eq]
  exact List.getD_eq_default _ _ hge

theorem EndReorderingMove_eq (h : Handler) (s : wxHeaderCtrl) (hperm : IsPermutation s)
    (hcount : s.m_numColumns ≤ COL_NONE) (colOld colNew : Nat) (located : Bool)
    (region : Region) (hold : colOld ∈ s.m_colIndices) (hnew : colNew ∈ s.m_colIndices)
    (hne : colNew ≠ colOld) :
    EndReorderingMove h s colOld colNew located region =
      some (if (h (Notification.EndReorder colOld (dropPosition s colOld colNew located region))).processed
              = false ∨
            (h (Notification.EndReorder colOld (dropPosition s colOld colNew located region))).allowed
              = true
          then DoMoveCol s colOld (dropPosition s colOld colNew located region) else s,
        true, [Notification.EndReorder colOld (dropPosition s colOld colNew located region)]) := by
  have hlen := hperm.length_eq
  have hkO : s.m_colIndices.indexOf colOld < s.m_colIndices.length := List.indexOf_lt_length.2 hold
  have hkN : s.m_colIndices.indexOf colNew < s.m_colIndices.length := List.indexOf_lt_length.2 hnew
  have hkne : s.m_colIndices.indexOf colOld ≠ s.m_colIndices.indexOf colNew := fun heq =>
    hne ((List.indexOf_inj hold hnew).1 heq).symm
  have hpO := GetColumnPos_of_mem hperm hcount hold
  have hpN := GetColumnPos_of_mem hperm hcount hnew
  have hpred : unsignedPred (GetColumnCount s) = s.m_numColumns - 1 :=
    unsignedPred_of_pos (by unfold GetColumnCount; omega) hcount
  by_cases hret : s.m_colIndices.indexOf colOld < s.m_colIndices.indexOf colNew ∧
      (s.m_colIndices.indexOf colNew + 1 ≠ s.m_numColumns ∨ located = true ∨
        region = Region.LeftHalf)
  · have hb := FindColumnBefore_of_pos hperm hnew (by omega)
    have hbne : FindColumnBefore s colNew ≠ COL_NONE := mem_ne_COL_NONE hperm hcount hb.1
    have hpB := GetColumnPos_of_mem hperm hcount hb.1
    have hretB : (decide (GetColumnPos s colOld < GetColumnPos s colNew) &&
        (decide (GetColumnPos s colNew ≠ unsignedPred (GetColumnCount s)) || located ||
          decide (region = Region.LeftHalf))) = true := by
      rw [hpO, hpN, hpred]
      simp only [Bool.and_eq_true, Bool.or_eq_true, decide_eq_true_eq]
      refine ⟨hret.1, ?_⟩
      rcases hret.2 with h1 | h1 | h1
      · exact Or.inl (Or.inl (by omega))
      · exact Or.inl (Or.inr h1)
      · exact Or.inr h1
    have hdrop : dropPosition s colOld colNew located region =
        s.m_colIndices.indexOf colNew - 1 := by
      unfold dropPosition; rw [if_pos hret]
    unfold EndReorderingMove
    simp only [hretB, if_true, hbne, and_false, if_false]
    rw [hpB, hb.2, hpO, hpN, hdrop]
    rw [if_pos (Or.inr (Or.inr (Or.inl (by simpa using hret.1))))]
    split <;> rfl
  · have hretB : (decide (GetColumnPos s colOld < GetColumnPos s colNew) &&
        (decide (GetColumnPos s colNew ≠ unsignedPred (GetColumnCount s)) || located ||
          decide (region = Region.LeftHalf))) = false := by
      rw [hpO, hpN, hpred]
      rw [Bool.eq_false_iff]
      intro hcon
      simp only [Bool.and_eq_true, Bool.or_eq_true, decide_eq_true_eq] at hcon
      apply hret
      refine ⟨hcon.1, ?_⟩
      rcases hcon.2 with (h1 | h1) | h1
      · exact Or.inl (by omega)
      · exact Or.inr (Or.inl h1)
      · exact Or.inr (Or.inr h1)
    have hdrop : dropPosition s colOld colNew located region =
        s.m_colIndices.indexOf colNew := by
      unfold dropPosition; rw [if_neg hret]
    unfold EndReorderingMove
    simp only [hretB, Bool.false_eq_true, false_and, if_false]
    rw [hpO, hpN, hdrop]
    have hfire : toUnsigned (Index (MoveColumnInOrderArray s.m_colIndices colOld
          (s.m_colIndices.indexOf colNew)) colNew) ≠ s.m_colIndices.indexOf colOld ∨
        toUnsigned (Index (MoveColumnInOrderArray s.m_colIndices colOld
          (s.m_colIndices.indexOf colNew)) colOld) ≠ s.m_colIndices.indexOf colNew ∨
        decide (s.m_colIndices.indexOf colOld < s.m_colIndices.indexOf colNew) = true ∨
        s.m_colIndices.indexOf colOld > s.m_colIndices.indexOf colNew := by
      by_cases hlt : s.m_colIndices.indexOf colOld < s.m_colIndices.indexOf colNew
      · exact Or.inr (Or.inr (Or.inl (by simpa using hlt)))
      · exact Or.inr (Or.inr (Or.inr (by omega)))
    rw [if_pos hfire]
    split <;> rfl

theorem EndReordering_of_moved (h : Handler) (s : wxHeaderCtrl) (x start : Int)
    (hstart : GetColStart s s.m_colBeingReordered = some start)
    (hmoved : x - start ≠ s.m_dragOffset) :
    EndReordering h s x =
      if dropTarget s x = COL_NONE then some (reorderCleared s, false, [])
      else if dropTarget s x ≠ s.m_colBeingReordered ∧
          (FindColumnClosestToPoint s x).2 ≠ Region.NoWhere then
        EndReorderingMove h (reorderCleared s) s.m_colBeingReordered (dropTarget s x)
          (locatedByPreviousCol s x) (FindColumnClosestToPoint s x).2
      else some (reorderCleared s, true, []) := by
  have hstart2 : GetColStart { s with m_colBeingReordered := COL_NONE } s.m_colBeingReordered
      = some start := hstart
  unfold EndReordering
  simp only [hstart2]
  rw [if_neg hmoved]
  rfl

theorem EndReordering_of_not_moved (h : Handler) (s : wxHeaderCtrl) (x start : Int)
    (hstart : GetColStart s s.m_colBeingReordered = some start)
    (hmoved : x - start = s.m_dragOffset) :
    EndReordering h s x = some (reorderCleared s, false, []) := by
  have hstart2 : GetColStart { s with m_colBeingReordered := COL_NONE } s.m_colBeingReordered
      = some start := hstart
  unfold EndReordering
  simp only [hstart2]
  rw [if_pos hmoved]
  rfl

theorem FindColumnClosestToPoint_of_region (s : wxHeaderCtrl) (x : Int)
    (hreg : (FindColumnClosestToPoint s x).2 ≠ Region.NoWhere) :
    FindColumnClosestToPoint s x = FindColumnAtPoint s x := by
  unfold FindColumnClosestToPoint at hreg ⊢
  by_cases h1 : (FindColumnAtPoint s x).1 ≠ COL_NONE
  · rw [if_pos h1]
  · rw [if_neg h1] at hreg
    exfalso; apply hreg
    split <;> rfl

theorem FindColumnClosestToPoint_mem (s : wxHeaderCtrl) (hperm : IsPermutation s)
    (hN : 1 ≤ s.m_numColumns) (x : Int) :
    (FindColumnClosestToPoint s x).1 ∈ s.m_colIndices := by
  unfold FindColumnClosestToPoint
  by_cases h1 : (FindColumnAtPoint s x).1 ≠ COL_NONE
  · rw [if_pos h1]
    rcases FindColumnAtPoint_cases s hperm x with h2 | h2
    · exact absurd (congrArg Prod.fst h2) h1
    · exact h2.1
  · rw [if_neg h1, if_neg (by unfold GetColumnCount; omega)]
    have hlen := hperm.length_eq
    unfold GetColumnCount
    show s.m_colIndices.getD (s.m_numColumns - 1) COL_NONE ∈ s.m_colIndices
    rw [List.getD_eq_getElem s.m_colIndices COL_NONE (by omega)]
    exact List.getElem_mem _

theorem getElem?_indexOf_of_mem {l : List Nat} {a : Nat} (ha : a ∈ l) :
    l[l.indexOf a]? = some a := by
  rw [← List.get?_eq_getElem?]
  exact List.indexOf_get? ha

/-- The effect of the move on the display positions, for a permutation. -/
theorem MoveColumnInOrderArray_positions {l : List Nat} (hnd : l.Nodup) {S T : Nat}
    (hS : S ∈ l) (hTS : T ≠ S) {p : Nat} (hp : p + 1 ≤ l.length) :
    (MoveColumnInOrderArray l S p).Perm l ∧
    (MoveColumnInOrderArray l S p).indexOf S = p ∧
    (MoveColumnInOrderArray l S p).indexOf T =
      (if (if l.indexOf T < l.indexOf S then l.indexOf T else l.indexOf T - 1) < p then
        (if l.indexOf T < l.indexOf S then l.indexOf T else l.indexOf T - 1)
      else (if l.indexOf T < l.indexOf S then l.indexOf T else l.indexOf T - 1) + 1) ∧
    (MoveColumnInOrderArray l S p).filter (fun i => decide (i ≠ S)) =
      l.filter (fun i => decide (i ≠ S)) := by
  have hlen : (l.erase S).length = l.length - 1 := List.length_erase_of_mem hS
  have hSr : S ∉ l.erase S := fun hmem => (List.Nodup.mem_erase_iff hnd).1 hmem |>.1 rfl
  unfold MoveColumnInOrderArray
  refine ⟨perm_insertIdx_erase hS hp, indexOf_insertIdx_self S _ p hSr (by omega), ?_, ?_⟩
  · rw [indexOf_insertIdx_of_ne S T hTS _ p (by omega), indexOf_erase_of_ne S T hTS l hS]
  · rw [filter_insertIdx_self, List.Nodup.erase_eq_filter hnd, List.filter_filter]
    congr 1
    funext a
    by_cases ha : a = S <;> simp [ha]

theorem adjacent_of_indexOf {l : List Nat} {a b : Nat} (ha : a ∈ l) (hb : b ∈ l)
    (hab : l.indexOf a + 1 = l.indexOf b) : ∃ k, l[k]? = some a ∧ l[k + 1]? = some b :=
  ⟨l.indexOf a, getElem?_indexOf_of_mem ha, by rw [hab]; exact getElem?_indexOf_of_mem hb⟩

theorem not_vetoed_iff (h : Handler) (e : Notification) :
    vetoed h e = false ↔ ((h e).processed = false ∨ (h e).allowed = true) := by
  unfold vetoed
  cases (h e).processed <;> cases (h e).allowed <;> simp

/-- C1: on a permutation, when a reorder of `S` is in progress, the drop point
resolves to a column `T` other than `S`, the pointer displacement is non-zero and
the handler does not veto `EndReorder`, then `EndReordering` reports true and in
the new display order `S` stands immediately before `T` for `LeftHalf` and
immediately after `T` for `RightHalf` and `Separator`; the order is still a
permutation and the columns other than `S` keep their relative order. -/
theorem EndReordering_places_source (h : Handler) (s : wxHeaderCtrl) (x : Int) (S T : Nat)
    (region : Region) (hperm : IsPermutation s) (hcount : s.m_numColumns ≤ COL_NONE)
    (hS : s.m_colBeingReordered = S) (hSlt : S < s.m_numColumns)
    (hdrop : FindColumnClosestToPoint s x = (T, region)) (hTS : T ≠ S)
    (hmoved : ∀ start, GetColStart s S = some start → x - start ≠ s.m_dragOffset)
    (hallow : ∀ pos, vetoed h (Notification.EndReorder S pos) = false) :
    ∃ s2 evs, EndReordering h s x = some (s2, true, evs) ∧
      IsPermutation s2 ∧
      (region = Region.LeftHalf →
        ∃ k, s2.m_colIndices[k]? = some S ∧ s2.m_colIndices[k + 1]? = some T) ∧
      (region = Region.RightHalf ∨ region = Region.Separator →
        ∃ k, s2.m_colIndices[k]? = some T ∧ s2.m_colIndices[k + 1]? = some S) ∧
      s2.m_colIndices.filter (fun i => decide (i ≠ S)) =
        s.m_colIndices.filter (fun i => decide (i ≠ S)) := by
  subst hS
  have hSmem : s.m_colBeingReordered ∈ s.m_colIndices := (hperm.mem_iff _).2 hSlt
  have hlen := hperm.length_eq
  obtain ⟨start, hstart⟩ := GetColStartLoop_isSome s.GetColumn s.m_colBeingReordered
    s.m_colIndices s.m_scrollOffset hSmem
  have hTmem : T ∈ s.m_colIndices := by
    have := FindColumnClosestToPoint_mem s hperm (by omega) x
    rwa [hdrop] at this
  have hTne : T ≠ COL_NONE := mem_ne_COL_NONE hperm hcount hTmem
  have hkS : s.m_colIndices.indexOf s.m_colBeingReordered < s.m_colIndices.length :=
    List.indexOf_lt_length.2 hSmem
  have hkT : s.m_colIndices.indexOf T < s.m_colIndices.length := List.indexOf_lt_length.2 hTmem
  have hkne : s.m_colIndices.indexOf T ≠ s.m_colIndices.indexOf s.m_colBeingReordered :=
    fun heq => hTS ((List.indexOf_inj hTmem hSmem).1 heq)
  have hperm1 : IsPermutation (reorderCleared s) := hperm
  have hcount1 : (reorderCleared s).m_numColumns ≤ COL_NONE := hcount
  rw [EndReordering_of_moved h s x start hstart (hmoved start hstart)]
  -- the outcome once the target and the position are known
  have hmove : ∀ (colNew : Nat) (located : Bool) (p : Nat), colNew ∈ s.m_colIndices →
      colNew ≠ s.m_colBeingReordered →
      dropPosition (reorderCleared s) s.m_colBeingReordered colNew located region = p →
      EndReorderingMove h (reorderCleared s) s.m_colBeingReordered colNew located region =
        some (DoMoveCol (reorderCleared s) s.m_colBeingReordered p, true,
          [Notification.EndReorder s.m_colBeingReordered p]) := by
    intro colNew located p hmem hne hp
    rw [EndReorderingMove_eq h (reorderCleared s) hperm1 hcount1 _ _ located region hSmem hmem hne,
      hp, if_pos ((not_vetoed_iff h _).1 (hallow p))]
  have hfinish : ∀ p : Nat, p + 1 ≤ s.m_colIndices.length →
      ((region = Region.LeftHalf →
          (MoveColumnInOrderArray s.m_colIndices s.m_colBeingReordered p).indexOf
            s.m_colBeingReordered + 1 =
          (MoveColumnInOrderArray s.m_colIndices s.m_colBeingReordered p).indexOf T) ∧
       (region = Region.RightHalf ∨ region = Region.Separator →
          (MoveColumnInOrderArray s.m_colIndices s.m_colBeingReordered p).indexOf T + 1 =
          (MoveColumnInOrderArray s.m_colIndices s.m_colBeingReordered p).indexOf
            s.m_colBeingReordered)) →
      ∃ s2 evs, some (DoMoveCol (reorderCleared s) s.m_colBeingReordered p, true,
          [Notification.EndReorder s.m_colBeingReordered p]) = some (s2, true, evs) ∧
        IsPermutation s2 ∧
        (region = Region.LeftHalf →
          ∃ k, s2.m_colIndices[k]? = some s.m_colBeingReordered ∧
            s2.m_colIndices[k + 1]? = some T) ∧
        (region = Region.RightHalf ∨ region = Region.Separator →
          ∃ k, s2.m_colIndices[k]? = some T ∧
            s2.m_colIndices[k + 1]? = some s.m_colBeingReordered) ∧
        s2.m_colIndices.filter (fun i => decide (i ≠ s.m_colBeingReordered)) =
          s.m_colIndices.filter (fun i => decide (i ≠ s.m_colBeingReordered)) := by
    intro p hp hadj
    obtain ⟨hpm, -, -, hfil⟩ :=
      MoveColumnInOrderArray_positions hperm.nodup hSmem hTS hp
    have hS2 : s.m_colBeingReordered ∈
        MoveColumnInOrderArray s.m_colIndices s.m_colBeingReordered p := hpm.mem_iff.2 hSmem
    have hT2 : T ∈ MoveColumnInOrderArray s.m_colIndices s.m_colBeingReordered p :=
      hpm.mem_iff.2 hTmem
    refine ⟨_, _, rfl, hpm.trans hperm, ?_, ?_, hfil⟩
    · intro hr; exact adjacent_of_indexOf hS2 hT2 (hadj.1 hr)
    · intro hr; exact adjacent_of_indexOf hT2 hS2 (hadj.2 hr)
  have hregion : (FindColumnClosestToPoint s x).2 = region := by rw [hdrop]
  have hfst : (FindColumnClosestToPoint s x).1 = T := by rw [hdrop]
  by_cases hleft : region = Region.LeftHalf
  · -- dropped on the left half of T
    have hloc : locatedByPreviousCol s x = false := by
      unfold locatedByPreviousCol; rw [hregion, hleft]; simp
    have htarget : dropTarget s x = T := by
      unfold dropTarget; rw [hloc, hfst]; simp
    rw [htarget, if_neg hTne, hregion, if_pos ⟨hTS, by rw [hleft]; decide⟩, hloc]
    have hple : dropPosition (reorderCleared s) s.m_colBeingReordered T false region + 1 ≤
        s.m_colIndices.length := by
      unfold dropPosition; split <;> (simp only [reorderCleared] at *) <;> omega
    obtain ⟨-, hiS, hiT, -⟩ := MoveColumnInOrderArray_positions hperm.nodup hSmem hTS hple
    rw [hmove T false _ hTmem hTS rfl]
    apply hfinish _ hple
    · rw [hiS, hiT]
      refine ⟨fun _ => ?_, fun hr => ?_⟩
      · unfold dropPosition
        simp only [reorderCleared, hleft, or_true, and_true]
        split <;> split <;> split <;> omega
      · rcases hr with hr | hr <;> rw [hleft] at hr <;> exact absurd hr (by decide)
  · by_cases hrs : region = Region.RightHalf ∨ region = Region.Separator
    · by_cases hnext : s.m_colIndices.indexOf T + 1 < s.m_colIndices.length
      · -- T has a successor: the drop is retargeted to it
        have hA := FindColumnAfter_of_not_last hperm hnext
        have hAne : FindColumnAfter s T ≠ COL_NONE := mem_ne_COL_NONE hperm hcount hA.1
        have hloc : locatedByPreviousCol s x = true := by
          unfold locatedByPreviousCol
          rw [hregion, hfst]
          rcases hrs with hr | hr <;> simp [hr, hTne, hAne]
        have htarget : dropTarget s x = FindColumnAfter s T := by
          unfold dropTarget; rw [hloc, hfst]; simp
        rw [htarget, if_neg hAne, hregion, hloc]
        by_cases hAS : FindColumnAfter s T = s.m_colBeingReordered
        · rw [if_neg (fun hc => hc.1 hAS)]
          refine ⟨reorderCleared s, [], rfl, hperm, fun hr => absurd hr hleft, fun _ => ?_, rfl⟩
          exact adjacent_of_indexOf (l := s.m_colIndices) hTmem hSmem (by rw [← hAS, hA.2])
        · rw [if_pos ⟨hAS, by rcases hrs with hr | hr <;> rw [hr] <;> decide⟩]
          have hpos : dropPosition (reorderCleared s) s.m_colBeingReordered
              (FindColumnAfter s T) true region =
              if s.m_colIndices.indexOf s.m_colBeingReordered < s.m_colIndices.indexOf T + 1
              then s.m_colIndices.indexOf T else s.m_colIndices.indexOf T + 1 := by
            unfold dropPosition
            simp only [reorderCleared, true_or, or_true, and_true, hA.2]
            rfl
          rw [hmove _ true _ hA.1 hAS hpos]
          obtain ⟨-, hiS, hiT, -⟩ := MoveColumnInOrderArray_positions hperm.nodup hSmem hTS
            (p := if s.m_colIndices.indexOf s.m_colBeingReordered < s.m_colIndices.indexOf T + 1
              then s.m_colIndices.indexOf T else s.m_colIndices.indexOf T + 1)
            (by split <;> omega)
          apply hfinish _ (by split <;> omega)
          rw [hiS, hiT]
          refine ⟨fun hr => absurd hr hleft, fun _ => ?_⟩
          split <;> split <;> split <;> omega
      · -- T is the last column: the dragged column is appended
        have hA := FindColumnAfter_of_last hperm (c := T) (by omega)
        have hloc : locatedByPreviousCol s x = false := by
          unfold locatedByPreviousCol
          rw [hfst, hA]; simp
        have htarget : dropTarget s x = T := by
          unfold dropTarget; rw [hloc, hfst]; simp
        rw [htarget, if_neg hTne, hregion, hloc,
          if_pos ⟨hTS, by rcases hrs with hr | hr <;> rw [hr] <;> decide⟩]
        have hpos : dropPosition (reorderCleared s) s.m_colBeingReordered T false region =
            s.m_colIndices.indexOf T := by
          unfold dropPosition
          rw [if_neg]
          · rfl
          · rintro ⟨-, hc | hc | hc⟩
            · apply hc; show s.m_colIndices.indexOf T + 1 = s.m_numColumns; omega
            · exact absurd hc (by decide)
            · exact hleft hc
        rw [hmove T false _ hTmem hTS hpos]
        obtain ⟨-, hiS, hiT, -⟩ := MoveColumnInOrderArray_positions hperm.nodup hSmem hTS
          (p := s.m_colIndices.indexOf T) (by omega)
        apply hfinish _ (by omega)
        rw [hiS, hiT]
        refine ⟨fun hr => absurd hr hleft, fun _ => ?_⟩
        split <;> split <;> omega
    · -- region NoWhere: nothing is moved
      have hloc : locatedByPreviousCol s x = false := by
        unfold locatedByPreviousCol
        rw [hregion]
        have h1 : ¬ region = Region.RightHalf := fun hc => hrs (Or.inl hc)
        have h2 : ¬ region = Region.Separator := fun hc => hrs (Or.inr hc)
        simp [h1, h2]
      have htarget : dropTarget s x = T := by
        unfold dropTarget; rw [hloc, hfst]; simp
      have hnw : region = Region.NoWhere := by
        cases region
        · rfl
        · exact absurd rfl hleft
        · exact absurd (Or.inl rfl) hrs
        · exact absurd (Or.inr rfl) hrs
      rw [htarget, if_neg hTne, hregion, if_neg (fun hc => hc.2 hnw)]
      exact ⟨reorderCleared s, [], rfl, hperm, fun hr => absurd hr hleft,
        fun hr => absurd hr hrs, rfl⟩

theorem dropTarget_mem (s : wxHeaderCtrl) (hperm : IsPermutation s) (hN : 1 ≤ s.m_numColumns)
    (x : Int) : dropTarget s x ∈ s.m_colIndices := by
  unfold dropTarget
  by_cases hloc : locatedByPreviousCol s x = true
  · rw [if_pos hloc]
    have hne : FindColumnAfter s (FindColumnClosestToPoint s x).1 ≠ COL_NONE := by
      unfold locatedByPreviousCol at hloc
      simp only [Bool.and_eq_true, decide_eq_true_eq] at hloc
      exact hloc.2
    by_cases hlt : s.m_colIndices.indexOf (FindColumnClosestToPoint s x).1 + 1 <
        s.m_colIndices.length
    · exact (FindColumnAfter_of_not_last hperm hlt).1
    · exact absurd (FindColumnAfter_of_last hperm (by omega)) hne
  · rw [if_neg hloc]
    exact FindColumnClosestToPoint_mem s hperm hN x

theorem dropPosition_lt (s : wxHeaderCtrl) (colOld colNew : Nat) (located : Bool)
    (region : Region) (hnew : colNew ∈ s.m_colIndices) :
    dropPosition s colOld colNew located region < s.m_colIndices.length := by
  have := List.indexOf_lt_length.2 hnew
  unfold dropPosition
  split <;> omega

/-- The outcome of `EndReordering` once the pointer has moved, on a permutation. -/
theorem EndReordering_eq_of_moved (h : Handler) (s : wxHeaderCtrl) (x start : Int)
    (hperm : IsPermutation s) (hcount : s.m_numColumns ≤ COL_NONE)
    (hSlt : s.m_colBeingReordered < s.m_numColumns)
    (hstart : GetColStart s s.m_colBeingReordered = some start)
    (hmoved : x - start ≠ s.m_dragOffset) :
    EndReordering h s x =
      if dropTarget s x ≠ s.m_colBeingReordered ∧
          (FindColumnClosestToPoint s x).2 ≠ Region.NoWhere then
        some
          (if vetoed h (Notification.EndReorder s.m_colBeingReordered
                (dropPosition s s.m_colBeingReordered (dropTarget s x)
                  (locatedByPreviousCol s x) (FindColumnClosestToPoint s x).2)) = false
            then DoMoveCol (reorderCleared s) s.m_colBeingReordered
              (dropPosition s s.m_colBeingReordered (dropTarget s x)
                (locatedByPreviousCol s x) (FindColumnClosestToPoint s x).2)
            else reorderCleared s,
          true,
          [Notification.EndReorder s.m_colBeingReordered
            (dropPosition s s.m_colBeingReordered (dropTarget s x)
              (locatedByPreviousCol s x) (FindColumnClosestToPoint s x).2)])
      else some (reorderCleared s, true, []) := by
  have hSmem : s.m_colBeingReordered ∈ s.m_colIndices := (hperm.mem_iff _).2 hSlt
  have hDmem := dropTarget_mem s hperm (by omega) x
  have hDne : dropTarget s x ≠ COL_NONE := mem_ne_COL_NONE hperm hcount hDmem
  have hperm1 : IsPermutation (reorderCleared s) := hperm
  have hcount1 : (reorderCleared s).m_numColumns ≤ COL_NONE := hcount
  rw [EndReordering_of_moved h s x start hstart hmoved, if_neg hDne]
  by_cases hgo : dropTarget s x ≠ s.m_colBeingReordered ∧
      (FindColumnClosestToPoint s x).2 ≠ Region.NoWhere
  · rw [if_pos hgo, if_pos hgo,
      EndReorderingMove_eq h (reorderCleared s) hperm1 hcount1 _ _ _ _ hSmem hDmem hgo.1]
    have hdp : dropPosition (reorderCleared s) s.m_colBeingReordered (dropTarget s x)
        (locatedByPreviousCol s x) (FindColumnClosestToPoint s x).2 =
        dropPosition s s.m_colBeingReordered (dropTarget s x)
        (locatedByPreviousCol s x) (FindColumnClosestToPoint s x).2 := rfl
    rw [hdp]
    by_cases hv : vetoed h (Notification.EndReorder s.m_colBeingReordered
        (dropPosition s s.m_colBeingReordered (dropTarget s x)
          (locatedByPreviousCol s x) (FindColumnClosestToPoint s x).2)) = false
    · rw [if_pos hv, if_pos ((not_vetoed_iff h _).1 hv)]
    · rw [if_neg hv, if_neg (fun hc => hv ((not_vetoed_iff h _).2 hc))]
  · rw [if_neg hgo, if_neg hgo]

/-- C7: if `StartReordering c x0` is accepted and `EndReordering` is then called
with the same `x0` on the resulting state, it returns false, dispatches no
notification and leaves the display order unchanged, the reorder being over. -/
theorem zero_displacement_reorder_is_noop (h : Handler) (s : wxHeaderCtrl) (c : Nat) (x0 : Int)
    (hc : c ∈ s.m_colIndices) (haccept : vetoed h (Notification.BeginReorder c) = false) :
    ∃ s1 s2, StartReordering h s c x0 = some (s1, [Notification.BeginReorder c]) ∧
      s1.m_colBeingReordered = c ∧ s1.m_colIndices = s.m_colIndices ∧
      EndReordering h s1 x0 = some (s2, false, []) ∧
      s2.m_colIndices = s.m_colIndices ∧ s2.m_colBeingReordered = COL_NONE := by
  obtain ⟨start, hstart⟩ := GetColStartLoop_isSome s.GetColumn c s.m_colIndices
    s.m_scrollOffset hc
  have hstart2 : GetColStart s c = some start := hstart
  have hSR : StartReordering h s c x0 =
      some ({ s with m_dragOffset := x0 - start, m_colBeingReordered := c },
        [Notification.BeginReorder c]) := by
    unfold StartReordering
    rw [haccept]
    simp [hstart2]
  refine ⟨_, reorderCleared { s with m_dragOffset := x0 - start, m_colBeingReordered := c },
    hSR, rfl, rfl, ?_, rfl, rfl⟩
  exact EndReordering_of_not_moved h { s with m_dragOffset := x0 - start, m_colBeingReordered := c }
    x0 start hstart rfl

theorem SameLayout.refl (s : wxHeaderCtrl) : SameLayout s s := ⟨rfl, rfl, rfl, rfl, rfl, rfl⟩

theorem SameLayout.trans {s t u : wxHeaderCtrl} (h1 : SameLayout s t) (h2 : SameLayout t u) :
    SameLayout s u :=
  ⟨h2.1.trans h1.1, h2.2.1.trans h1.2.1, h2.2.2.1.trans h1.2.2.1,
    h2.2.2.2.1.trans h1.2.2.2.1, h2.2.2.2.2.1.trans h1.2.2.2.2.1,
    h2.2.2.2.2.2.trans h1.2.2.2.2.2⟩

theorem GetColStart_congr {s t : wxHeaderCtrl} (h : SameLayout s t) (idx : Nat) :
    GetColStart t idx = GetColStart s idx := by
  obtain ⟨a1, -, a3, a4, -, -⟩ := h
  unfold GetColStart
  rw [a1, a3, a4]

theorem CancelDragging_cases (s : wxHeaderCtrl) :
    ((CancelDragging s).1 = { s with m_colBeingResized := COL_NONE } ∧ IsResizing s = true ∧
        (CancelDragging s).2 = [Notification.DraggingCancelled s.m_colBeingResized]) ∨
    ((CancelDragging s).1 = { s with m_colBeingReordered := COL_NONE } ∧ IsResizing s = false ∧
        (CancelDragging s).2 = [Notification.DraggingCancelled s.m_colBeingReordered]) := by
  unfold CancelDragging
  by_cases hr : IsResizing s = true
  · left; rw [if_pos hr]; exact ⟨rfl, hr, rfl⟩
  · right; rw [if_neg hr]; exact ⟨rfl, by simpa using hr, rfl⟩

theorem ConstrainByMinWidth_eq (s : wxHeaderCtrl) (col : Nat) (x st : Int)
    (hst : GetColStart s col = some st) :
    ConstrainByMinWidth s col x =
      some (max (x - st) (s.GetColumn col).minWidth, max x (st + (s.GetColumn col).minWidth)) := by
  unfold ConstrainByMinWidth
  rw [hst]
  simp only []
  by_cases hlt : x < st + (s.GetColumn col).minWidth
  · rw [if_pos hlt, max_eq_right (by omega), max_eq_right (by omega)]
    congr 2; omega
  · rw [if_neg hlt, max_eq_left (by omega), max_eq_left (by omega)]

theorem ConstrainByMinWidth_some (s : wxHeaderCtrl) (col : Nat) (x w x2 : Int)
    (h : ConstrainByMinWidth s col x = some (w, x2)) :
    ∃ st, GetColStart s col = some st ∧ w = max (x - st) (s.GetColumn col).minWidth := by
  cases hst : GetColStart s col with
  | none => simp [ConstrainByMinWidth, hst] at h
  | some st =>
    rw [ConstrainByMinWidth_eq s col x st hst] at h
    refine ⟨st, rfl, ?_⟩
    have := congrArg Prod.fst (Option.some.inj h)
    exact this.symm

/-- The possible outcomes of `StartOrContinueResizing`. -/
theorem StartOrContinueResizing_cases (h : Handler) (s : wxHeaderCtrl) (col : Nat) (x : Int)
    (t : wxHeaderCtrl) (evs : List Notification)
    (hres : StartOrContinueResizing h s col x = some (t, evs)) :
    ∃ st, GetColStart s col = some st ∧
      ((IsResizing s = true ∧ t = { s with m_colBeingResized := COL_NONE } ∧
          evs = [Notification.Resizing col (max (x - st) (s.GetColumn col).minWidth),
            Notification.DraggingCancelled s.m_colBeingResized]) ∨
       (IsResizing s = true ∧ t = s ∧
          evs = [Notification.Resizing col (max (x - st) (s.GetColumn col).minWidth)]) ∨
       (IsResizing s = false ∧ t = s ∧
          evs = [Notification.BeginResize col (max (x - st) (s.GetColumn col).minWidth)]) ∨
       (IsResizing s = false ∧ t = { s with m_colBeingResized := col } ∧
          evs = [Notification.BeginResize col (max (x - st) (s.GetColumn col).minWidth)])) := by
  unfold StartOrContinueResizing at hres
  cases hc : ConstrainByMinWidth s col x with
  | none => rw [hc] at hres; simp at hres
  | some wx =>
    obtain ⟨w, x2⟩ := wx
    obtain ⟨st, hst, hw⟩ := ConstrainByMinWidth_some s col x w x2 hc
    rw [hc] at hres
    simp only [] at hres
    refine ⟨st, hst, ?_⟩
    subst hw
    split at hres
    · simp at hres
    · rename_i hrefresh
      have hres2 := Option.some.inj hres
      by_cases hr : IsResizing s = true
      · have hnot : resizeNotification s col (max (x - st) (s.GetColumn col).minWidth) =
            Notification.Resizing col (max (x - st) (s.GetColumn col).minWidth) := by
          unfold resizeNotification; rw [if_pos hr]
        rw [hnot] at hres2
        by_cases hv : vetoed h (Notification.Resizing col
            (max (x - st) (s.GetColumn col).minWidth)) = true
        · left
          rw [if_pos hv, if_pos hr] at hres2
          rcases CancelDragging_cases s with ⟨c1, -, c3⟩ | ⟨-, c2, -⟩
          · rw [c1, c3] at hres2
            have h1 := congrArg Prod.fst hres2
            have h2 := congrArg Prod.snd hres2
            exact ⟨hr, h1.symm, h2.symm⟩
          · rw [hr] at c2; exact absurd c2 (by decide)
        · right; left
          rw [if_neg hv, if_pos hr] at hres2
          exact ⟨hr, (congrArg Prod.fst hres2).symm, (congrArg Prod.snd hres2).symm⟩
      · have hr2 : IsResizing s = false := by simpa using hr
        have hnot : resizeNotification s col (max (x - st) (s.GetColumn col).minWidth) =
            Notification.BeginResize col (max (x - st) (s.GetColumn col).minWidth) := by
          unfold resizeNotification; rw [if_neg hr]
        rw [hnot] at hres2
        by_cases hv : vetoed h (Notification.BeginResize col
            (max (x - st) (s.GetColumn col).minWidth)) = true
        · right; right; left
          rw [if_pos hv, if_neg hr] at hres2
          exact ⟨hr2, (congrArg Prod.fst hres2).symm, (congrArg Prod.snd hres2).symm⟩
        · right; right; right
          rw [if_neg hv, if_neg hr] at hres2
          exact ⟨hr2, (congrArg Prod.fst hres2).symm, (congrArg Prod.snd hres2).symm⟩

theorem StartOrContinueResizing_isSome (h : Handler) (s : wxHeaderCtrl) (col : Nat) (x : Int)
    (hcol : col ∈ s.m_colIndices) :
    ∃ t evs, StartOrContinueResizing h s col x = some (t, evs) := by
  obtain ⟨st, hst⟩ := GetColStartLoop_isSome s.GetColumn col s.m_colIndices s.m_scrollOffset hcol
  have hst2 : GetColStart s col = some st := hst
  have hrefresh : ∀ t : wxHeaderCtrl, SameLayout s t → RefreshColsAfter t col = some () := by
    intro t ht
    unfold RefreshColsAfter
    rw [GetColStart_congr ht, hst2]
  unfold StartOrContinueResizing
  rw [ConstrainByMinWidth_eq s col x st hst2]
  simp only []
  have hcancel : SameLayout s (CancelDragging s).1 := by
    rcases CancelDragging_cases s with ⟨c1, -, -⟩ | ⟨c1, -, -⟩ <;> rw [c1] <;>
      exact ⟨rfl, rfl, rfl, rfl, rfl, rfl⟩
  by_cases hv : vetoed h (resizeNotification s col
      (max (x - st) (s.GetColumn col).minWidth)) = true <;>
    by_cases hr : IsResizing s = true
  · rw [if_pos hv, if_pos hr]
    dsimp only
    rw [hrefresh _ hcancel]
    exact ⟨_, _, rfl⟩
  · rw [if_pos hv, if_neg hr]
    dsimp only
    rw [hrefresh _ (SameLayout.refl s)]
    exact ⟨_, _, rfl⟩
  · rw [if_neg hv, if_pos hr]
    dsimp only
    rw [hrefresh _ (SameLayout.refl s)]
    exact ⟨_, _, rfl⟩
  · rw [if_neg hv, if_neg hr]
    dsimp only
    rw [hrefresh { s with m_colBeingResized := col } ⟨rfl, rfl, rfl, rfl, rfl, rfl⟩]
    exact ⟨_, _, rfl⟩

theorem EndResizing_cases (s : wxHeaderCtrl) (x : Int) (t : wxHeaderCtrl)
    (evs : List Notification) (hres : EndResizing s x = some (t, evs)) :
    ∃ st, GetColStart s s.m_colBeingResized = some st ∧
      t = { s with m_colBeingResized := COL_NONE } ∧
      evs = [Notification.EndResize s.m_colBeingResized
        (max (x - st) (s.GetColumn s.m_colBeingResized).minWidth)] := by
  unfold EndResizing at hres
  cases hc : ConstrainByMinWidth s s.m_colBeingResized x with
  | none => rw [hc] at hres; simp at hres
  | some wx =>
    obtain ⟨w, x2⟩ := wx
    obtain ⟨st, hst, hw⟩ := ConstrainByMinWidth_some s _ x w x2 hc
    rw [hc] at hres
    have hres2 := Option.some.inj hres
    subst hw
    exact ⟨st, hst, (congrArg Prod.fst hres2).symm, (congrArg Prod.snd hres2).symm⟩

theorem EndResizing_isSome (s : wxHeaderCtrl) (x : Int)
    (hcol : s.m_colBeingResized ∈ s.m_colIndices) : ∃ t evs, EndResizing s x = some (t, evs) := by
  obtain ⟨st, hst⟩ := GetColStartLoop_isSome s.GetColumn s.m_colBeingResized s.m_colIndices
    s.m_scrollOffset hcol
  have hst2 : GetColStart s s.m_colBeingResized = some st := hst
  unfold EndResizing
  rw [ConstrainByMinWidth_eq s _ x st hst2]
  exact ⟨_, _, rfl⟩

theorem StartReordering_cases (h : Handler) (s : wxHeaderCtrl) (col : Nat) (x : Int)
    (t : wxHeaderCtrl) (evs : List Notification)
    (hres : StartReordering h s col x = some (t, evs)) :
    evs = [Notification.BeginReorder col] ∧
      ((vetoed h (Notification.BeginReorder col) = true ∧ t = s) ∨
       (vetoed h (Notification.BeginReorder col) = false ∧
          ∃ st, GetColStart s col = some st ∧
            t = { s with m_dragOffset := x - st, m_colBeingReordered := col })) := by
  unfold StartReordering at hres
  by_cases hv : vetoed h (Notification.BeginReorder col) = true
  · rw [if_pos hv] at hres
    have hres2 := Option.some.inj hres
    exact ⟨(congrArg Prod.snd hres2).symm, Or.inl ⟨hv, (congrArg Prod.fst hres2).symm⟩⟩
  · rw [if_neg hv] at hres
    cases hst : GetColStart s col with
    | none => rw [hst] at hres; simp at hres
    | some st =>
      rw [hst] at hres
      have hres2 := Option.some.inj hres
      exact ⟨(congrArg Prod.snd hres2).symm,
        Or.inr ⟨by simpa using hv, st, rfl, (congrArg Prod.fst hres2).symm⟩⟩

theorem StartReordering_isSome (h : Handler) (s : wxHeaderCtrl) (col : Nat) (x : Int)
    (hcol : col ∈ s.m_colIndices) : ∃ t evs, StartReordering h s col x = some (t, evs) := by
  obtain ⟨st, hst⟩ := GetColStartLoop_isSome s.GetColumn col s.m_colIndices s.m_scrollOffset hcol
  have hst2 : GetColStart s col = some st := hst
  unfold StartReordering
  split
  · exact ⟨_, _, rfl⟩
  · rw [hst2]; exact ⟨_, _, rfl⟩

theorem some_triple_inj {t1 t2 : wxHeaderCtrl} {b1 b2 : Bool} {e1 e2 : List Notification}
    (h : some (t1, b1, e1) = some (t2, b2, e2)) : t2 = t1 ∧ b2 = b1 ∧ e2 = e1 := by
  have h2 := Option.some.inj h
  exact ⟨(congrArg Prod.fst h2).symm, (congrArg (fun r => r.2.1) h2).symm,
    (congrArg (fun r => r.2.2) h2).symm⟩

theorem option_ite_cases {α : Type} {c1 c2 c3 : Prop} [Decidable c1] [Decidable c2]
    [Decidable c3] {A B C r : α}
    (h : (if c1 then none else if c2 then (if c3 then some A else some B) else some C) =
      some r) : r = A ∨ r = B ∨ r = C := by
  split at h
  · simp at h
  · split at h
    · split at h
      · exact Or.inl (Option.some.inj h).symm
      · exact Or.inr (Or.inl (Option.some.inj h).symm)
    · exact Or.inr (Or.inr (Option.some.inj h).symm)

theorem triple_eq {t1 t2 : wxHeaderCtrl} {b1 b2 : Bool} {e1 e2 : List Notification}
    (h : (t1, b1, e1) = (t2, b2, e2)) : t1 = t2 ∧ b1 = b2 ∧ e1 = e2 :=
  ⟨congrArg Prod.fst h, congrArg (fun r => r.2.1) h, congrArg (fun r => r.2.2) h⟩

/-- The possible outcomes of `EndReorderingMove`, whatever the display order. -/
theorem EndReorderingMove_cases (h : Handler) (s : wxHeaderCtrl) (colOld colNew : Nat)
    (located : Bool) (region : Region) (t : wxHeaderCtrl) (b : Bool) (evs : List Notification)
    (hres : EndReorderingMove h s colOld colNew located region = some (t, b, evs)) :
    b = true ∧
     ((t = s ∧ evs = []) ∨
      ∃ p, evs = [Notification.EndReorder colOld p] ∧ (t = s ∨ t = DoMoveCol s colOld p)) := by
  unfold EndReorderingMove at hres
  rcases option_ite_cases hres with h1 | h1 | h1
  · obtain ⟨rfl, rfl, rfl⟩ := triple_eq h1
    exact ⟨rfl, Or.inr ⟨_, rfl, Or.inr rfl⟩⟩
  · obtain ⟨rfl, rfl, rfl⟩ := triple_eq h1
    exact ⟨rfl, Or.inr ⟨_, rfl, Or.inl rfl⟩⟩
  · obtain ⟨rfl, rfl, rfl⟩ := triple_eq h1
    exact ⟨rfl, Or.inl ⟨rfl, rfl⟩⟩

/-- The possible outcomes of `EndReordering`, whatever the display order. -/
theorem EndReordering_cases (h : Handler) (s : wxHeaderCtrl) (x : Int) (t : wxHeaderCtrl)
    (b : Bool) (evs : List Notification) (hres : EndReordering h s x = some (t, b, evs)) :
    (∃ st, GetColStart s s.m_colBeingReordered = some st) ∧
     ((t = reorderCleared s ∧ evs = []) ∨
      (b = true ∧ ∃ p, evs = [Notification.EndReorder s.m_colBeingReordered p] ∧
        (t = reorderCleared s ∨
          t = DoMoveCol (reorderCleared s) s.m_colBeingReordered p))) := by
  cases hst : GetColStart s s.m_colBeingReordered with
  | none =>
    have hst2 : GetColStart { s with m_colBeingReordered := COL_NONE } s.m_colBeingReordered
        = none := hst
    unfold EndReordering at hres
    simp only [hst2] at hres
    simp at hres
  | some st =>
    refine ⟨⟨st, rfl⟩, ?_⟩
    by_cases hmoved : x - st = s.m_dragOffset
    · rw [EndReordering_of_not_moved h s x st hst hmoved] at hres
      have hres2 := Option.some.inj hres
      exact Or.inl ⟨(congrArg Prod.fst hres2).symm, (congrArg (fun r => r.2.2) hres2).symm⟩
    · rw [EndReordering_of_moved h s x st hst hmoved] at hres
      split at hres
      · have hres2 := Option.some.inj hres
        exact Or.inl ⟨(congrArg Prod.fst hres2).symm, (congrArg (fun r => r.2.2) hres2).symm⟩
      · split at hres
        · obtain ⟨hb, hc⟩ := EndReorderingMove_cases h _ _ _ _ _ t b evs hres
          rcases hc with ⟨h1, h2⟩ | ⟨p, h1, h2⟩
          · exact Or.inl ⟨h1, h2⟩
          · exact Or.inr ⟨hb, p, h1, h2⟩
        · have hres2 := Option.some.inj hres
          exact Or.inl ⟨(congrArg Prod.fst hres2).symm, (congrArg (fun r => r.2.2) hres2).symm⟩

theorem updateHover_cases (s : wxHeaderCtrl) (col : Nat) (s1 : wxHeaderCtrl)
    (hres : updateHover s col = some s1) : s1 = { s with m_hover := col } := by
  unfold updateHover at hres
  by_cases hc : col ≠ s.m_hover
  · rw [if_pos hc] at hres
    split at hres
    · simp at hres
    · split at hres
      · simp at hres
      · exact (Option.some.inj hres).symm
  · rw [if_neg hc] at hres
    have hc2 : col = s.m_hover := by simpa using hc
    rw [hc2]
    exact (Option.some.inj hres).symm

theorem updateHover_isSome (s : wxHeaderCtrl) (col : Nat)
    (hhover : s.m_hover = COL_NONE ∨ s.m_hover ∈ s.m_colIndices)
    (hcol : col = COL_NONE ∨ col ∈ s.m_colIndices) : ∃ s1, updateHover s col = some s1 := by
  have hrefresh : ∀ c, (c = COL_NONE ∨ c ∈ s.m_colIndices) →
      RefreshColIfNotNone { s with m_hover := col } c = some () := by
    intro c hc
    unfold RefreshColIfNotNone
    by_cases hn : c ≠ COL_NONE
    · rw [if_pos hn]
      rcases hc with hc | hc
      · exact absurd hc hn
      · obtain ⟨st, hst⟩ := GetColStartLoop_isSome s.GetColumn c s.m_colIndices
          s.m_scrollOffset hc
        have hst2 : GetColStart { s with m_hover := col } c = some st := hst
        unfold RefreshCol
        rw [hst2]
    · rw [if_neg hn]
  unfold updateHover
  by_cases hc : col ≠ s.m_hover
  · rw [if_pos hc, hrefresh _ hhover]
    dsimp only
    rw [hrefresh _ hcol]
    exact ⟨_, rfl⟩
  · rw [if_neg hc]; exact ⟨_, rfl⟩

theorem clickEventType_cases (mevent : wxMouseEvent) (region : Region) (was : Bool)
    (evt : Nat → Notification) (sep : Bool)
    (hres : clickEventType mevent region was = (some evt, sep)) (c : Nat) :
    isClickNotification (evt c) := by
  unfold clickEventType at hres
  dsimp only at hres
  split at hres
  · split at hres
    · split at hres
      · have := congrArg Prod.fst hres
        simp only [Option.some.injEq] at this
        rw [← this]; trivial
      · split at hres
        · have := congrArg Prod.fst hres
          simp only [Option.some.injEq] at this
          rw [← this]
          split <;> trivial
        · have := congrArg Prod.fst hres
          simp at this
    · have := congrArg Prod.fst hres
      simp only [Option.some.injEq] at this
      rw [← this]
      split <;> trivial
    · have := congrArg Prod.fst hres
      simp only [Option.some.injEq] at this
      rw [← this]
      split <;> trivial
    · have := congrArg Prod.fst hres
      simp at this
  · have := congrArg Prod.fst hres
    simp at this

/-- The possible outcomes of `OnMouseButtons`. -/
theorem OnMouseButtons_cases (h : Handler) (s : wxHeaderCtrl) (col : Nat) (region : Region)
    (was : Bool) (mevent : wxMouseEvent) (t : wxHeaderCtrl) (evs : List Notification)
    (hres : OnMouseButtons h s col region was mevent = some (t, evs)) :
    (t = s ∧ evs = []) ∨
    (col ≠ COL_NONE ∧ region = Region.Separator ∧
      StartOrContinueResizing h s col mevent.x = some (t, evs)) ∨
    (col ≠ COL_NONE ∧ StartReordering h s col mevent.x = some (t, evs)) ∨
    (∃ evt sep, clickEventType mevent region was = (some evt, sep) ∧
      t = { s with m_wasSeparatorDClick := sep } ∧ evs = [evt col]) := by
  unfold OnMouseButtons at hres
  have hplain : ∀ {r : wxHeaderCtrl × List Notification}, some (s, ([] : List Notification)) =
      some r → r.1 = s ∧ r.2 = [] := by
    intro r hr
    have := Option.some.inj hr
    rw [← this]; exact ⟨rfl, rfl⟩
  by_cases hm : mevent.moving = true
  · rw [if_pos hm] at hres; exact Or.inl (hplain hres)
  · rw [if_neg hm] at hres
    by_cases hcn : col = COL_NONE
    · rw [if_pos hcn] at hres; exact Or.inl (hplain hres)
    · rw [if_neg hcn] at hres
      by_cases hld : mevent.leftDown = true
      · rw [if_pos hld] at hres
        by_cases hsep : region = Region.Separator
        · rw [if_pos hsep] at hres
          exact Or.inr (Or.inl ⟨hcn, hsep, hres⟩)
        · rw [if_neg hsep] at hres
          by_cases hre : s.allowReorder = true ∧ (s.GetColumn col).reorderable = true
          · rw [if_pos hre] at hres
            exact Or.inr (Or.inr (Or.inl ⟨hcn, hres⟩))
          · rw [if_neg hre] at hres; exact Or.inl (hplain hres)
      · rw [if_neg hld] at hres
        cases hclick : clickEventType mevent region was with
        | mk evt sep =>
          rw [hclick] at hres
          cases evt with
          | none => exact Or.inl (hplain hres)
          | some evt =>
            have := Option.some.inj hres
            refine Or.inr (Or.inr (Or.inr ⟨evt, sep, rfl, ?_, ?_⟩))
            · exact (congrArg Prod.fst this).symm
            · exact (congrArg Prod.snd this).symm

/-- The possible outcomes of `OnMouseOverColumn`. -/
theorem OnMouseOverColumn_cases (h : Handler) (s : wxHeaderCtrl) (was : Bool)
    (mevent : wxMouseEvent) (t : wxHeaderCtrl) (evs : List Notification)
    (hres : OnMouseOverColumn h s was mevent = some (t, evs)) :
    ∃ col region, (col = COL_NONE ∨ col = (FindColumnAtPoint s mevent.x).1) ∧
      (region = Region.NoWhere ∨ region = (FindColumnAtPoint s mevent.x).2) ∧
      updateHover s col = some { s with m_hover := col } ∧
      OnMouseButtons h { s with m_hover := col } col region was mevent = some (t, evs) := by
  unfold OnMouseOverColumn at hres
  cases hu : updateHover s
      (if mevent.leaving then COL_NONE else (FindColumnAtPoint s mevent.x).1) with
  | none => rw [hu] at hres; simp at hres
  | some s1 =>
    rw [hu] at hres
    have hs1 := updateHover_cases s _ s1 hu
    subst hs1
    refine ⟨_, _, ?_, ?_, hu, hres⟩
    · split
      · exact Or.inl rfl
      · exact Or.inr rfl
    · split
      · exact Or.inl rfl
      · exact Or.inr rfl

/-- The possible outcomes of `OnMouse`; `s` is the state with
`m_wasSeparatorDClick` reset. -/
theorem OnMouse_cases (h : Handler) (s0 : wxHeaderCtrl) (mevent : wxMouseEvent)
    (t : wxHeaderCtrl) (evs : List Notification) (hres : OnMouse h s0 mevent = some (t, evs)) :
    (IsResizing s0 = true ∧
      (EndResizing { s0 with m_wasSeparatorDClick := false } mevent.x = some (t, evs) ∨
       StartOrContinueResizing h { s0 with m_wasSeparatorDClick := false }
        s0.m_colBeingResized mevent.x = some (t, evs))) ∨
    (IsResizing s0 = false ∧ IsReordering s0 = true ∧
      ((t = { s0 with m_wasSeparatorDClick := false } ∧ evs = []) ∨
       EndReordering h { s0 with m_wasSeparatorDClick := false } mevent.x = some (t, true, evs) ∨
       ∃ s2 evs1 evs2,
        EndReordering h { s0 with m_wasSeparatorDClick := false } mevent.x =
          some (s2, false, evs1) ∧
        OnMouseOverColumn h s2 s0.m_wasSeparatorDClick mevent = some (t, evs2) ∧
        evs = evs1 ++ evs2)) ∨
    (IsResizing s0 = false ∧ IsReordering s0 = false ∧
      OnMouseOverColumn h { s0 with m_wasSeparatorDClick := false } s0.m_wasSeparatorDClick
        mevent = some (t, evs)) := by
  unfold OnMouse at hres
  dsimp only at hres
  have hrs : IsResizing { s0 with m_wasSeparatorDClick := false } = IsResizing s0 := rfl
  have hro : IsReordering { s0 with m_wasSeparatorDClick := false } = IsReordering s0 := rfl
  rw [hrs, hro] at hres
  by_cases hr : IsResizing s0 = true
  · rw [if_pos hr] at hres
    left
    refine ⟨hr, ?_⟩
    by_cases hup : mevent.leftUp = true
    · rw [if_pos hup] at hres; exact Or.inl hres
    · rw [if_neg hup] at hres; exact Or.inr hres
  · rw [if_neg hr] at hres
    have hr2 : IsResizing s0 = false := by simpa using hr
    by_cases ho : IsReordering s0 = true
    · rw [if_pos ho] at hres
      right; left
      refine ⟨hr2, ho, ?_⟩
      by_cases hup : mevent.leftUp = false
      · rw [if_pos hup] at hres
        cases hmark : UpdateReorderingMarker { s0 with m_wasSeparatorDClick := false }
            mevent.x with
        | none => rw [hmark] at hres; simp at hres
        | some u =>
          rw [hmark] at hres
          have := Option.some.inj hres
          exact Or.inl ⟨(congrArg Prod.fst this).symm, (congrArg Prod.snd this).symm⟩
      · rw [if_neg hup] at hres
        cases hend : EndReordering h { s0 with m_wasSeparatorDClick := false } mevent.x with
        | none => rw [hend] at hres; simp at hres
        | some r =>
          obtain ⟨s2, b, evs1⟩ := r
          rw [hend] at hres
          cases b with
          | true =>
            have := Option.some.inj hres
            have h1 := congrArg Prod.fst this
            have h2 := congrArg Prod.snd this
            dsimp only at h1 h2
            subst h1; subst h2
            exact Or.inr (Or.inl rfl)
          | false =>
            dsimp only at hres
            cases hover : OnMouseOverColumn h s2 s0.m_wasSeparatorDClick mevent with
            | none => rw [hover] at hres; simp at hres
            | some r2 =>
              obtain ⟨s3, evs2⟩ := r2
              rw [hover] at hres
              have := Option.some.inj hres
              have h1 := congrArg Prod.fst this
              have h2 := congrArg Prod.snd this
              dsimp only at h1 h2
              subst h1
              exact Or.inr (Or.inr ⟨s2, evs1, evs2, rfl, hover, h2.symm⟩)
    · rw [if_neg ho] at hres
      right; right
      exact ⟨hr2, by simpa using ho, hres⟩

theorem isClickNotification_widthRespectsMin (s : wxHeaderCtrl) (e : Notification)
    (he : isClickNotification e) : widthRespectsMin s e := by
  cases e <;> trivial

theorem isClickNotification_positionInRange (s : wxHeaderCtrl) (e : Notification)
    (he : isClickNotification e) : positionInRange s e := by
  cases e <;> trivial

/-- What `StartOrContinueResizing` changes. -/
theorem StartOrContinueResizing_facts (h : Handler) (s : wxHeaderCtrl) (col : Nat) (x : Int)
    (t : wxHeaderCtrl) (evs : List Notification)
    (hres : StartOrContinueResizing h s col x = some (t, evs)) :
    SameLayout s t ∧ t.m_hover = s.m_hover ∧ t.m_colBeingReordered = s.m_colBeingReordered ∧
    t.m_dragOffset = s.m_dragOffset ∧ col ∈ s.m_colIndices ∧
    (t.m_colBeingResized = s.m_colBeingResized ∨ t.m_colBeingResized = COL_NONE ∨
      t.m_colBeingResized = col) ∧
    (∀ e ∈ evs, widthRespectsMin s e ∧ positionInRange s e) := by
  obtain ⟨st, hst, hc⟩ := StartOrContinueResizing_cases h s col x t evs hres
  have hmem : col ∈ s.m_colIndices := GetColStartLoop_mem _ _ _ _ _ hst
  have hw : (s.GetColumn col).minWidth ≤ max (x - st) (s.GetColumn col).minWidth :=
    le_max_right _ _
  rcases hc with ⟨-, rfl, rfl⟩ | ⟨-, rfl, rfl⟩ | ⟨-, rfl, rfl⟩ | ⟨-, rfl, rfl⟩
  · refine ⟨⟨rfl, rfl, rfl, rfl, rfl, rfl⟩, rfl, rfl, rfl, hmem, Or.inr (Or.inl rfl), ?_⟩
    intro e he
    simp only [List.mem_cons, List.mem_singleton, List.not_mem_nil, or_false] at he
    rcases he with rfl | rfl
    · exact ⟨hw, trivial⟩
    · exact ⟨trivial, trivial⟩
  · refine ⟨SameLayout.refl _, rfl, rfl, rfl, hmem, Or.inl rfl, ?_⟩
    intro e he
    simp only [List.mem_singleton] at he
    subst he
    exact ⟨hw, trivial⟩
  · refine ⟨SameLayout.refl _, rfl, rfl, rfl, hmem, Or.inl rfl, ?_⟩
    intro e he
    simp only [List.mem_singleton] at he
    subst he
    exact ⟨hw, trivial⟩
  · refine ⟨⟨rfl, rfl, rfl, rfl, rfl, rfl⟩, rfl, rfl, rfl, hmem, Or.inr (Or.inr rfl), ?_⟩
    intro e he
    simp only [List.mem_singleton] at he
    subst he
    exact ⟨hw, trivial⟩

/-- What `EndResizing` changes. -/
theorem EndResizing_facts (s : wxHeaderCtrl) (x : Int) (t : wxHeaderCtrl)
    (evs : List Notification) (hres : EndResizing s x = some (t, evs)) :
    SameLayout s t ∧ t.m_hover = s.m_hover ∧ t.m_colBeingReordered = s.m_colBeingReordered ∧
    t.m_dragOffset = s.m_dragOffset ∧ t.m_colBeingResized = COL_NONE ∧
    (∀ e ∈ evs, widthRespectsMin s e ∧ positionInRange s e) := by
  obtain ⟨st, -, rfl, rfl⟩ := EndResizing_cases s x t evs hres
  refine ⟨⟨rfl, rfl, rfl, rfl, rfl, rfl⟩, rfl, rfl, rfl, rfl, ?_⟩
  intro e he
  simp only [List.mem_singleton] at he
  subst he
  exact ⟨le_max_right _ _, trivial⟩

/-- What `StartReordering` changes. -/
theorem StartReordering_facts (h : Handler) (s : wxHeaderCtrl) (col : Nat) (x : Int)
    (t : wxHeaderCtrl) (evs : List Notification)
    (hres : StartReordering h s col x = some (t, evs)) :
    SameLayout s t ∧ t.m_hover = s.m_hover ∧ t.m_colBeingResized = s.m_colBeingResized ∧
    (t.m_colBeingReordered = s.m_colBeingReordered ∨
      (t.m_colBeingReordered = col ∧ col ∈ s.m_colIndices)) ∧
    (∀ e ∈ evs, widthRespectsMin s e ∧ positionInRange s e) := by
  obtain ⟨rfl, hc⟩ := StartReordering_cases h s col x t evs hres
  have hev : ∀ e ∈ [Notification.BeginReorder col], widthRespectsMin s e ∧ positionInRange s e := by
    intro e he
    simp only [List.mem_singleton] at he
    subst he
    exact ⟨trivial, trivial⟩
  rcases hc with ⟨-, rfl⟩ | ⟨-, st, hst, rfl⟩
  · exact ⟨SameLayout.refl _, rfl, rfl, Or.inl rfl, hev⟩
  · exact ⟨⟨rfl, rfl, rfl, rfl, rfl, rfl⟩, rfl, rfl,
      Or.inr ⟨rfl, GetColStartLoop_mem _ _ _ _ _ hst⟩, hev⟩

/-- What `EndReordering` changes, whatever the display order. -/
theorem EndReordering_facts (h : Handler) (s : wxHeaderCtrl) (x : Int) (t : wxHeaderCtrl)
    (b : Bool) (evs : List Notification) (hres : EndReordering h s x = some (t, b, evs)) :
    t.m_numColumns = s.m_numColumns ∧ t.GetColumn = s.GetColumn ∧
    t.m_hover = s.m_hover ∧ t.m_colBeingResized = s.m_colBeingResized ∧
    t.m_colBeingReordered = COL_NONE ∧ s.m_colBeingReordered ∈ s.m_colIndices ∧
    (b = false → t = reorderCleared s ∧ evs = []) ∧
    (∀ e ∈ evs, widthRespectsMin s e) := by
  obtain ⟨⟨st, hst⟩, hc⟩ := EndReordering_cases h s x t b evs hres
  have hmem : s.m_colBeingReordered ∈ s.m_colIndices := GetColStartLoop_mem _ _ _ _ _ hst
  rcases hc with ⟨rfl, rfl⟩ | ⟨rfl, p, rfl, rfl | rfl⟩
  · exact ⟨rfl, rfl, rfl, rfl, rfl, hmem, fun _ => ⟨rfl, rfl⟩, by simp⟩
  · refine ⟨rfl, rfl, rfl, rfl, rfl, hmem, fun hb => absurd hb (by decide), ?_⟩
    intro e he
    simp only [List.mem_singleton] at he
    subst he; trivial
  · refine ⟨rfl, rfl, rfl, rfl, rfl, hmem, fun hb => absurd hb (by decide), ?_⟩
    intro e he
    simp only [List.mem_singleton] at he
    subst he; trivial

/-- The display order after `EndReordering` on a permutation. -/
theorem EndReordering_perm (h : Handler) (s : wxHeaderCtrl) (x : Int) (t : wxHeaderCtrl)
    (b : Bool) (evs : List Notification) (hperm : IsPermutation s)
    (hcount : s.m_numColumns ≤ COL_NONE) (hres : EndReordering h s x = some (t, b, evs)) :
    IsPermutation t ∧ (∀ e ∈ evs, positionInRange s e) := by
  obtain ⟨⟨st, hst⟩, -⟩ := EndReordering_cases h s x t b evs hres
  have hmem : s.m_colBeingReordered ∈ s.m_colIndices := GetColStartLoop_mem _ _ _ _ _ hst
  have hlt : s.m_colBeingReordered < s.m_numColumns := (hperm.mem_iff _).1 hmem
  have hlen := hperm.length_eq
  by_cases hmoved : x - st = s.m_dragOffset
  · rw [EndReordering_of_not_moved h s x st hst hmoved] at hres
    obtain ⟨rfl, -, rfl⟩ := some_triple_inj hres
    exact ⟨hperm, by simp⟩
  · rw [EndReordering_eq_of_moved h s x st hperm hcount hlt hst hmoved] at hres
    have hp := dropPosition_lt s s.m_colBeingReordered (dropTarget s x)
      (locatedByPreviousCol s x) (FindColumnClosestToPoint s x).2
      (dropTarget_mem s hperm (by omega) x)
    split at hres
    · obtain ⟨rfl, -, rfl⟩ := some_triple_inj hres
      constructor
      · split
        · exact (perm_insertIdx_erase (l := s.m_colIndices) hmem (by omega)).trans hperm
        · exact hperm
      · intro e he
        simp only [List.mem_singleton] at he
        subst he
        show _ < s.m_numColumns
        omega
    · obtain ⟨rfl, -, rfl⟩ := some_triple_inj hres
      exact ⟨hperm, by simp⟩

theorem EndReordering_isSome (h : Handler) (s : wxHeaderCtrl) (x : Int)
    (hperm : IsPermutation s) (hcount : s.m_numColumns ≤ COL_NONE)
    (hlt : s.m_colBeingReordered < s.m_numColumns) :
    ∃ t b evs, EndReordering h s x = some (t, b, evs) := by
  have hmem : s.m_colBeingReordered ∈ s.m_colIndices := (hperm.mem_iff _).2 hlt
  obtain ⟨st, hst⟩ := GetColStartLoop_isSome s.GetColumn _ s.m_colIndices s.m_scrollOffset hmem
  by_cases hmoved : x - st = s.m_dragOffset
  · exact ⟨_, _, _, EndReordering_of_not_moved h s x st hst hmoved⟩
  · rw [EndReordering_eq_of_moved h s x st hperm hcount hlt hst hmoved]
    split
    · exact ⟨_, _, _, rfl⟩
    · exact ⟨_, _, _, rfl⟩

theorem exclusive_iff (s : wxHeaderCtrl) :
    Exclusive s ↔ (s.m_colBeingResized = COL_NONE ∨ s.m_colBeingReordered = COL_NONE) := by
  unfold Exclusive IsResizing IsReordering
  simp only [bne_iff_ne, ne_eq]
  constructor
  · intro hx
    by_cases h1 : s.m_colBeingResized = COL_NONE
    · exact Or.inl h1
    · by_cases h2 : s.m_colBeingReordered = COL_NONE
      · exact Or.inr h2
      · exact absurd ⟨h1, h2⟩ hx
  · rintro (h1 | h1) ⟨h2, h3⟩
    · exact h2 h1
    · exact h3 h1

theorem IsResizing_eq_false_iff (s : wxHeaderCtrl) :
    IsResizing s = false ↔ s.m_colBeingResized = COL_NONE := by
  unfold IsResizing; simp

theorem IsReordering_eq_false_iff (s : wxHeaderCtrl) :
    IsReordering s = false ↔ s.m_colBeingReordered = COL_NONE := by
  unfold IsReordering; simp

theorem IsPermutation_congr {s t : wxHeaderCtrl} (h : SameLayout s t) (hp : IsPermutation s) :
    IsPermutation t := by
  unfold IsPermutation at hp ⊢
  rw [h.1, h.2.1]; exact hp

theorem FindColumnAtPoint_congr {s t : wxHeaderCtrl} (h : SameLayout s t) (x : Int) :
    FindColumnAtPoint t x = FindColumnAtPoint s x := by
  obtain ⟨a1, a2, a3, a4, a5, -⟩ := h
  unfold FindColumnAtPoint GetColumnCount
  rw [a1, a2, a3, a4, a5]

theorem widthRespectsMin_congr {s t : wxHeaderCtrl} (h : t.GetColumn = s.GetColumn)
    (e : Notification) (he : widthRespectsMin t e) : widthRespectsMin s e := by
  cases e <;> simp only [widthRespectsMin] at he ⊢ <;> rw [← h] <;> exact he

theorem positionInRange_congr {s t : wxHeaderCtrl} (h : t.m_numColumns = s.m_numColumns)
    (e : Notification) (he : positionInRange t e) : positionInRange s e := by
  cases e <;> simp only [positionInRange] at he ⊢
  rw [← h]
  exact he

/-- What `OnMouseButtons` changes. -/
theorem OnMouseButtons_facts (h : Handler) (s : wxHeaderCtrl) (col : Nat) (region : Region)
    (was : Bool) (mevent : wxMouseEvent) (t : wxHeaderCtrl) (evs : List Notification)
    (hres : OnMouseButtons h s col region was mevent = some (t, evs)) :
    SameLayout s t ∧ t.m_hover = s.m_hover ∧
    (∀ e ∈ evs, widthRespectsMin s e ∧ positionInRange s e) ∧
    ((t.m_colBeingResized = s.m_colBeingResized ∧
        t.m_colBeingReordered = s.m_colBeingReordered) ∨
     (t.m_colBeingReordered = s.m_colBeingReordered ∧
        (t.m_colBeingResized = COL_NONE ∨
          (t.m_colBeingResized = col ∧ col ∈ s.m_colIndices))) ∨
     (t.m_colBeingResized = s.m_colBeingResized ∧ t.m_colBeingReordered = col ∧
        col ∈ s.m_colIndices)) := by
  rcases OnMouseButtons_cases h s col region was mevent t evs hres with
    ⟨rfl, rfl⟩ | ⟨-, -, h1⟩ | ⟨-, h1⟩ | ⟨evt, sep, hclick, rfl, rfl⟩
  · exact ⟨SameLayout.refl _, rfl, by simp, Or.inl ⟨rfl, rfl⟩⟩
  · obtain ⟨a1, a2, a3, -, a5, a6, a7⟩ := StartOrContinueResizing_facts h s col _ t evs h1
    refine ⟨a1, a2, a7, ?_⟩
    rcases a6 with a6 | a6 | a6
    · exact Or.inl ⟨a6, a3⟩
    · exact Or.inr (Or.inl ⟨a3, Or.inl a6⟩)
    · exact Or.inr (Or.inl ⟨a3, Or.inr ⟨a6, a5⟩⟩)
  · obtain ⟨a1, a2, a3, a4, a5⟩ := StartReordering_facts h s col _ t evs h1
    refine ⟨a1, a2, a5, ?_⟩
    rcases a4 with a4 | ⟨a4, a6⟩
    · exact Or.inl ⟨a3, a4⟩
    · exact Or.inr (Or.inr ⟨a3, a4, a6⟩)
  · refine ⟨⟨rfl, rfl, rfl, rfl, rfl, rfl⟩, rfl, ?_, Or.inl ⟨rfl, rfl⟩⟩
    intro e he
    simp only [List.mem_singleton] at he
    subst he
    have := clickEventType_cases mevent region was evt sep hclick col
    exact ⟨isClickNotification_widthRespectsMin _ _ this,
      isClickNotification_positionInRange _ _ this⟩

/-- What `OnMouseOverColumn` changes. -/
theorem OnMouseOverColumn_facts (h : Handler) (s : wxHeaderCtrl) (was : Bool)
    (mevent : wxMouseEvent) (t : wxHeaderCtrl) (evs : List Notification)
    (hres : OnMouseOverColumn h s was mevent = some (t, evs)) :
    SameLayout s t ∧
    (t.m_hover = COL_NONE ∨ t.m_hover = (FindColumnAtPoint s mevent.x).1) ∧
    (∀ e ∈ evs, widthRespectsMin s e ∧ positionInRange s e) ∧
    ((t.m_colBeingResized = s.m_colBeingResized ∧
        t.m_colBeingReordered = s.m_colBeingReordered) ∨
     (t.m_colBeingReordered = s.m_colBeingReordered ∧
        (t.m_colBeingResized = COL_NONE ∨ t.m_colBeingResized ∈ s.m_colIndices)) ∨
     (t.m_colBeingResized = s.m_colBeingResized ∧
        t.m_colBeingReordered ∈ s.m_colIndices)) := by
  obtain ⟨col, region, hcol, -, -, hb⟩ := OnMouseOverColumn_cases h s was mevent t evs hres
  obtain ⟨a1, a2, a3, a4⟩ := OnMouseButtons_facts h _ col region was mevent t evs hb
  have hlay : SameLayout s { s with m_hover := col } := ⟨rfl, rfl, rfl, rfl, rfl, rfl⟩
  refine ⟨hlay.trans a1, ?_, a3, ?_⟩
  · rw [a2]
    rcases hcol with hcol | hcol
    · exact Or.inl hcol
    · exact Or.inr hcol
  · rcases a4 with ⟨b1, b2⟩ | ⟨b1, b2 | ⟨b2, b3⟩⟩ | ⟨b1, b2, b3⟩
    · exact Or.inl ⟨b1, b2⟩
    · exact Or.inr (Or.inl ⟨b1, Or.inl b2⟩)
    · exact Or.inr (Or.inl ⟨b1, Or.inr (b2 ▸ b3)⟩)
    · exact Or.inr (Or.inr ⟨b1, b2 ▸ b3⟩)

/-- What `OnMouse` changes, whatever the display order. -/
theorem OnMouse_facts (h : Handler) (s0 : wxHeaderCtrl) (mevent : wxMouseEvent)
    (t : wxHeaderCtrl) (evs : List Notification) (hres : OnMouse h s0 mevent = some (t, evs)) :
    t.m_numColumns = s0.m_numColumns ∧ t.GetColumn = s0.GetColumn ∧
    (∀ e ∈ evs, widthRespectsMin s0 e) ∧
    (Exclusive s0 → Exclusive t) ∧
    (t.m_colBeingResized = s0.m_colBeingResized ∨ t.m_colBeingResized = COL_NONE ∨
      t.m_colBeingResized ∈ s0.m_colIndices) ∧
    (t.m_colBeingReordered = s0.m_colBeingReordered ∨ t.m_colBeingReordered = COL_NONE ∨
      t.m_colBeingReordered ∈ s0.m_colIndices) := by
  have hlay0 : SameLayout s0 { s0 with m_wasSeparatorDClick := false } :=
    ⟨rfl, rfl, rfl, rfl, rfl, rfl⟩
  rcases OnMouse_cases h s0 mevent t evs hres with
    ⟨-, h1 | h1⟩ | ⟨hr, -, ⟨rfl, rfl⟩ | h1 | ⟨s2, evs1, evs2, h1, h2, rfl⟩⟩ | ⟨hr, ho, h1⟩
  · obtain ⟨a1, -, a3, -, a5, a6⟩ := EndResizing_facts _ _ t evs h1
    refine ⟨a1.2.1, a1.2.2.1, fun e he => (a6 e he).1, ?_, Or.inr (Or.inl a5), Or.inl a3⟩
    intro _
    exact (exclusive_iff t).2 (Or.inl a5)
  · obtain ⟨a1, -, a3, -, a5, a6, a7⟩ := StartOrContinueResizing_facts h _ _ _ t evs h1
    refine ⟨a1.2.1, a1.2.2.1, fun e he => (a7 e he).1, ?_, ?_, Or.inl a3⟩
    · intro hx
      rcases (exclusive_iff s0).1 hx with hx | hx
      · rcases a6 with a6 | a6 | a6
        · exact (exclusive_iff t).2 (Or.inl (a6.trans hx))
        · exact (exclusive_iff t).2 (Or.inl a6)
        · exact (exclusive_iff t).2 (Or.inl (a6.trans hx))
      · exact (exclusive_iff t).2 (Or.inr (a3.trans hx))
    · rcases a6 with a6 | a6 | a6
      · exact Or.inl a6
      · exact Or.inr (Or.inl a6)
      · exact Or.inl a6
  · exact ⟨rfl, rfl, by simp, fun hx => hx, Or.inl rfl, Or.inl rfl⟩
  · obtain ⟨a1, a2, -, a4, a5, -, -, a8⟩ := EndReordering_facts h _ _ t true evs h1
    refine ⟨a1, a2, a8, ?_, Or.inl a4, Or.inr (Or.inl a5)⟩
    intro _
    exact (exclusive_iff t).2 (Or.inr a5)
  · obtain ⟨-, -, -, -, -, -, a7, -⟩ := EndReordering_facts h _ _ s2 false evs1 h1
    obtain ⟨rfl, rfl⟩ := a7 rfl
    obtain ⟨b1, -, b3, b4⟩ := OnMouseOverColumn_facts h _ _ mevent t evs2 h2
    have hres0 : s0.m_colBeingResized = COL_NONE := (IsResizing_eq_false_iff s0).1 hr
    refine ⟨b1.2.1, b1.2.2.1, ?_, ?_, ?_, ?_⟩
    · intro e he
      simp only [List.nil_append] at he
      exact (b3 e he).1
    · intro _
      rcases b4 with ⟨c1, c2⟩ | ⟨c1, -⟩ | ⟨c1, -⟩
      · exact (exclusive_iff t).2 (Or.inr c2)
      · exact (exclusive_iff t).2 (Or.inr c1)
      · exact (exclusive_iff t).2 (Or.inl (c1.trans hres0))
    · rcases b4 with ⟨c1, -⟩ | ⟨-, c2 | c2⟩ | ⟨c1, -⟩
      · exact Or.inl c1
      · exact Or.inr (Or.inl c2)
      · exact Or.inr (Or.inr c2)
      · exact Or.inl c1
    · rcases b4 with ⟨-, c2⟩ | ⟨c1, -⟩ | ⟨-, c2⟩
      · exact Or.inr (Or.inl c2)
      · exact Or.inr (Or.inl c1)
      · exact Or.inr (Or.inr c2)
  · obtain ⟨b1, -, b3, b4⟩ := OnMouseOverColumn_facts h _ _ mevent t evs h1
    have hres0 : s0.m_colBeingResized = COL_NONE := (IsResizing_eq_false_iff s0).1 hr
    have hreo0 : s0.m_colBeingReordered = COL_NONE := (IsReordering_eq_false_iff s0).1 ho
    refine ⟨b1.2.1, b1.2.2.1, fun e he => (b3 e he).1, ?_, ?_, ?_⟩
    · intro _
      rcases b4 with ⟨c1, -⟩ | ⟨c1, -⟩ | ⟨c1, -⟩
      · exact (exclusive_iff t).2 (Or.inl (c1.trans hres0))
      · exact (exclusive_iff t).2 (Or.inr (c1.trans hreo0))
      · exact (exclusive_iff t).2 (Or.inl (c1.trans hres0))
    · rcases b4 with ⟨c1, -⟩ | ⟨-, c2 | c2⟩ | ⟨c1, -⟩
      · exact Or.inl c1
      · exact Or.inr (Or.inl c2)
      · exact Or.inr (Or.inr c2)
      · exact Or.inl c1
    · rcases b4 with ⟨-, c2⟩ | ⟨c1, -⟩ | ⟨-, c2⟩
      · exact Or.inl c2
      · exact Or.inl c1
      · exact Or.inr (Or.inr c2)

/-- The display order and the hovered column after `OnMouse` on a permutation. -/
theorem OnMouse_perm (h : Handler) (s0 : wxHeaderCtrl) (mevent : wxMouseEvent)
    (t : wxHeaderCtrl) (evs : List Notification) (hperm : IsPermutation s0)
    (hcount : s0.m_numColumns ≤ COL_NONE) (hres : OnMouse h s0 mevent = some (t, evs)) :
    IsPermutation t ∧ (∀ e ∈ evs, positionInRange s0 e) ∧
    (t.m_hover = s0.m_hover ∨ t.m_hover = COL_NONE ∨ t.m_hover < s0.m_numColumns) := by
  have hlay0 : SameLayout s0 { s0 with m_wasSeparatorDClick := false } :=
    ⟨rfl, rfl, rfl, rfl, rfl, rfl⟩
  have hhit : ∀ s : wxHeaderCtrl, IsPermutation s → s.m_numColumns = s0.m_numColumns →
      ∀ c, (c = COL_NONE ∨ c = (FindColumnAtPoint s mevent.x).1) →
        (c = s0.m_hover ∨ c = COL_NONE ∨ c < s0.m_numColumns) := by
    intro s hp hn c hc
    rcases hc with hc | hc
    · exact Or.inr (Or.inl hc)
    · rcases FindColumnAtPoint_cases s hp mevent.x with h1 | h1
      · exact Or.inr (Or.inl (hc.trans (congrArg Prod.fst h1)))
      · right; right
        rw [hc, ← hn]; exact (hp.mem_iff _).1 h1.1
  rcases OnMouse_cases h s0 mevent t evs hres with
    ⟨-, h1 | h1⟩ | ⟨-, -, ⟨rfl, rfl⟩ | h1 | ⟨s2, evs1, evs2, h1, h2, rfl⟩⟩ | ⟨-, -, h1⟩
  · obtain ⟨a1, a2, -, -, -, a6⟩ := EndResizing_facts _ _ t evs h1
    exact ⟨IsPermutation_congr a1 hperm, fun e he => (a6 e he).2, Or.inl a2⟩
  · obtain ⟨a1, a2, -, -, -, -, a7⟩ := StartOrContinueResizing_facts h _ _ _ t evs h1
    exact ⟨IsPermutation_congr a1 hperm, fun e he => (a7 e he).2, Or.inl a2⟩
  · exact ⟨hperm, by simp, Or.inl rfl⟩
  · obtain ⟨-, -, a3, -⟩ := EndReordering_facts h _ _ t true evs h1
    obtain ⟨b1, b2⟩ := EndReordering_perm h { s0 with m_wasSeparatorDClick := false } _ t true evs
      hperm hcount h1
    exact ⟨b1, b2, Or.inl a3⟩
  · obtain ⟨-, -, -, -, -, -, a7, -⟩ := EndReordering_facts h _ _ s2 false evs1 h1
    obtain ⟨rfl, rfl⟩ := a7 rfl
    obtain ⟨b1, b2, b3, -⟩ := OnMouseOverColumn_facts h _ _ mevent t evs2 h2
    refine ⟨IsPermutation_congr b1 hperm, ?_, ?_⟩
    · intro e he
      simp only [List.nil_append] at he
      exact (b3 e he).2
    · exact hhit _ hperm rfl _ b2
  · obtain ⟨b1, b2, b3, -⟩ := OnMouseOverColumn_facts h _ _ mevent t evs h1
    exact ⟨IsPermutation_congr b1 hperm, fun e he => (b3 e he).2, hhit _ hperm rfl _ b2⟩

theorem OnMouseButtons_isSome (h : Handler) (s : wxHeaderCtrl) (col : Nat) (region : Region)
    (was : Bool) (mevent : wxMouseEvent) (hcol : col = COL_NONE ∨ col ∈ s.m_colIndices) :
    ∃ t evs, OnMouseButtons h s col region was mevent = some (t, evs) := by
  unfold OnMouseButtons
  by_cases hm : mevent.moving = true
  · rw [if_pos hm]; exact ⟨_, _, rfl⟩
  · rw [if_neg hm]
    by_cases hcn : col = COL_NONE
    · rw [if_pos hcn]; exact ⟨_, _, rfl⟩
    · rw [if_neg hcn]
      have hmem : col ∈ s.m_colIndices := hcol.resolve_left hcn
      by_cases hld : mevent.leftDown = true
      · rw [if_pos hld]
        by_cases hsep : region = Region.Separator
        · rw [if_pos hsep]; exact StartOrContinueResizing_isSome h s col _ hmem
        · rw [if_neg hsep]
          by_cases hre : s.allowReorder = true ∧ (s.GetColumn col).reorderable = true
          · rw [if_pos hre]; exact StartReordering_isSome h s col _ hmem
          · rw [if_neg hre]; exact ⟨_, _, rfl⟩
      · rw [if_neg hld]
        cases hclick : clickEventType mevent region was with
        | mk evt sep =>
          cases evt with
          | none => exact ⟨_, _, rfl⟩
          | some evt => exact ⟨_, _, rfl⟩

theorem OnMouseOverColumn_isSome (h : Handler) (s : wxHeaderCtrl) (was : Bool)
    (mevent : wxMouseEvent) (hperm : IsPermutation s)
    (hhover : s.m_hover = COL_NONE ∨ s.m_hover ∈ s.m_colIndices) :
    ∃ t evs, OnMouseOverColumn h s was mevent = some (t, evs) := by
  have hcol : (if mevent.leaving = true then COL_NONE else (FindColumnAtPoint s mevent.x).1) =
      COL_NONE ∨
      (if mevent.leaving = true then COL_NONE else (FindColumnAtPoint s mevent.x).1) ∈
        s.m_colIndices := by
    split
    · exact Or.inl rfl
    · rcases FindColumnAtPoint_cases s hperm mevent.x with h1 | h1
      · exact Or.inl (congrArg Prod.fst h1)
      · exact Or.inr h1.1
  obtain ⟨s1, hs1⟩ := updateHover_isSome s _ hhover hcol
  have hs1eq := updateHover_cases s _ s1 hs1
  unfold OnMouseOverColumn
  rw [hs1]
  dsimp only
  apply OnMouseButtons_isSome
  rw [hs1eq]
  exact hcol

theorem UpdateReorderingMarker_isSome (s : wxHeaderCtrl) (x : Int) (hperm : IsPermutation s) :
    UpdateReorderingMarker s x = some () := by
  have hdef : ∀ c, c ∈ s.m_colIndices →
      (∃ a, GetColStart s c = some a) ∧ ∃ b, GetColEnd s c = some b := by
    intro c hc
    obtain ⟨st, hst⟩ := GetColStartLoop_isSome s.GetColumn c s.m_colIndices s.m_scrollOffset hc
    have hst2 : GetColStart s c = some st := hst
    exact ⟨⟨st, hst2⟩, ⟨st + (s.GetColumn c).width, by simp [GetColEnd, hst2]⟩⟩
  unfold UpdateReorderingMarker
  by_cases hne : (FindColumnClosestToPoint s x).1 ≠ COL_NONE
  · rw [if_pos hne]
    have hN : 1 ≤ s.m_numColumns := by
      by_contra hN
      have h0 : s.m_numColumns = 0 := by omega
      have hl : s.m_colIndices = [] := List.length_eq_zero.1 (hperm.length_eq.trans h0)
      apply hne
      unfold FindColumnClosestToPoint FindColumnAtPoint GetColumnCount
      simp [hl, h0, FindColumnAtPointLoop]
    obtain ⟨⟨a, ha⟩, ⟨b, hb⟩⟩ := hdef _ (FindColumnClosestToPoint_mem s hperm hN x)
    rw [ha, hb]
    split
    · rfl
    · split <;> rfl
  · rw [if_neg hne]

theorem OnMouse_isSome (h : Handler) (s0 : wxHeaderCtrl) (mevent : wxMouseEvent)
    (hwf : WellFormed s0) : ∃ t evs, OnMouse h s0 mevent = some (t, evs) := by
  obtain ⟨hperm, hcount, hhover, hresized, hreordered⟩ := hwf
  have hvalid : ∀ c, (c = COL_NONE ∨ c < s0.m_numColumns) → c ≠ COL_NONE →
      c ∈ s0.m_colIndices := fun c hc hn => (hperm.mem_iff c).2 (hc.resolve_left hn)
  have hhover2 : s0.m_hover = COL_NONE ∨ s0.m_hover ∈ s0.m_colIndices := by
    rcases hhover with hh | hh
    · exact Or.inl hh
    · exact Or.inr ((hperm.mem_iff _).2 hh)
  unfold OnMouse
  dsimp only
  have hrs : IsResizing { s0 with m_wasSeparatorDClick := false } = IsResizing s0 := rfl
  have hro : IsReordering { s0 with m_wasSeparatorDClick := false } = IsReordering s0 := rfl
  rw [hrs, hro]
  by_cases hr : IsResizing s0 = true
  · have hmem : s0.m_colBeingResized ∈ s0.m_colIndices :=
      hvalid _ hresized (by simpa [IsResizing] using hr)
    rw [if_pos hr]
    by_cases hup : mevent.leftUp = true
    · rw [if_pos hup]; exact EndResizing_isSome _ _ hmem
    · rw [if_neg hup]; exact StartOrContinueResizing_isSome h _ _ _ hmem
  · rw [if_neg hr]
    by_cases ho : IsReordering s0 = true
    · have hne : s0.m_colBeingReordered ≠ COL_NONE := by simpa [IsReordering] using ho
      rw [if_pos ho]
      by_cases hup : mevent.leftUp = false
      · rw [if_pos hup,
          UpdateReorderingMarker_isSome { s0 with m_wasSeparatorDClick := false } mevent.x hperm]
        exact ⟨_, _, rfl⟩
      · rw [if_neg hup]
        obtain ⟨s2, b, evs1, hend⟩ := EndReordering_isSome h
          { s0 with m_wasSeparatorDClick := false } mevent.x hperm hcount
          (hreordered.resolve_left hne)
        rw [hend]
        cases b with
        | true => exact ⟨_, _, rfl⟩
        | false =>
          dsimp only
          obtain ⟨-, -, -, -, -, -, a7, -⟩ := EndReordering_facts h _ _ s2 false evs1 hend
          obtain ⟨rfl, rfl⟩ := a7 rfl
          obtain ⟨t, evs2, hover⟩ := OnMouseOverColumn_isSome h
            (reorderCleared { s0 with m_wasSeparatorDClick := false })
            s0.m_wasSeparatorDClick mevent hperm hhover2
          rw [hover]
          exact ⟨_, _, rfl⟩
    · rw [if_neg ho]
      exact OnMouseOverColumn_isSome h _ _ mevent hperm hhover2

theorem CancelDragging_facts (s : wxHeaderCtrl) :
    SameLayout s (CancelDragging s).1 ∧ (CancelDragging s).1.m_hover = s.m_hover ∧
    ((CancelDragging s).1.m_colBeingResized = COL_NONE ∧
        (CancelDragging s).1.m_colBeingReordered = s.m_colBeingReordered ∨
      (CancelDragging s).1.m_colBeingResized = s.m_colBeingResized ∧
        (CancelDragging s).1.m_colBeingReordered = COL_NONE) := by
  rcases CancelDragging_cases s with ⟨c1, -, -⟩ | ⟨c1, -, -⟩ <;> rw [c1]
  · exact ⟨⟨rfl, rfl, rfl, rfl, rfl, rfl⟩, rfl, Or.inl ⟨rfl, rfl⟩⟩
  · exact ⟨⟨rfl, rfl, rfl, rfl, rfl, rfl⟩, rfl, Or.inr ⟨rfl, rfl⟩⟩

theorem OnCaptureLost_facts (s : wxHeaderCtrl) :
    SameLayout s (OnCaptureLost s).1 ∧ (OnCaptureLost s).1.m_hover = s.m_hover ∧
    ((OnCaptureLost s).1.m_colBeingResized = COL_NONE ∨
      (OnCaptureLost s).1.m_colBeingResized = s.m_colBeingResized) ∧
    ((OnCaptureLost s).1.m_colBeingReordered = COL_NONE ∨
      (OnCaptureLost s).1.m_colBeingReordered = s.m_colBeingReordered) := by
  unfold OnCaptureLost
  split
  · obtain ⟨a1, a2, a3⟩ := CancelDragging_facts s
    refine ⟨a1, a2, ?_, ?_⟩
    · rcases a3 with a3 | a3
      · exact Or.inl a3.1
      · exact Or.inr a3.1
    · rcases a3 with a3 | a3
      · exact Or.inr a3.2
      · exact Or.inl a3.2
  · exact ⟨SameLayout.refl s, rfl, Or.inr rfl, Or.inr rfl⟩

theorem OnKeyDown_facts (s : wxHeaderCtrl) (keyCode : Nat) :
    SameLayout s (OnKeyDown s keyCode).1 ∧ (OnKeyDown s keyCode).1.m_hover = s.m_hover ∧
    ((OnKeyDown s keyCode).1.m_colBeingResized = COL_NONE ∨
      (OnKeyDown s keyCode).1.m_colBeingResized = s.m_colBeingResized) ∧
    ((OnKeyDown s keyCode).1.m_colBeingReordered = COL_NONE ∨
      (OnKeyDown s keyCode).1.m_colBeingReordered = s.m_colBeingReordered) := by
  unfold OnKeyDown
  split
  · exact OnCaptureLost_facts s
  · exact ⟨SameLayout.refl s, rfl, Or.inr rfl, Or.inr rfl⟩

theorem wellFormed_of_step {s t : wxHeaderCtrl} (hwf : WellFormed s) (hperm : IsPermutation t)
    (hn : t.m_numColumns = s.m_numColumns)
    (hhover : t.m_hover = s.m_hover ∨ t.m_hover = COL_NONE ∨ t.m_hover < s.m_numColumns)
    (hres : t.m_colBeingResized = s.m_colBeingResized ∨ t.m_colBeingResized = COL_NONE ∨
      t.m_colBeingResized ∈ s.m_colIndices)
    (hreo : t.m_colBeingReordered = s.m_colBeingReordered ∨ t.m_colBeingReordered = COL_NONE ∨
      t.m_colBeingReordered ∈ s.m_colIndices) : WellFormed t := by
  obtain ⟨w1, w2, w3, w4, w5⟩ := hwf
  refine ⟨hperm, by rw [hn]; exact w2, ?_, ?_, ?_⟩
  · rw [hn]
    rcases hhover with hh | hh | hh
    · rw [hh]; exact w3
    · exact Or.inl hh
    · exact Or.inr hh
  · rw [hn]
    rcases hres with hh | hh | hh
    · rw [hh]; exact w4
    · exact Or.inl hh
    · exact Or.inr ((w1.mem_iff _).1 hh)
  · rw [hn]
    rcases hreo with hh | hh | hh
    · rw [hh]; exact w5
    · exact Or.inl hh
    · exact Or.inr ((w1.mem_iff _).1 hh)

/-- C2: every mouse, key and capture-lost event keeps the display order a
permutation of `[0, N)`, for every handler.  Whenever `OnMouse` returns, the
new order is a permutation, the count is unchanged and every position carried by
an `EndReorder` notification, which is the position handed to `DoMoveCol`, is
below `N`; on a well-formed state `OnMouse` does return, in a well-formed state;
`OnKeyDown` and `OnCaptureLost` leave the order as it is. -/
theorem events_preserve_permutation (h : Handler) (s : wxHeaderCtrl) (hperm : IsPermutation s)
    (hcount : s.m_numColumns ≤ COL_NONE) :
    (∀ mevent t evs, OnMouse h s mevent = some (t, evs) →
      IsPermutation t ∧ t.m_numColumns = s.m_numColumns ∧
      ∀ col pos, Notification.EndReorder col pos ∈ evs → pos < s.m_numColumns) ∧
    (WellFormed s → ∀ mevent, ∃ t evs, OnMouse h s mevent = some (t, evs) ∧ WellFormed t) ∧
    (∀ keyCode, IsPermutation (OnKeyDown s keyCode).1 ∧
      (OnKeyDown s keyCode).1.m_colIndices = s.m_colIndices) ∧
    (IsPermutation (OnCaptureLost s).1 ∧
      (OnCaptureLost s).1.m_colIndices = s.m_colIndices) := by
  refine ⟨?_, ?_, ?_, ?_⟩
  · intro mevent t evs hres
    obtain ⟨a1, a2, -⟩ := OnMouse_perm h s mevent t evs hperm hcount hres
    obtain ⟨b1, -⟩ := OnMouse_facts h s mevent t evs hres
    exact ⟨a1, b1, fun col pos hmem => a2 _ hmem⟩
  · intro hwf mevent
    obtain ⟨t, evs, hres⟩ := OnMouse_isSome h s mevent hwf
    obtain ⟨a1, -, a3⟩ := OnMouse_perm h s mevent t evs hperm hcount hres
    obtain ⟨b1, -, -, -, b5, b6⟩ := OnMouse_facts h s mevent t evs hres
    exact ⟨t, evs, hres, wellFormed_of_step hwf a1 b1 a3 b5 b6⟩
  · intro keyCode
    obtain ⟨a1, -⟩ := OnKeyDown_facts s keyCode
    exact ⟨IsPermutation_congr a1 hperm, a1.1⟩
  · obtain ⟨a1, -⟩ := OnCaptureLost_facts s
    exact ⟨IsPermutation_congr a1 hperm, a1.1⟩

/-- C3: in every state reachable from `Init` through mouse, key and capture-lost
events with any handler, also when the owner reconfigures the columns between
events, `IsResizing` and `IsReordering` are never both true. -/
theorem resize_and_reorder_exclusive (s : wxHeaderCtrl) (hs : Reachable s) :
    ¬ (IsResizing s = true ∧ IsReordering s = true) := by
  induction hs with
  | init getColumn allowReorder margin =>
    exact (exclusive_iff _).2 (Or.inl rfl)
  | configure s t _ h1 h2 ih =>
    apply (exclusive_iff t).2
    rw [h1, h2]
    exact (exclusive_iff s).1 ih
  | mouse h s mevent t evs _ hres ih =>
    exact (OnMouse_facts h s mevent t evs hres).2.2.2.1 ih
  | key s keyCode _ ih =>
    obtain ⟨-, -, a3, a4⟩ := OnKeyDown_facts s keyCode
    apply (exclusive_iff _).2
    rcases (exclusive_iff s).1 ih with hx | hx
    · rcases a3 with a3 | a3
      · exact Or.inl a3
      · exact Or.inl (a3.trans hx)
    · rcases a4 with a4 | a4
      · exact Or.inr a4
      · exact Or.inr (a4.trans hx)
  | captureLost s _ ih =>
    obtain ⟨-, -, a3, a4⟩ := OnCaptureLost_facts s
    apply (exclusive_iff _).2
    rcases (exclusive_iff s).1 ih with hx | hx
    · rcases a3 with a3 | a3
      · exact Or.inl a3
      · exact Or.inl (a3.trans hx)
    · rcases a4 with a4 | a4
      · exact Or.inr a4
      · exact Or.inr (a4.trans hx)

/-- C8, amended: on a permutation, when a reorder of `S` is in progress, the
pointer displacement is non-zero, the drop point resolves to the last column
`T ≠ S` with region `RightHalf` or `Separator` and `EndReorder` is not vetoed,
`EndReordering` moves `S` to the last display position and keeps the other
columns in order; for three columns A, B, C of width 50, pressing inside A at
x = 10 and releasing at x = 140 yields the order B, C, A. -/
theorem drop_on_last_column_appends (h : Handler) (s : wxHeaderCtrl) (x : Int) (S T : Nat)
    (region : Region) (hperm : IsPermutation s) (hcount : s.m_numColumns ≤ COL_NONE)
    (hS : s.m_colBeingReordered = S) (hSlt : S < s.m_numColumns)
    (hdrop : FindColumnClosestToPoint s x = (T, region))
    (hlast : s.m_colIndices[s.m_numColumns - 1]? = some T) (hTS : T ≠ S)
    (hreg : region = Region.RightHalf ∨ region = Region.Separator)
    (hmoved : ∀ start, GetColStart s S = some start → x - start ≠ s.m_dragOffset)
    (hallow : ∀ pos, vetoed h (Notification.EndReorder S pos) = false) :
    (∃ s2 evs, EndReordering h s x = some (s2, true, evs) ∧ IsPermutation s2 ∧
      s2.m_numColumns = s.m_numColumns ∧
      s2.m_colIndices[s.m_numColumns - 1]? = some S ∧
      s2.m_colIndices.filter (fun i => decide (i ≠ S)) =
        s.m_colIndices.filter (fun i => decide (i ≠ S))) ∧
    ((OnMouse noHandler threeColumns (leftDownAt 10)).bind
        (fun r => OnMouse noHandler r.1 (leftUpAt 140))).map
      (fun r => (r.1.m_colIndices, r.2)) = some ([1, 2, 0], [Notification.EndReorder 0 2]) := by
  refine ⟨?_, by decide⟩
  subst hS
  have hSmem : s.m_colBeingReordered ∈ s.m_colIndices := (hperm.mem_iff _).2 hSlt
  have hlen := hperm.length_eq
  have hTmem : T ∈ s.m_colIndices := List.getElem?_mem hlast
  have hkT : s.m_colIndices.indexOf T = s.m_numColumns - 1 := by
    have hlt : s.m_numColumns - 1 < s.m_colIndices.length := by omega
    have hget : s.m_colIndices[s.m_numColumns - 1] = T := by
      have := List.getElem?_eq_getElem hlt
      rw [this] at hlast
      exact Option.some.inj hlast
    rw [← hget]
    exact List.indexOf_getElem hperm.nodup _ hlt
  obtain ⟨start, hstart⟩ := GetColStartLoop_isSome s.GetColumn s.m_colBeingReordered
    s.m_colIndices s.m_scrollOffset hSmem
  have hregion : (FindColumnClosestToPoint s x).2 = region := by rw [hdrop]
  have hfst : (FindColumnClosestToPoint s x).1 = T := by rw [hdrop]
  have hA := FindColumnAfter_of_last hperm (c := T) (by omega)
  have hloc : locatedByPreviousCol s x = false := by
    unfold locatedByPreviousCol
    rw [hfst, hA]; simp
  have htarget : dropTarget s x = T := by
    unfold dropTarget; rw [hloc, hfst]; simp
  have hleft : region ≠ Region.LeftHalf := by
    rcases hreg with hr | hr <;> rw [hr] <;> decide
  have hnw : region ≠ Region.NoWhere := by
    rcases hreg with hr | hr <;> rw [hr] <;> decide
  have hpos : dropPosition s s.m_colBeingReordered T false region = s.m_numColumns - 1 := by
    unfold dropPosition
    rw [if_neg, hkT]
    rintro ⟨-, hc | hc | hc⟩
    · apply hc; omega
    · exact absurd hc (by decide)
    · exact hleft hc
  rw [EndReordering_eq_of_moved h s x start hperm hcount hSlt hstart (hmoved start hstart),
    htarget, hregion, hloc, if_pos ⟨hTS, hnw⟩, hpos, if_pos (hallow _)]
  obtain ⟨hpm, hiS, -, hfil⟩ := MoveColumnInOrderArray_positions hperm.nodup hSmem hTS
    (p := s.m_numColumns - 1) (by omega)
  have hS2 : s.m_colBeingReordered ∈
      MoveColumnInOrderArray s.m_colIndices s.m_colBeingReordered (s.m_numColumns - 1) :=
    hpm.mem_iff.2 hSmem
  refine ⟨_, _, rfl, hpm.trans hperm, rfl, ?_, hfil⟩
  have := getElem?_indexOf_of_mem hS2
  rw [hiS] at this
  exact this

/-- C10: `DoGetColumnsOrder` after `DoSetColumnsOrder order` returns `order`,
and setting the same order twice gives the same state as setting it once; this
holds for every order, valid permutations included. -/
theorem columns_order_round_trip (s : wxHeaderCtrl) (order : List Nat) :
    DoGetColumnsOrder (DoSetColumnsOrder s order) = order ∧
    DoSetColumnsOrder (DoSetColumnsOrder s order) order = DoSetColumnsOrder s order :=
  ⟨rfl, rfl⟩

/-- Witness for C1: A dragged from x = 10 and dropped at x = 140, on the right half
of C, among three columns of width 50. -/
theorem EndReordering_places_source_witness :
    IsPermutation threeColumnsDraggingA ∧
    FindColumnClosestToPoint threeColumnsDraggingA 140 = (2, Region.RightHalf) ∧
    ∃ s2 evs, EndReordering noHandler threeColumnsDraggingA 140 = some (s2, true, evs) ∧
      IsPermutation s2 ∧
      (Region.RightHalf = Region.LeftHalf →
        ∃ k, s2.m_colIndices[k]? = some 0 ∧ s2.m_colIndices[k + 1]? = some 2) ∧
      (Region.RightHalf = Region.RightHalf ∨ Region.RightHalf = Region.Separator →
        ∃ k, s2.m_colIndices[k]? = some 2 ∧ s2.m_colIndices[k + 1]? = some 0) ∧
      s2.m_colIndices.filter (fun i => decide (i ≠ 0)) =
        threeColumnsDraggingA.m_colIndices.filter (fun i => decide (i ≠ 0)) :=
  ⟨by decide, by decide,
    EndReordering_places_source noHandler threeColumnsDraggingA 140 0 2 Region.RightHalf
      (by decide) (by decide) rfl (by decide) (by decide) (by decide)
      (fun start hst => by
        have h0 : (0 : Int) = start := Option.some.inj hst
        subst h0
        decide)
      (fun _ => rfl)⟩

/-- Witness for C2: the release at x = 140 of the drag of A among three columns. -/
theorem events_preserve_permutation_witness :
    IsPermutation threeColumnsDraggingA ∧ threeColumnsDraggingA.m_numColumns ≤ COL_NONE ∧
    ∀ t evs, OnMouse noHandler threeColumnsDraggingA (leftUpAt 140) = some (t, evs) →
      IsPermutation t ∧ t.m_numColumns = threeColumnsDraggingA.m_numColumns ∧
      ∀ col pos, Notification.EndReorder col pos ∈ evs →
        pos < threeColumnsDraggingA.m_numColumns :=
  ⟨by decide, by decide,
    (events_preserve_permutation noHandler threeColumnsDraggingA (by decide) (by decide)).1
      (leftUpAt 140)⟩

/-- Witness for C3: the state reached from `Init` by configuring three columns
and pressing the left button inside A. -/
theorem resize_and_reorder_exclusive_witness :
    Reachable threeColumnsDraggingA ∧
    ¬ (IsResizing threeColumnsDraggingA = true ∧ IsReordering threeColumnsDraggingA = true) :=
  have hreach : Reachable threeColumnsDraggingA :=
    Reachable.mouse noHandler threeColumns (leftDownAt 10) threeColumnsDraggingA
      [Notification.BeginReorder 0]
      (Reachable.configure (Init (fun _ => column50) true 8) threeColumns
        (Reachable.init _ _ _) rfl rfl)
      rfl
  ⟨hreach, resize_and_reorder_exclusive threeColumnsDraggingA hreach⟩

/-- Witness for C7: press and release at x = 10 inside A. -/
theorem zero_displacement_reorder_is_noop_witness :
    0 ∈ threeColumns.m_colIndices ∧
    vetoed noHandler (Notification.BeginReorder 0) = false ∧
    ∃ s1 s2, StartReordering noHandler threeColumns 0 10 =
        some (s1, [Notification.BeginReorder 0]) ∧
      s1.m_colBeingReordered = 0 ∧ s1.m_colIndices = threeColumns.m_colIndices ∧
      EndReordering noHandler s1 10 = some (s2, false, []) ∧
      s2.m_colIndices = threeColumns.m_colIndices ∧ s2.m_colBeingReordered = COL_NONE :=
  ⟨by decide, rfl, zero_displacement_reorder_is_noop noHandler threeColumns 0 10 (by decide) rfl⟩

/-- Counterexample to C8 as stated: A is being reordered and is not last, the drop
point x = 90 resolves to the right half of the last column B, nothing is vetoed,
but `x - GetColStart A` equals the recorded drag offset, so `EndReordering`
returns false and the order stays A, B. -/
theorem drop_on_last_column_counterexample :
    IsPermutation staleDragOffset ∧ staleDragOffset.m_numColumns = 2 ∧
    staleDragOffset.m_colIndices = [0, 1] ∧ staleDragOffset.m_colBeingReordered = 0 ∧
    FindColumnClosestToPoint staleDragOffset 90 = (1, Region.RightHalf) ∧
    vetoed noHandler (Notification.EndReorder 0 1) = false ∧
    (EndReordering noHandler staleDragOffset 90).map (fun r => (r.1.m_colIndices, r.2)) =
      some ([0, 1], false, []) := by
  decide

/-- Witness for C8 as amended: A dropped at x = 140 on the right half of the last
column C. -/
theorem drop_on_last_column_appends_witness :
    IsPermutation threeColumnsDraggingA ∧
    FindColumnClosestToPoint threeColumnsDraggingA 140 = (2, Region.RightHalf) ∧
    threeColumnsDraggingA.m_colIndices[threeColumnsDraggingA.m_numColumns - 1]? = some 2 ∧
    ∃ s2 evs, EndReordering noHandler threeColumnsDraggingA 140 = some (s2, true, evs) ∧
      IsPermutation s2 ∧ s2.m_numColumns = threeColumnsDraggingA.m_numColumns ∧
      s2.m_colIndices[threeColumnsDraggingA.m_numColumns - 1]? = some 0 ∧
      s2.m_colIndices.filter (fun i => decide (i ≠ 0)) =
        threeColumnsDraggingA.m_colIndices.filter (fun i => decide (i ≠ 0)) :=
  ⟨by decide, by decide, by decide,
    (drop_on_last_column_appends noHandler threeColumnsDraggingA 140 0 2 Region.RightHalf
      (by decide) (by decide) rfl (by decide) (by decide) (by decide) (by decide)
      (Or.inl rfl)
      (fun start hst => by
        have h0 : (0 : Int) = start := Option.some.inj hst
        subst h0
        decide)
      (fun _ => rfl)).1⟩

/-- Witness for C9: three columns of width 50, not scrolled; the first and the
last column. -/
theorem GetColStart_monotone_in_display_order_witness :
    IsPermutation threeColumns ∧ INT_MIN ≤ threeColumns.m_scrollOffset ∧
    threeColumns.m_scrollOffset +
      totalShownWidth threeColumns.GetColumn (threeColumns.m_colIndices.take 2) ≤ INT_MAX ∧
    (∃ c, threeColumns.m_colIndices[0]? = some c ∧
      GetColStart32 threeColumns c = some threeColumns.m_scrollOffset) ∧
    ∃ a b, GetColStart32 threeColumns 0 = some a ∧ GetColStart32 threeColumns 2 = some b ∧
      a ≤ b :=
  ⟨by decide, by decide, by decide,
    (GetColStart_monotone_in_display_order threeColumns (by decide) (by decide)
      (fun _ _ => show (0 : Int) ≤ 50 by decide)).1,
    (GetColStart_monotone_in_display_order threeColumns (by decide) (by decide)
      (fun _ _ => show (0 : Int) ≤ 50 by decide)).2 0 2 0 2 (by decide) rfl rfl (by decide)
      (by decide)⟩

/-- Counterexample to C9 as stated: three columns of non-negative width 50 in the
order A, B, C, scrolled to 2147483600.  The start of the first displayed column
is 2147483600 and that of the third is -2147483596: the sum
2147483600 + 50 + 50 does not fit an `int` and wraps around. -/
theorem GetColStart_monotone_counterexample :
    IsPermutation scrolledNearIntMax ∧ 1 ≤ scrolledNearIntMax.m_numColumns ∧
    (∀ k, k < scrolledNearIntMax.m_numColumns → 0 ≤ (scrolledNearIntMax.GetColumn k).width) ∧
    scrolledNearIntMax.m_colIndices[0]? = some 0 ∧
    scrolledNearIntMax.m_colIndices[2]? = some 2 ∧
    GetColStart32 scrolledNearIntMax 0 = some 2147483600 ∧
    GetColStart32 scrolledNearIntMax 2 = some (-2147483596) ∧
    ¬ ((2147483600 : Int) ≤ -2147483596) :=
  ⟨by decide, by decide, fun _ _ => show (0 : Int) ≤ 50 by decide, rfl, rfl, by decide,
    by decide, by decide⟩

theorem FindColumnAtPointLoop_half (g : Nat → wxHeaderColumn) (m xl off : Int) :
    ∀ (l : List Nat) (pos : Int), l.Nodup →
      (FindColumnAtPointLoop g m xl l pos).2 = Region.LeftHalf ∨
        (FindColumnAtPointLoop g m xl l pos).2 = Region.RightHalf →
      ∃ st, GetColStartLoop g (FindColumnAtPointLoop g m xl l pos).1 l (off + pos) = some st ∧
        ((FindColumnAtPointLoop g m xl l pos).2 = Region.LeftHalf ↔
          xl - (st - off) <
            st - off + (g (FindColumnAtPointLoop g m xl l pos).1).width - xl) := by
  intro l
  induction l with
  | nil =>
    intro pos _ hreg
    rcases hreg with hreg | hreg <;> simp [FindColumnAtPointLoop] at hreg
  | cons i rest ih =>
    intro pos hnd hreg
    have hnd2 := (List.nodup_cons.1 hnd).2
    have hlift : ∀ p q : Int, q = (if (g i).shown then off + pos + (g i).width else off + pos) →
        ((FindColumnAtPointLoop g m xl rest p).2 = Region.LeftHalf ∨
          (FindColumnAtPointLoop g m xl rest p).2 = Region.RightHalf) →
        (∃ st, GetColStartLoop g (FindColumnAtPointLoop g m xl rest p).1 rest q = some st ∧
          ((FindColumnAtPointLoop g m xl rest p).2 = Region.LeftHalf ↔
            xl - (st - off) <
              st - off + (g (FindColumnAtPointLoop g m xl rest p).1).width - xl)) →
        ∃ st, GetColStartLoop g (FindColumnAtPointLoop g m xl rest p).1 (i :: rest)
            (off + pos) = some st ∧
          ((FindColumnAtPointLoop g m xl rest p).2 = Region.LeftHalf ↔
            xl - (st - off) <
              st - off + (g (FindColumnAtPointLoop g m xl rest p).1).width - xl) := by
      intro p q hq hr ⟨st, hst, hiff⟩
      have hmem : (FindColumnAtPointLoop g m xl rest p).1 ∈ rest := by
        rcases FindColumnAtPointLoop_sound g m xl off rest p hnd2 with h0 | h0
        · rw [h0] at hr
          rcases hr with hr | hr <;> exact absurd hr (by decide)
        · exact h0.1
      refine ⟨st, ?_, hiff⟩
      rw [GetColStartLoop_cons_of_mem g i _ rest _ hnd hmem, ← hq]
      exact hst
    by_cases hsh : (g i).shown = false
    · rw [FindColumnAtPointLoop_hidden g m xl pos i rest hsh] at hreg ⊢
      exact hlift pos _ (by simp [hsh]) hreg (ih pos hnd2 hreg)
    · have hsh2 : (g i).shown = true := by simpa using hsh
      by_cases hsep : (g i).resizeable = true ∧ |xl - (pos + (g i).width)| < m
      · rw [FindColumnAtPointLoop_separator g m xl pos i rest hsh2 hsep] at hreg
        rcases hreg with hreg | hreg <;> simp at hreg
      · by_cases hin : xl < pos + (g i).width ∧ xl ≥ pos
        · by_cases hhalf : xl - pos < pos + (g i).width - xl
          · rw [FindColumnAtPointLoop_left g m xl pos i rest hsh2 hsep hin hhalf]
            refine ⟨off + pos, by simp [GetColStartLoop], ?_⟩
            constructor
            · intro _; show xl - (off + pos - off) < off + pos - off + (g i).width - xl; omega
            · intro _; rfl
          · rw [FindColumnAtPointLoop_right g m xl pos i rest hsh2 hsep hin hhalf]
            refine ⟨off + pos, by simp [GetColStartLoop], ?_⟩
            constructor
            · intro hc; simp at hc
            · intro hc
              exfalso; apply hhalf
              have : xl - (off + pos - off) < off + pos - off + (g i).width - xl := hc
              omega
        · rw [FindColumnAtPointLoop_next g m xl pos i rest hsh2 hsep hin] at hreg ⊢
          have hassoc : off + pos + (g i).width = off + (pos + (g i).width) := by ring
          exact hlift (pos + (g i).width) _ (by simp [hsh2, hassoc]) hreg
            (ih (pos + (g i).width) hnd2 hreg)
/-- C20: on a permutation, whenever `FindColumnAtPoint` resolves `x` to the body of
a column with physical bounds `[a, e)`, the region is `LeftHalf` exactly when the
logical distance of `x` to the start is strictly below its distance to the end,
and `RightHalf` otherwise; a point exactly at the midpoint is `RightHalf`. -/
theorem half_tie_break (s : wxHeaderCtrl) (hperm : IsPermutation s) (x : Int) (idx : Nat)
    (region : Region) (hres : FindColumnAtPoint s x = (idx, region))
    (hbody : region = Region.LeftHalf ∨ region = Region.RightHalf) :
    ∃ a e, GetColStart s idx = some a ∧ GetColEnd s idx = some e ∧ a ≤ x ∧ x < e ∧
      (region = Region.LeftHalf ↔
        (x - s.m_scrollOffset) - (a - s.m_scrollOffset) <
          (e - s.m_scrollOffset) - (x - s.m_scrollOffset)) ∧
      (region = Region.RightHalf ↔
        ¬ ((x - s.m_scrollOffset) - (a - s.m_scrollOffset) <
          (e - s.m_scrollOffset) - (x - s.m_scrollOffset))) ∧
      ((x - s.m_scrollOffset) - (a - s.m_scrollOffset) =
          (e - s.m_scrollOffset) - (x - s.m_scrollOffset) → region = Region.RightHalf) := by
  have hloop := FindColumnAtPointLoop_half s.GetColumn s.separatorClickMargin
    (x - s.m_scrollOffset) s.m_scrollOffset s.m_colIndices 0 hperm.nodup
  have hcases := FindColumnAtPoint_cases s hperm x
  have hfp : FindColumnAtPointLoop s.GetColumn s.separatorClickMargin (x - s.m_scrollOffset)
      s.m_colIndices 0 = (idx, region) := by
    have := hres
    unfold FindColumnAtPoint at this
    rwa [hperm.take_eq] at this
  rw [hfp] at hloop
  rw [hres] at hcases
  obtain ⟨st, hst, hiff⟩ := hloop hbody
  have hst2 : GetColStart s idx = some st := by
    unfold GetColStart
    simpa using hst
  have hiff2 : region = Region.LeftHalf ↔
      x - s.m_scrollOffset - (st - s.m_scrollOffset) <
        st - s.m_scrollOffset + (s.GetColumn idx).width - (x - s.m_scrollOffset) := hiff
  have hend : GetColEnd s idx = some (st + (s.GetColumn idx).width) := by
    simp [GetColEnd, hst2]
  have hrange : st ≤ x ∧ x < st + (s.GetColumn idx).width := by
    rcases hcases with h0 | ⟨-, -, st2, hst3, hreg⟩
    · have h2 : region = Region.NoWhere := congrArg Prod.snd h0
      rcases hbody with hb | hb <;> rw [hb] at h2 <;> exact absurd h2 (by decide)
    · have hst4 : GetColStart s idx = some st2 := hst3
      have hsame : st2 = st := Option.some.inj (hst4.symm.trans hst2)
      rcases hreg with ⟨h1, -⟩ | ⟨-, h2, h3⟩
      · have h1b : region = Region.Separator := h1
        rcases hbody with hb | hb <;> rw [hb] at h1b <;> exact absurd h1b (by decide)
      · rw [← hsame]; exact ⟨h2, h3⟩
  have hiff3 : region = Region.LeftHalf ↔
      x - s.m_scrollOffset - (st - s.m_scrollOffset) <
        st + (s.GetColumn idx).width - s.m_scrollOffset - (x - s.m_scrollOffset) := by
    rw [hiff2]
    constructor <;> intro h <;> omega
  refine ⟨st, _, hst2, hend, hrange.1, hrange.2, hiff3, ?_, ?_⟩
  · rw [← hiff3]
    rcases hbody with hb | hb <;> rw [hb] <;> simp
  · intro heq
    have hnl : ¬ region = Region.LeftHalf := by
      rw [hiff3]; omega
    exact hbody.resolve_left hnl

/-- C13: when `FindColumnAtPoint` finds a column, `FindColumnClosestToPoint` returns
the same index and region; otherwise, with at least one column, it returns the
last column of the display order with region `NoWhere`, and with no column it
returns `(COL_NONE, NoWhere)`. -/
theorem FindColumnClosestToPoint_result (s : wxHeaderCtrl) (hperm : IsPermutation s) (x : Int) :
    ((FindColumnAtPoint s x).1 ≠ COL_NONE →
      FindColumnClosestToPoint s x = FindColumnAtPoint s x) ∧
    ((FindColumnAtPoint s x).1 = COL_NONE → 1 ≤ s.m_numColumns →
      ∃ c, s.m_colIndices[s.m_numColumns - 1]? = some c ∧
        FindColumnClosestToPoint s x = (c, Region.NoWhere)) ∧
    (s.m_numColumns = 0 → FindColumnClosestToPoint s x = (COL_NONE, Region.NoWhere)) := by
  have hlen := hperm.length_eq
  refine ⟨?_, ?_, ?_⟩
  · intro hne
    unfold FindColumnClosestToPoint
    rw [if_pos hne]
  · intro hnone hN
    have hlt : s.m_numColumns - 1 < s.m_colIndices.length := by omega
    refine ⟨s.m_colIndices[s.m_numColumns - 1], List.getElem?_eq_getElem hlt, ?_⟩
    unfold FindColumnClosestToPoint
    rw [if_neg (by simpa using hnone), if_neg (by unfold GetColumnCount; omega)]
    unfold GetColumnCount
    rw [List.getD_eq_getElem s.m_colIndices COL_NONE hlt]
  · intro h0
    have hat : (FindColumnAtPoint s x).1 = COL_NONE := by
      unfold FindColumnAtPoint GetColumnCount
      rw [h0]
      rfl
    unfold FindColumnClosestToPoint
    rw [if_neg (by simpa using hat), if_pos (by unfold GetColumnCount; exact h0)]

/-- C14: on a permutation, `FindColumnAfter idx` is the logical index at display
position `pos idx + 1`, and `COL_NONE` when `idx` is last or absent;
`FindColumnBefore idx` is the logical index at display position `pos idx - 1`,
and `COL_NONE` when `idx` is first or absent. -/
theorem neighbour_lookup (s : wxHeaderCtrl) (hperm : IsPermutation s) (idx : Nat) :
    (idx ∈ s.m_colIndices → s.m_colIndices.indexOf idx + 1 < s.m_numColumns →
      s.m_colIndices[s.m_colIndices.indexOf idx + 1]? = some (FindColumnAfter s idx)) ∧
    (idx ∉ s.m_colIndices ∨ s.m_colIndices.indexOf idx + 1 = s.m_numColumns →
      FindColumnAfter s idx = COL_NONE) ∧
    (idx ∈ s.m_colIndices → 0 < s.m_colIndices.indexOf idx →
      s.m_colIndices[s.m_colIndices.indexOf idx - 1]? = some (FindColumnBefore s idx)) ∧
    (idx ∉ s.m_colIndices ∨ s.m_colIndices.indexOf idx = 0 →
      FindColumnBefore s idx = COL_NONE) := by
  have hlen := hperm.length_eq
  have hafter : FindColumnAfter s idx =
      s.m_colIndices.getD (s.m_colIndices.indexOf idx + 1) COL_NONE := by
    unfold FindColumnAfter
    rw [hperm.take_eq, FindColumnAfterLoop_eq]
  have hbefore : FindColumnBefore s idx =
      if idx ∈ s.m_colIndices then
        (if s.m_colIndices.indexOf idx = 0 then COL_NONE
          else s.m_colIndices.getD (s.m_colIndices.indexOf idx - 1) COL_NONE)
      else COL_NONE := by
    unfold FindColumnBefore
    rw [hperm.take_eq, FindColumnBeforeLoop_eq]
  refine ⟨?_, ?_, ?_, ?_⟩
  · intro _ hlt
    have hlt2 : s.m_colIndices.indexOf idx + 1 < s.m_colIndices.length := by omega
    rw [hafter, List.getD_eq_getElem s.m_colIndices COL_NONE hlt2]
    exact List.getElem?_eq_getElem hlt2
  · intro hc
    rw [hafter]
    apply List.getD_eq_default
    rcases hc with hc | hc
    · have := List.indexOf_of_not_mem hc
      omega
    · omega
  · intro hmem hpos
    have hlt : s.m_colIndices.indexOf idx < s.m_colIndices.length :=
      List.indexOf_lt_length.2 hmem
    have hlt2 : s.m_colIndices.indexOf idx - 1 < s.m_colIndices.length := by omega
    rw [hbefore, if_pos hmem, if_neg (by omega),
      List.getD_eq_getElem s.m_colIndices COL_NONE hlt2]
    exact List.getElem?_eq_getElem hlt2
  · intro hc
    rw [hbefore]
    rcases hc with hc | hc
    · rw [if_neg hc]
    · rw [if_pos hc]
      split <;> rfl

/-- C11: in a state where at most one drag is active, which every reachable
state is, the Escape key does what a capture loss does and other keys do nothing;
when a resize or a reorder is active exactly one notification is dispatched,
`DraggingCancelled` with the column being resized or reordered, the display
order, the count and the columns are unchanged and both drag indices are
`COL_NONE` afterwards; when idle nothing is dispatched and the state is
unchanged. -/
theorem cancellation_notifies_and_clears (s : wxHeaderCtrl)
    (hx : ¬ (IsResizing s = true ∧ IsReordering s = true)) :
    OnKeyDown s WXK_ESCAPE = OnCaptureLost s ∧
    (∀ keyCode, keyCode ≠ WXK_ESCAPE → OnKeyDown s keyCode = (s, [])) ∧
    (IsDragging s = true →
      ∃ col, col ≠ COL_NONE ∧
        (IsResizing s = true → col = s.m_colBeingResized) ∧
        (IsReordering s = true → col = s.m_colBeingReordered) ∧
        (OnCaptureLost s).2 = [Notification.DraggingCancelled col] ∧
        (OnCaptureLost s).1.m_colIndices = s.m_colIndices ∧
        (OnCaptureLost s).1.m_numColumns = s.m_numColumns ∧
        (OnCaptureLost s).1.GetColumn = s.GetColumn ∧
        (OnCaptureLost s).1.m_colBeingResized = COL_NONE ∧
        (OnCaptureLost s).1.m_colBeingReordered = COL_NONE) ∧
    (IsDragging s = false → OnCaptureLost s = (s, [])) := by
  refine ⟨?_, ?_, ?_, ?_⟩
  · unfold OnKeyDown OnCaptureLost
    rw [if_pos rfl]
  · intro keyCode hk
    unfold OnKeyDown
    rw [if_neg hk]
  · intro hdrag
    have hcl : OnCaptureLost s = CancelDragging s := by
      unfold OnCaptureLost; rw [if_pos hdrag]
    rw [hcl]
    rcases (exclusive_iff s).1 hx with hnone | hnone
    · -- not resizing, hence reordering
      have hr : IsResizing s = false := (IsResizing_eq_false_iff s).2 hnone
      have ho : IsReordering s = true := by
        unfold IsDragging at hdrag
        rw [hr] at hdrag
        simpa using hdrag
      rcases CancelDragging_cases s with ⟨-, c2, -⟩ | ⟨c1, -, c3⟩
      · rw [hr] at c2; exact absurd c2 (by decide)
      · rw [c1, c3]
        refine ⟨s.m_colBeingReordered, by simpa [IsReordering] using ho, ?_, fun _ => rfl,
          rfl, rfl, rfl, rfl, hnone, rfl⟩
        intro hc; rw [hr] at hc; exact absurd hc (by decide)
    · have ho : IsReordering s = false := (IsReordering_eq_false_iff s).2 hnone
      have hr : IsResizing s = true := by
        unfold IsDragging at hdrag
        rw [ho] at hdrag
        simpa using hdrag
      rcases CancelDragging_cases s with ⟨c1, -, c3⟩ | ⟨-, c2, -⟩
      · rw [c1, c3]
        refine ⟨s.m_colBeingResized, by simpa [IsResizing] using hr, fun _ => rfl, ?_,
          rfl, rfl, rfl, rfl, rfl, hnone⟩
        intro hc; rw [ho] at hc; exact absurd hc (by decide)
      · rw [hr] at c2; exact absurd c2 (by decide)
  · intro hdrag
    unfold OnCaptureLost
    rw [if_neg (by simp [hdrag])]
theorem MoveColumnInOrderArray_self (S : Nat) :
    ∀ l : List Nat, S ∈ l → MoveColumnInOrderArray l S (l.indexOf S) = l := by
  intro l
  induction l with
  | nil => intro hS; simp at hS
  | cons a rest ih =>
    intro hS
    unfold MoveColumnInOrderArray at ih ⊢
    by_cases haS : a = S
    · subst haS
      simp
    · have hS2 : S ∈ rest := by
        rcases List.mem_cons.1 hS with hh | hh
        · exact absurd hh.symm haS
        · exact hh
      have herase : (a :: rest).erase S = a :: rest.erase S := by
        simp [List.erase_cons, haS]
      rw [herase, List.indexOf_cons_ne _ haS, List.insertIdx_succ_cons, ih hS2]

/-- C15, evaluation at the failing input: among three columns of width 50, A
dragged from x = 10 and dropped at x = 60, on the left half of its right
neighbour B, gets an `EndReorder` notification with new position 0, the display
position A already has, and the move leaves the order A, B, C as it was; the
simulated move finds A at its old position.  The mirror gesture, C dropped on
the right half of its left neighbour B, dispatches nothing. -/
theorem EndReorder_dispatched_for_noop_move :
    FindColumnClosestToPoint threeColumnsDraggingA 60 = (1, Region.LeftHalf) ∧
    GetColumnPos threeColumnsDraggingA 0 = 0 ∧
    (EndReordering noHandler threeColumnsDraggingA 60).map
      (fun r => (r.1.m_colIndices, r.2)) =
        some ([0, 1, 2], true, [Notification.EndReorder 0 0]) ∧
    MoveColumnInOrderArray threeColumnsDraggingA.m_colIndices 0 0 =
      threeColumnsDraggingA.m_colIndices ∧
    toUnsigned (Index (MoveColumnInOrderArray threeColumnsDraggingA.m_colIndices 0 0) 0) = 0 ∧
    FindColumnClosestToPoint threeColumnsDraggingC 90 = (1, Region.RightHalf) ∧
    (EndReordering noHandler threeColumnsDraggingC 90).map
      (fun r => (r.1.m_colIndices, r.2)) = some ([0, 1, 2], true, []) := by
  decide

/-- C16: on a permutation with a reorder in progress, `EndReordering` returns, and
it returns true exactly when `x - GetColStart source` differs from the recorded
drag offset; when the drop point resolves to region `NoWhere` or to the dragged
column itself the display order is unchanged. -/
theorem EndReordering_reports_displacement (h : Handler) (s : wxHeaderCtrl) (x : Int)
    (hperm : IsPermutation s) (hcount : s.m_numColumns ≤ COL_NONE)
    (hS : s.m_colBeingReordered < s.m_numColumns) :
    ∃ start t b evs, GetColStart s s.m_colBeingReordered = some start ∧
      EndReordering h s x = some (t, b, evs) ∧
      (b = true ↔ x - start ≠ s.m_dragOffset) ∧
      ((FindColumnClosestToPoint s x).2 = Region.NoWhere ∨
          (FindColumnClosestToPoint s x).1 = s.m_colBeingReordered →
        t.m_colIndices = s.m_colIndices) := by
  have hSmem : s.m_colBeingReordered ∈ s.m_colIndices := (hperm.mem_iff _).2 hS
  have hlen := hperm.length_eq
  obtain ⟨start, hst⟩ := GetColStartLoop_isSome s.GetColumn s.m_colBeingReordered
    s.m_colIndices s.m_scrollOffset hSmem
  have hstart : GetColStart s s.m_colBeingReordered = some start := hst
  by_cases hmoved : x - start = s.m_dragOffset
  · refine ⟨start, reorderCleared s, false, [], hstart,
      EndReordering_of_not_moved h s x start hstart hmoved, ?_, fun _ => rfl⟩
    constructor
    · intro hb; exact absurd hb (by decide)
    · intro hne; exact absurd hmoved hne
  · have hclosed := EndReordering_eq_of_moved h s x start hperm hcount hS hstart hmoved
    by_cases hgo : dropTarget s x ≠ s.m_colBeingReordered ∧
        (FindColumnClosestToPoint s x).2 ≠ Region.NoWhere
    · rw [if_pos hgo] at hclosed
      refine ⟨start, _, true, _, hstart, hclosed, ?_, ?_⟩
      · constructor
        · intro _; exact hmoved
        · intro _; rfl
      · intro hor
        rcases hor with hnw | hself
        · exact absurd hnw hgo.2
        · -- the point resolves to the dragged column: only a retargeting to the
          -- successor can lead here, and the move then puts the column back
          have hloc : locatedByPreviousCol s x = true := by
            by_contra hloc
            apply hgo.1
            unfold dropTarget
            rw [if_neg hloc, hself]
          have htarget : dropTarget s x = FindColumnAfter s s.m_colBeingReordered := by
            unfold dropTarget
            rw [if_pos hloc, hself]
          have hne : FindColumnAfter s s.m_colBeingReordered ≠ COL_NONE := by
            unfold locatedByPreviousCol at hloc
            simp only [Bool.and_eq_true, decide_eq_true_eq] at hloc
            rw [hself] at hloc
            exact hloc.2
          have hnext : s.m_colIndices.indexOf s.m_colBeingReordered + 1 <
              s.m_colIndices.length := by
            by_contra hc
            exact hne (FindColumnAfter_of_last hperm (by omega))
          have hA := FindColumnAfter_of_not_last hperm hnext
          have hpos : dropPosition s s.m_colBeingReordered (dropTarget s x)
              (locatedByPreviousCol s x) (FindColumnClosestToPoint s x).2 =
              s.m_colIndices.indexOf s.m_colBeingReordered := by
            rw [htarget, hloc]
            unfold dropPosition
            rw [hA.2, if_pos ⟨by omega, Or.inr (Or.inl rfl)⟩]
            omega
          split
          · rw [hpos]
            exact MoveColumnInOrderArray_self _ _ hSmem
          · rfl
    · rw [if_neg hgo] at hclosed
      refine ⟨start, _, true, _, hstart, hclosed, ?_, fun _ => rfl⟩
      constructor
      · intro _; exact hmoved
      · intro _; rfl

/-- C18: on a permutation with a reorder in progress, `EndReordering` returns with
`m_colBeingReordered` reset, the controller being idle when no resize was
active; if the handler vetoes what is dispatched the display order is
unchanged, and the order changes only through the move announced by an
`EndReorder` notification that the handler did not process or allowed. -/
theorem vetoed_EndReorder_commits_nothing (h : Handler) (s : wxHeaderCtrl) (x : Int)
    (hperm : IsPermutation s) (hcount : s.m_numColumns ≤ COL_NONE)
    (hS : s.m_colBeingReordered < s.m_numColumns) :
    ∃ t b evs, EndReordering h s x = some (t, b, evs) ∧
      t.m_colBeingReordered = COL_NONE ∧ t.m_colBeingResized = s.m_colBeingResized ∧
      (IsResizing s = false → IsDragging t = false) ∧
      ((∀ e ∈ evs, vetoed h e = true) → t.m_colIndices = s.m_colIndices) ∧
      (t.m_colIndices ≠ s.m_colIndices →
        ∃ pos, evs = [Notification.EndReorder s.m_colBeingReordered pos] ∧
          ((h (Notification.EndReorder s.m_colBeingReordered pos)).processed = false ∨
            (h (Notification.EndReorder s.m_colBeingReordered pos)).allowed = true) ∧
          t.m_colIndices = MoveColumnInOrderArray s.m_colIndices s.m_colBeingReordered pos) := by
  have hSmem : s.m_colBeingReordered ∈ s.m_colIndices := (hperm.mem_iff _).2 hS
  obtain ⟨start, hst⟩ := GetColStartLoop_isSome s.GetColumn s.m_colBeingReordered
    s.m_colIndices s.m_scrollOffset hSmem
  have hstart : GetColStart s s.m_colBeingReordered = some start := hst
  have hidle : ∀ t : wxHeaderCtrl, t.m_colBeingReordered = COL_NONE →
      t.m_colBeingResized = s.m_colBeingResized → IsResizing s = false →
      IsDragging t = false := by
    intro t h1 h2 h3
    have h4 : t.m_colBeingResized = COL_NONE := h2.trans ((IsResizing_eq_false_iff s).1 h3)
    unfold IsDragging
    rw [(IsResizing_eq_false_iff t).2 h4, (IsReordering_eq_false_iff t).2 h1]
    rfl
  by_cases hmoved : x - start = s.m_dragOffset
  · exact ⟨reorderCleared s, false, [], EndReordering_of_not_moved h s x start hstart hmoved,
      rfl, rfl, hidle _ rfl rfl, fun _ => rfl, fun hne => absurd rfl hne⟩
  · have hclosed := EndReordering_eq_of_moved h s x start hperm hcount hS hstart hmoved
    by_cases hgo : dropTarget s x ≠ s.m_colBeingReordered ∧
        (FindColumnClosestToPoint s x).2 ≠ Region.NoWhere
    · rw [if_pos hgo] at hclosed
      by_cases hv : vetoed h (Notification.EndReorder s.m_colBeingReordered
          (dropPosition s s.m_colBeingReordered (dropTarget s x)
            (locatedByPreviousCol s x) (FindColumnClosestToPoint s x).2)) = false
      · rw [if_pos hv] at hclosed
        refine ⟨_, true, _, hclosed, rfl, rfl, hidle _ rfl rfl, ?_, ?_⟩
        · intro hall
          have := hall _ (List.mem_singleton.2 rfl)
          rw [hv] at this
          exact absurd this (by decide)
        · intro _
          exact ⟨_, rfl, (not_vetoed_iff h _).1 hv, rfl⟩
      · rw [if_neg hv] at hclosed
        exact ⟨_, true, _, hclosed, rfl, rfl, hidle _ rfl rfl, fun _ => rfl,
          fun hne => absurd rfl hne⟩
    · rw [if_neg hgo] at hclosed
      exact ⟨_, true, _, hclosed, rfl, rfl, hidle _ rfl rfl, fun _ => rfl,
        fun hne => absurd rfl hne⟩
theorem OnMouse_of_idle (h : Handler) (s : wxHeaderCtrl) (mevent : wxMouseEvent)
    (hidle : IsDragging s = false) :
    OnMouse h s mevent =
      OnMouseOverColumn h { s with m_wasSeparatorDClick := false } s.m_wasSeparatorDClick
        mevent := by
  have hr : IsResizing s = false := by
    unfold IsDragging at hidle
    cases hh : IsResizing s
    · rfl
    · rw [hh] at hidle; simp at hidle
  have ho : IsReordering s = false := by
    unfold IsDragging at hidle
    rw [hr] at hidle
    simpa using hidle
  have hrs : IsResizing { s with m_wasSeparatorDClick := false } = IsResizing s := rfl
  have hro : IsReordering { s with m_wasSeparatorDClick := false } = IsReordering s := rfl
  unfold OnMouse
  dsimp only
  rw [hrs, hro, hr, ho]
  rfl

/-- The hit-test stage of `OnMouse` on a permutation with a valid hovered
column, for an event that is not a leave: the hover becomes the column hit. -/
theorem OnMouseOverColumn_of_hit (h : Handler) (s : wxHeaderCtrl) (was : Bool)
    (mevent : wxMouseEvent) (c : Nat) (region : Region) (hperm : IsPermutation s)
    (hhover : s.m_hover = COL_NONE ∨ s.m_hover < s.m_numColumns)
    (hleave : mevent.leaving = false)
    (hhit : FindColumnAtPoint s mevent.x = (c, region)) :
    OnMouseOverColumn h s was mevent =
      OnMouseButtons h { s with m_hover := c } c region was mevent := by
  have hhover2 : s.m_hover = COL_NONE ∨ s.m_hover ∈ s.m_colIndices := by
    rcases hhover with hh | hh
    · exact Or.inl hh
    · exact Or.inr ((hperm.mem_iff _).2 hh)
  have hcol : c = COL_NONE ∨ c ∈ s.m_colIndices := by
    rcases FindColumnAtPoint_cases s hperm mevent.x with h1 | h1
    · rw [hhit] at h1; exact Or.inl (congrArg Prod.fst h1)
    · rw [hhit] at h1; exact Or.inr h1.1
  obtain ⟨s1, hs1⟩ := updateHover_isSome s c hhover2 hcol
  have hs1eq := updateHover_cases s c s1 hs1
  unfold OnMouseOverColumn
  rw [hleave, hhit]
  simp only [Bool.false_eq_true, if_false]
  rw [hs1, hs1eq]

theorem OnMouseButtons_no_press (h : Handler) (s : wxHeaderCtrl) (col : Nat) (region : Region)
    (was : Bool) (mevent : wxMouseEvent) (hld : mevent.leftDown = false)
    (hclick : clickEventType mevent region was = (none, false)) :
    OnMouseButtons h s col region was mevent = some (s, []) := by
  unfold OnMouseButtons
  by_cases hm : mevent.moving = true
  · rw [if_pos hm]
  · rw [if_neg hm]
    by_cases hcn : col = COL_NONE
    · rw [if_pos hcn]
    · rw [if_neg hcn, hld, hclick]
      rfl

/-- C12: in an idle well-formed state, a left double click at a point whose hit
region is `Separator` for column `c` dispatches exactly one notification,
`SeparatorDClick c`; the left button release that follows dispatches no
notification at all, hence no `Click`. -/
theorem separator_double_click (h : Handler) (s : wxHeaderCtrl) (dclick : wxMouseEvent)
    (c : Nat) (hwf : WellFormed s) (hidle : IsDragging s = false)
    (hhit : FindColumnAtPoint s dclick.x = (c, Region.Separator))
    (hd1 : dclick.buttonDClick = true) (hd2 : dclick.button = MouseButton.Left)
    (hd3 : dclick.leftDown = false) (hd4 : dclick.moving = false)
    (hd5 : dclick.leaving = false) :
    ∃ t, OnMouse h s dclick = some (t, [Notification.SeparatorDClick c]) ∧
      t.m_wasSeparatorDClick = true ∧ IsDragging t = false ∧
      ∀ (h2 : Handler) (up : wxMouseEvent), up.button = MouseButton.Left →
        up.buttonUp = true → up.leftUp = true → up.buttonDClick = false →
        up.leftDown = false →
        ∃ t2, OnMouse h2 t up = some (t2, []) := by
  obtain ⟨hperm, hcount, hhover, hresized, hreordered⟩ := hwf
  have hperm0 : IsPermutation { s with m_wasSeparatorDClick := false } := hperm
  have hcmem : c ∈ s.m_colIndices := by
    rcases FindColumnAtPoint_cases s hperm dclick.x with h1 | h1
    · rw [hhit] at h1
      have h2 : Region.Separator = Region.NoWhere := congrArg Prod.snd h1
      exact absurd h2 (by decide)
    · rw [hhit] at h1; exact h1.1
  have hc : c ≠ COL_NONE := mem_ne_COL_NONE hperm hcount hcmem
  have hclick : clickEventType dclick Region.Separator s.m_wasSeparatorDClick =
      (some Notification.SeparatorDClick, true) := by
    unfold clickEventType
    rw [hd1, hd2]
    simp
  have hfirst : OnMouse h s dclick =
      some ({ s with m_wasSeparatorDClick := true, m_hover := c },
        [Notification.SeparatorDClick c]) := by
    rw [OnMouse_of_idle h s dclick hidle,
      OnMouseOverColumn_of_hit h _ _ dclick c Region.Separator hperm0 hhover hd5 hhit]
    unfold OnMouseButtons
    rw [hd4, if_neg hc, hd3, hclick]
    rfl
  have hidle2 : IsDragging { s with m_wasSeparatorDClick := true, m_hover := c } = false :=
    hidle
  refine ⟨_, hfirst, rfl, hidle2, ?_⟩
  intro h2 up hu1 hu2 _ hu4 hu5
  have hwf2 : WellFormed { s with m_wasSeparatorDClick := true, m_hover := c } :=
    ⟨hperm, hcount, Or.inr ((hperm.mem_iff c).1 hcmem), hresized, hreordered⟩
  obtain ⟨t2, evs2, hsecond⟩ := OnMouse_isSome h2 _ up hwf2
  refine ⟨t2, ?_⟩
  rw [hsecond]
  have hover := hsecond
  rw [OnMouse_of_idle h2 _ up hidle2] at hover
  obtain ⟨col, region, -, -, -, hb⟩ := OnMouseOverColumn_cases h2 _ _ up t2 evs2 hover
  have hnoclick : ∀ r : Region, clickEventType up r true = (none, false) := by
    intro r
    unfold clickEventType
    rw [hu1, hu2, hu4]
    simp
  rw [OnMouseButtons_no_press h2 _ col region true up hu5 (hnoclick region)] at hb
  have h3 : evs2 = [] := (congrArg Prod.snd (Option.some.inj hb)).symm
  rw [h3]
/-- Witness for C11: a capture loss while column B is being resized. -/
theorem cancellation_notifies_and_clears_witness :
    ¬ (IsResizing resizingWithMinWidth = true ∧ IsReordering resizingWithMinWidth = true) ∧
    IsDragging resizingWithMinWidth = true ∧
    ∃ col, col ≠ COL_NONE ∧
      (IsResizing resizingWithMinWidth = true → col = resizingWithMinWidth.m_colBeingResized) ∧
      (IsReordering resizingWithMinWidth = true →
        col = resizingWithMinWidth.m_colBeingReordered) ∧
      (OnCaptureLost resizingWithMinWidth).2 = [Notification.DraggingCancelled col] ∧
      (OnCaptureLost resizingWithMinWidth).1.m_colIndices = resizingWithMinWidth.m_colIndices ∧
      (OnCaptureLost resizingWithMinWidth).1.m_numColumns = resizingWithMinWidth.m_numColumns ∧
      (OnCaptureLost resizingWithMinWidth).1.GetColumn = resizingWithMinWidth.GetColumn ∧
      (OnCaptureLost resizingWithMinWidth).1.m_colBeingResized = COL_NONE ∧
      (OnCaptureLost resizingWithMinWidth).1.m_colBeingReordered = COL_NONE :=
  ⟨by decide, by decide,
    (cancellation_notifies_and_clears resizingWithMinWidth (by decide)).2.2.1 (by decide)⟩

/-- Witness for C12: a double click at x = 50, on the separator of A. -/
theorem separator_double_click_witness :
    WellFormed threeColumns ∧ IsDragging threeColumns = false ∧
    FindColumnAtPoint threeColumns (leftDClickAt 50).x = (0, Region.Separator) ∧
    ∃ t, OnMouse noHandler threeColumns (leftDClickAt 50) =
        some (t, [Notification.SeparatorDClick 0]) ∧
      t.m_wasSeparatorDClick = true ∧ IsDragging t = false ∧
      ∀ (h2 : Handler) (up : wxMouseEvent), up.button = MouseButton.Left →
        up.buttonUp = true → up.leftUp = true → up.buttonDClick = false →
        up.leftDown = false →
        ∃ t2, OnMouse h2 t up = some (t2, []) :=
  ⟨by decide, by decide, by decide,
    separator_double_click noHandler threeColumns (leftDClickAt 50) 0 (by decide) (by decide)
      (by decide) rfl rfl rfl rfl rfl⟩

/-- Witness for C13: x = 500 is beyond three columns of width 50. -/
theorem FindColumnClosestToPoint_result_witness :
    IsPermutation threeColumns ∧
    (FindColumnAtPoint threeColumns 500).1 = COL_NONE ∧
    ∃ c, threeColumns.m_colIndices[threeColumns.m_numColumns - 1]? = some c ∧
      FindColumnClosestToPoint threeColumns 500 = (c, Region.NoWhere) :=
  ⟨by decide, by decide,
    (FindColumnClosestToPoint_result threeColumns (by decide) 500).2.1 (by decide) (by decide)⟩

/-- Witness for C14: the neighbours of B among A, B, C. -/
theorem neighbour_lookup_witness :
    IsPermutation threeColumns ∧
    threeColumns.m_colIndices[threeColumns.m_colIndices.indexOf 1 + 1]? =
      some (FindColumnAfter threeColumns 1) ∧
    threeColumns.m_colIndices[threeColumns.m_colIndices.indexOf 1 - 1]? =
      some (FindColumnBefore threeColumns 1) :=
  ⟨by decide,
    (neighbour_lookup threeColumns (by decide) 1).1 (by decide) (by decide),
    (neighbour_lookup threeColumns (by decide) 1).2.2.1 (by decide) (by decide)⟩

/-- Witness for C16: A dropped at x = 500, beyond all columns. -/
theorem EndReordering_reports_displacement_witness :
    IsPermutation threeColumnsDraggingA ∧
    (FindColumnClosestToPoint threeColumnsDraggingA 500).2 = Region.NoWhere ∧
    ∃ start t b evs,
      GetColStart threeColumnsDraggingA threeColumnsDraggingA.m_colBeingReordered = some start ∧
      EndReordering noHandler threeColumnsDraggingA 500 = some (t, b, evs) ∧
      (b = true ↔ 500 - start ≠ threeColumnsDraggingA.m_dragOffset) ∧
      ((FindColumnClosestToPoint threeColumnsDraggingA 500).2 = Region.NoWhere ∨
          (FindColumnClosestToPoint threeColumnsDraggingA 500).1 =
            threeColumnsDraggingA.m_colBeingReordered →
        t.m_colIndices = threeColumnsDraggingA.m_colIndices) :=
  ⟨by decide, by decide,
    EndReordering_reports_displacement noHandler threeColumnsDraggingA 500 (by decide)
      (by decide) (by decide)⟩

/-- Witness for C18: A dropped at x = 140 with a handler that vetoes everything. -/
theorem vetoed_EndReorder_commits_nothing_witness :
    IsPermutation threeColumnsDraggingA ∧
    ∃ t b evs, EndReordering vetoAll threeColumnsDraggingA 140 = some (t, b, evs) ∧
      t.m_colBeingReordered = COL_NONE ∧
      t.m_colBeingResized = threeColumnsDraggingA.m_colBeingResized ∧
      (IsResizing threeColumnsDraggingA = false → IsDragging t = false) ∧
      ((∀ e ∈ evs, vetoed vetoAll e = true) →
        t.m_colIndices = threeColumnsDraggingA.m_colIndices) ∧
      (t.m_colIndices ≠ threeColumnsDraggingA.m_colIndices →
        ∃ pos, evs = [Notification.EndReorder threeColumnsDraggingA.m_colBeingReordered pos] ∧
          ((vetoAll (Notification.EndReorder
              threeColumnsDraggingA.m_colBeingReordered pos)).processed = false ∨
            (vetoAll (Notification.EndReorder
              threeColumnsDraggingA.m_colBeingReordered pos)).allowed = true) ∧
          t.m_colIndices = MoveColumnInOrderArray threeColumnsDraggingA.m_colIndices
            threeColumnsDraggingA.m_colBeingReordered pos) :=
  ⟨by decide,
    vetoed_EndReorder_commits_nothing vetoAll threeColumnsDraggingA 140 (by decide) (by decide)
      (by decide)⟩

/-- Witness for C20: x = 25 is the midpoint of A and resolves to its right half. -/
theorem half_tie_break_witness :
    IsPermutation threeColumns ∧ FindColumnAtPoint threeColumns 25 = (0, Region.RightHalf) ∧
    ∃ a e, GetColStart threeColumns 0 = some a ∧ GetColEnd threeColumns 0 = some e ∧
      a ≤ 25 ∧ 25 < e ∧
      (Region.RightHalf = Region.LeftHalf ↔
        ((25 : Int) - threeColumns.m_scrollOffset) - (a - threeColumns.m_scrollOffset) <
          (e - threeColumns.m_scrollOffset) - (25 - threeColumns.m_scrollOffset)) ∧
      (Region.RightHalf = Region.RightHalf ↔
        ¬ (((25 : Int) - threeColumns.m_scrollOffset) - (a - threeColumns.m_scrollOffset) <
          (e - threeColumns.m_scrollOffset) - (25 - threeColumns.m_scrollOffset))) ∧
      (((25 : Int) - threeColumns.m_scrollOffset) - (a - threeColumns.m_scrollOffset) =
          (e - threeColumns.m_scrollOffset) - (25 - threeColumns.m_scrollOffset) →
        Region.RightHalf = Region.RightHalf) :=
  ⟨by decide, by decide,
    half_tie_break threeColumns (by decide) 25 0 Region.RightHalf (by decide) (Or.inr rfl)⟩

theorem option_ite_eq_none_iff {α : Type} {c1 c2 c3 : Prop} [Decidable c1] [Decidable c2]
    [Decidable c3] {A B C : α} :
    (if c1 then none else if c2 then (if c3 then some A else some B) else some C) = none ↔
      c1 := by
  by_cases h1 : c1
  · simp [h1]
  · rw [if_neg h1]
    by_cases h2 : c2
    · rw [if_pos h2]
      by_cases h3 : c3
      · simp [h1, h3]
      · simp [h1, h3]
    · simp [h1, h2]

/-- The assertion of `EndReordering` fails exactly when the retargeting test holds
and `FindColumnBefore` answers `COL_NONE`. -/
theorem EndReorderingMove_eq_none_iff (h : Handler) (s : wxHeaderCtrl) (colOld colNew : Nat)
    (located : Bool) (region : Region) :
    EndReorderingMove h s colOld colNew located region = none ↔
      (callsFindColumnBefore s colOld colNew located region = true ∧
        FindColumnBefore s colNew = COL_NONE) := by
  unfold EndReorderingMove
  refine option_ite_eq_none_iff.trans ?_
  show (callsFindColumnBefore s colOld colNew located region = true ∧
      (if callsFindColumnBefore s colOld colNew located region = true
        then FindColumnBefore s colNew else colNew) = COL_NONE) ↔ _
  constructor
  · rintro ⟨h1, h2⟩
    rw [if_pos h1] at h2
    exact ⟨h1, h2⟩
  · rintro ⟨h1, h2⟩
    rw [if_pos h1]
    exact ⟨h1, h2⟩
theorem FindColumnBefore_of_call {s : wxHeaderCtrl} (hperm : IsPermutation s)
    (hcount : s.m_numColumns ≤ COL_NONE) (colOld colNew : Nat) (located : Bool)
    (region : Region) (hnew : colNew ∈ s.m_colIndices)
    (hcall : callsFindColumnBefore s colOld colNew located region = true) :
    0 < GetColumnPos s colNew ∧ FindColumnBefore s colNew ∈ s.m_colIndices ∧
      GetColumnPos s (FindColumnBefore s colNew) + 1 = GetColumnPos s colNew := by
  unfold callsFindColumnBefore at hcall
  simp only [Bool.and_eq_true, decide_eq_true_eq] at hcall
  have hpN := GetColumnPos_of_mem hperm hcount hnew
  have hpos : 0 < s.m_colIndices.indexOf colNew := by omega
  obtain ⟨hmem, hidx⟩ := FindColumnBefore_of_pos hperm hnew hpos
  have hpB := GetColumnPos_of_mem hperm hcount hmem
  exact ⟨by omega, hmem, by omega⟩

/-- C24: the assertion `colNew != COL_NONE` after the leftward retargeting of
`EndReordering` cannot fail.  On a display order that is a permutation of
`[0, N)`, for every dragged column and every drop point: whenever the test
guarding the call of `FindColumnBefore(colNew)` holds, the target is not at
display position 0, the result is not `COL_NONE` and is a logical index of
`[0, N)` displayed just before the target, its position lookup finds it, and
`EndReordering` runs to completion. -/
theorem retarget_assertion_never_fails (h : Handler) (s : wxHeaderCtrl) (x : Int)
    (hperm : IsPermutation s) (hcount : s.m_numColumns ≤ COL_NONE)
    (hcall : callsFindColumnBefore (reorderCleared s) s.m_colBeingReordered (dropTarget s x)
      (locatedByPreviousCol s x) (FindColumnClosestToPoint s x).2 = true) :
    0 < GetColumnPos (reorderCleared s) (dropTarget s x) ∧
    FindColumnBefore (reorderCleared s) (dropTarget s x) ≠ COL_NONE ∧
    FindColumnBefore (reorderCleared s) (dropTarget s x) < s.m_numColumns ∧
    0 ≤ Index s.m_colIndices (FindColumnBefore (reorderCleared s) (dropTarget s x)) ∧
    GetColumnPos (reorderCleared s) (FindColumnBefore (reorderCleared s) (dropTarget s x)) + 1 =
      GetColumnPos (reorderCleared s) (dropTarget s x) ∧
    EndReorderingMove h (reorderCleared s) s.m_colBeingReordered (dropTarget s x)
      (locatedByPreviousCol s x) (FindColumnClosestToPoint s x).2 ≠ none ∧
    ∃ t b evs, EndReordering h s x = some (t, b, evs) := by
  have hperm1 : IsPermutation (reorderCleared s) := hperm
  have hcount1 : (reorderCleared s).m_numColumns ≤ COL_NONE := hcount
  have hlt : GetColumnPos (reorderCleared s) s.m_colBeingReordered <
      GetColumnPos (reorderCleared s) (dropTarget s x) := by
    unfold callsFindColumnBefore at hcall
    simp only [Bool.and_eq_true, decide_eq_true_eq] at hcall
    exact hcall.1
  have hN : 1 ≤ s.m_numColumns := by
    by_contra hN
    have hnil : s.m_colIndices = [] := by
      apply List.eq_nil_of_length_eq_zero
      rw [hperm.length_eq]; omega
    unfold GetColumnPos Index reorderCleared at hlt
    simp [hnil] at hlt
  have hnew : dropTarget s x ∈ (reorderCleared s).m_colIndices := dropTarget_mem s hperm hN x
  have hold : s.m_colBeingReordered ∈ s.m_colIndices := by
    by_contra hold
    have h1 := GetColumnPos_of_mem hperm1 hcount1 hnew
    have h2 := List.indexOf_lt_length.2 hnew
    have h3 := hperm1.length_eq
    have h4 : GetColumnPos (reorderCleared s) s.m_colBeingReordered = COL_NONE := by
      have hold1 : s.m_colBeingReordered ∉ (reorderCleared s).m_colIndices := hold
      unfold GetColumnPos Index
      rw [if_neg hold1]
      rfl
    omega
  obtain ⟨hpos, hmem, hidx⟩ := FindColumnBefore_of_call hperm1 hcount1 _ _ _ _ hnew hcall
  refine ⟨hpos, mem_ne_COL_NONE hperm1 hcount1 hmem, (hperm1.mem_iff _).1 hmem, ?_, hidx, ?_,
    EndReordering_isSome h s x hperm hcount ((hperm.mem_iff _).1 hold)⟩
  · have hmem0 : FindColumnBefore (reorderCleared s) (dropTarget s x) ∈ s.m_colIndices := hmem
    unfold Index
    rw [if_pos hmem0]
    exact Int.natCast_nonneg _
  · intro hnone
    exact mem_ne_COL_NONE hperm1 hcount1 hmem
      ((EndReorderingMove_eq_none_iff h _ _ _ _ _).1 hnone).2

theorem retarget_assertion_never_fails_witness :
    callsFindColumnBefore (reorderCleared threeColumnsDraggingA) 0
      (dropTarget threeColumnsDraggingA 60) (locatedByPreviousCol threeColumnsDraggingA 60)
      (FindColumnClosestToPoint threeColumnsDraggingA 60).2 = true ∧
    FindColumnBefore (reorderCleared threeColumnsDraggingA)
      (dropTarget threeColumnsDraggingA 60) ≠ COL_NONE :=
  ⟨by decide,
    (retarget_assertion_never_fails noHandler threeColumnsDraggingA 60 (by decide) (by decide)
      (by decide)).2.1⟩
theorem GetColStartRunLoop_pos (g : Nat → wxHeaderColumn) (idx : Nat) :
    ∀ (l : List Nat) (r : GetColStartRun),
      (GetColStartRunLoop g idx l r).map GetColStartRun.pos = GetColStartLoop g idx l r.pos := by
  intro l
  induction l with
  | nil => intro r; rfl
  | cons i rest ih =>
    intro r
    by_cases hi : i = idx
    · simp [GetColStartRunLoop, GetColStartLoop, hi]
    · rw [GetColStartRunLoop, GetColStartLoop, if_neg hi, if_neg hi, ih]

theorem GetColStartRunLoop_eq (g : Nat → wxHeaderColumn) (idx : Nat) :
    ∀ (l : List Nat) (r : GetColStartRun), idx ∈ l →
      ∃ p, GetColStartRunLoop g idx l r =
        some { pos := p, n := r.n + l.indexOf idx,
               reads := r.reads ++ List.range' r.n (l.indexOf idx + 1),
               queries := r.queries ++ l.take (l.indexOf idx) } := by
  intro l
  induction l with
  | nil => intro r hmem; simp at hmem
  | cons i rest ih =>
    intro r hmem
    by_cases hi : i = idx
    · refine ⟨r.pos, ?_⟩
      subst hi
      simp [GetColStartRunLoop, List.range']
    · have hrest : idx ∈ rest := by
        rcases List.mem_cons.1 hmem with h | h
        · exact absurd h.symm hi
        · exact h
      obtain ⟨p, hp⟩ := ih
        { pos := if (g i).shown then r.pos + (g i).width else r.pos, n := r.n + 1,
          reads := r.reads ++ [r.n], queries := r.queries ++ [i] } hrest
      refine ⟨p, ?_⟩
      rw [GetColStartRunLoop, if_neg hi, hp, List.indexOf_cons_ne _ hi]
      simp [List.range', Nat.add_assoc, Nat.add_comm 1]
/-- C23: the unbounded loop of `GetColStart` is safe on valid input.  On a
display order that is a permutation of `[0, N)` and for `idx` in `[0, N)`, the
loop breaks with its counter `n` equal to the display position of `idx`, that is
after exactly that many completed iterations, and this is less than `N`; it has
read `m_colIndices` at the indices `0, ..., n` only, all below `N`; it has called
`GetColumn` on the `n` entries displayed before `idx` only, all logical indices of
`[0, N)`; and the value computed is that of `GetColStart`. -/
theorem GetColStart_loop_safe (s : wxHeaderCtrl) (hperm : IsPermutation s) (idx : Nat)
    (hidx : idx < s.m_numColumns) :
    ∃ r, GetColStartTraced s idx = some r ∧ GetColStart s idx = some r.pos ∧
      r.n = s.m_colIndices.indexOf idx ∧ s.m_colIndices[r.n]? = some idx ∧
      r.n < s.m_numColumns ∧
      r.reads = List.range (r.n + 1) ∧ (∀ k ∈ r.reads, k < s.m_numColumns) ∧
      r.queries = s.m_colIndices.take r.n ∧ (∀ i ∈ r.queries, i < s.m_numColumns) := by
  have hmem : idx ∈ s.m_colIndices := (hperm.mem_iff idx).2 hidx
  have hlt : s.m_colIndices.indexOf idx < s.m_colIndices.length := List.indexOf_lt_length.2 hmem
  have hlen := hperm.length_eq
  obtain ⟨p, hp⟩ := GetColStartRunLoop_eq s.GetColumn idx s.m_colIndices
    { pos := s.m_scrollOffset, n := 0, reads := [], queries := [] } hmem
  have hpos := GetColStartRunLoop_pos s.GetColumn idx s.m_colIndices
    { pos := s.m_scrollOffset, n := 0, reads := [], queries := [] }
  rw [hp] at hpos
  simp only [Nat.zero_add, List.nil_append] at hp
  refine ⟨_, hp, hpos.symm, rfl, getElem?_indexOf_of_mem hmem, ?_, ?_, ?_, rfl, ?_⟩
  · show s.m_colIndices.indexOf idx < s.m_numColumns
    omega
  · exact (List.range_eq_range' (n := s.m_colIndices.indexOf idx + 1)).symm
  · intro k hk
    have := (List.mem_range'_1.1 hk).2
    omega
  · intro i hi
    exact (hperm.mem_iff i).1 (List.mem_of_mem_take hi)

theorem GetColStart_loop_safe_witness :
    ∃ r, GetColStartTraced threeColumns 2 = some r ∧ GetColStart threeColumns 2 = some r.pos ∧
      r.n = [0, 1, 2].indexOf 2 ∧ threeColumns.m_colIndices[r.n]? = some 2 ∧
      r.n < 3 ∧
      r.reads = List.range (r.n + 1) ∧ (∀ k ∈ r.reads, k < 3) ∧
      r.queries = [0, 1, 2].take r.n ∧ (∀ i ∈ r.queries, i < 3) :=
  GetColStart_loop_safe threeColumns (by decide) 2 (by decide)

theorem GetColStartTraced_threeColumns :
    GetColStartTraced threeColumns 2 =
      some { pos := 100, n := 2, reads := [0, 1, 2], queries := [0, 1] } := by decide
theorem OnMouse_release_moved (h : Handler) (s : wxHeaderCtrl) (up : wxMouseEvent)
    (t : wxHeaderCtrl) (evs : List Notification)
    (hr : IsResizing s = false) (ho : IsReordering s = true) (hup : up.leftUp = true)
    (hend : EndReordering h { s with m_wasSeparatorDClick := false } up.x = some (t, true, evs)) :
    OnMouse h s up = some (t, evs) := by
  have hrs : IsResizing { s with m_wasSeparatorDClick := false } = IsResizing s := rfl
  have hro : IsReordering { s with m_wasSeparatorDClick := false } = IsReordering s := rfl
  unfold OnMouse
  dsimp only
  rw [hrs, hro, hr, ho, hup, hend]
  rfl

theorem OnMouse_release_not_moved (h : Handler) (s : wxHeaderCtrl) (up : wxMouseEvent)
    (t t2 : wxHeaderCtrl) (evs evs2 : List Notification)
    (hr : IsResizing s = false) (ho : IsReordering s = true) (hup : up.leftUp = true)
    (hend : EndReordering h { s with m_wasSeparatorDClick := false } up.x = some (t, false, evs))
    (was : Bool) (hwas : s.m_wasSeparatorDClick = was)
    (hover : OnMouseOverColumn h t was up = some (t2, evs2)) :
    OnMouse h s up = some (t2, evs ++ evs2) := by
  subst hwas
  have hrs : IsResizing { s with m_wasSeparatorDClick := false } = IsResizing s := rfl
  have hro : IsReordering { s with m_wasSeparatorDClick := false } = IsReordering s := rfl
  unfold OnMouse
  dsimp only
  rw [hrs, hro, hr, ho, hup, hend]
  simp only [Bool.false_eq_true, if_false, if_true]
  rw [hover]
  rfl

theorem clickEventType_left_up (up : wxMouseEvent) (region : Region)
    (hbutton : up.buttonUp = true) (hleft : up.button = MouseButton.Left)
    (hbody : region ≠ Region.Separator) :
    clickEventType up region false = (some Notification.Click, false) := by
  unfold clickEventType
  simp [hbutton, hleft, hbody]

theorem OnMouse_press_on_body (h : Handler) (s : wxHeaderCtrl) (down : wxMouseEvent)
    (c : Nat) (region : Region) (start : Int) (hperm : IsPermutation s)
    (hhover : s.m_hover = COL_NONE ∨ s.m_hover < s.m_numColumns)
    (hidle : IsDragging s = false) (hallow : s.allowReorder = true)
    (hdown : down.leftDown = true) (hmoving : down.moving = false)
    (hleave : down.leaving = false)
    (hhit : FindColumnAtPoint s down.x = (c, region)) (hc : c ≠ COL_NONE)
    (hbody : region ≠ Region.Separator)
    (hreorderable : (s.GetColumn c).reorderable = true)
    (haccept : vetoed h (Notification.BeginReorder c) = false)
    (hstart : GetColStart s c = some start) :
    OnMouse h s down =
      some ({ s with m_wasSeparatorDClick := false, m_hover := c,
                     m_dragOffset := down.x - start, m_colBeingReordered := c },
        [Notification.BeginReorder c]) := by
  have hstart2 : GetColStart { s with m_wasSeparatorDClick := false, m_hover := c } c =
      some start := hstart
  rw [OnMouse_of_idle h s down hidle,
    OnMouseOverColumn_of_hit h { s with m_wasSeparatorDClick := false } s.m_wasSeparatorDClick
      down c region hperm hhover hleave hhit]
  unfold OnMouseButtons
  rw [hmoving, if_neg (by simp), if_neg hc, hdown, if_pos rfl, if_neg hbody,
    if_pos ⟨hallow, hreorderable⟩]
  unfold StartReordering
  rw [haccept, if_neg (by simp), hstart2]
theorem OnMouseButtons_left_up (h : Handler) (s : wxHeaderCtrl) (c : Nat) (region : Region)
    (up : wxMouseEvent) (hc : c ≠ COL_NONE) (hsep : region ≠ Region.Separator)
    (hbutton : up.buttonUp = true) (hleft : up.button = MouseButton.Left)
    (hld : up.leftDown = false) (hmv : up.moving = false) :
    OnMouseButtons h s c region false up =
      some ({ s with m_wasSeparatorDClick := false }, [Notification.Click c]) := by
  unfold OnMouseButtons
  rw [hmv, if_neg (by simp), if_neg hc, hld, if_neg (by simp),
    clickEventType_left_up up region hbutton hleft hsep]

/-- A left release at the point of the press, in the state left by the press:
`EndReordering` answers `false` and the click is classified. -/
theorem OnMouse_release_at_press_point (h : Handler) (s1 : wxHeaderCtrl) (up : wxMouseEvent)
    (c : Nat) (region : Region) (start : Int) (hperm : IsPermutation s1)
    (hcount : s1.m_numColumns ≤ COL_NONE) (hr : IsResizing s1 = false)
    (hreo : s1.m_colBeingReordered = c) (hcN : c < s1.m_numColumns) (hhover : s1.m_hover = c)
    (hwas : s1.m_wasSeparatorDClick = false) (hstart : GetColStart s1 c = some start)
    (hoff : s1.m_dragOffset = up.x - start)
    (hhit : FindColumnAtPoint s1 up.x = (c, region)) (hsep : region ≠ Region.Separator)
    (hup : up.leftUp = true) (hbutton : up.buttonUp = true)
    (hleft : up.button = MouseButton.Left) (hld : up.leftDown = false)
    (hmv : up.moving = false) (hlv : up.leaving = false) :
    ∃ s2, OnMouse h s1 up = some (s2, [Notification.Click c]) ∧
      s2.m_colIndices = s1.m_colIndices ∧ IsDragging s2 = false := by
  have hc : c ≠ COL_NONE := by unfold COL_NONE at hcount ⊢; omega
  have ho : IsReordering s1 = true := by
    unfold IsReordering; rw [hreo]; simpa using hc
  have hstart1 : GetColStart { s1 with m_wasSeparatorDClick := false }
      ({ s1 with m_wasSeparatorDClick := false } : wxHeaderCtrl).m_colBeingReordered =
      some start := by
    show GetColStart s1 s1.m_colBeingReordered = some start
    rw [hreo]; exact hstart
  have hend := EndReordering_of_not_moved h { s1 with m_wasSeparatorDClick := false } up.x start
    hstart1 hoff.symm
  have hhit2 : FindColumnAtPoint (reorderCleared { s1 with m_wasSeparatorDClick := false }) up.x =
      (c, region) := hhit
  have hover := (OnMouseOverColumn_of_hit h
    (reorderCleared { s1 with m_wasSeparatorDClick := false }) false up c region hperm
    (Or.inr (by show s1.m_hover < s1.m_numColumns; rw [hhover]; exact hcN)) hlv hhit2).trans
    (OnMouseButtons_left_up h _ c region up hc hsep hbutton hleft hld hmv)
  refine ⟨_, OnMouse_release_not_moved h s1 up _ _ [] _ hr ho hup hend false hwas hover, rfl, ?_⟩
  show (IsResizing s1 || (COL_NONE != COL_NONE)) = false
  rw [hr]
  rfl

/-- A left release away from the point of the press: `EndReordering` answers
`true`, and `OnMouse` returns with its notifications only. -/
theorem OnMouse_release_elsewhere (h : Handler) (s1 : wxHeaderCtrl) (up : wxMouseEvent)
    (c : Nat) (start : Int) (hperm : IsPermutation s1) (hcount : s1.m_numColumns ≤ COL_NONE)
    (hr : IsResizing s1 = false) (hreo : s1.m_colBeingReordered = c)
    (hcN : c < s1.m_numColumns) (hstart : GetColStart s1 c = some start)
    (hoff : up.x - start ≠ s1.m_dragOffset) (hup : up.leftUp = true) :
    ∃ s2 evs, OnMouse h s1 up = some (s2, evs) ∧
      (∀ col, Notification.Click col ∉ evs) ∧
      (evs = [] ∨ ∃ p, evs = [Notification.EndReorder c p]) := by
  subst hreo
  have hc : s1.m_colBeingReordered ≠ COL_NONE := by unfold COL_NONE at hcount ⊢; omega
  have ho : IsReordering s1 = true := by
    unfold IsReordering; simpa using hc
  have hend := EndReordering_eq_of_moved h { s1 with m_wasSeparatorDClick := false } up.x start
    hperm hcount hcN hstart hoff
  split at hend
  · exact ⟨_, _, OnMouse_release_moved h s1 up _ _ hr ho hup hend, by simp, Or.inr ⟨_, rfl⟩⟩
  · exact ⟨_, _, OnMouse_release_moved h s1 up _ _ hr ho hup hend, by simp, Or.inl rfl⟩

/-- C21: click versus drag.  In an idle well-formed state with reordering
allowed, a left press on the body (left or right half) of a reorderable column
`c`, whose `BeginReorder` the handler does not veto, dispatches `BeginReorder c`
and starts reordering `c`.  A left release at the same `x` right after it
dispatches exactly one notification, `Click c`, and leaves the display order
and the idle state as they were; a left release at any other `x` dispatches
no `Click`: at most one notification, an `EndReorder` for `c`. -/
theorem click_versus_drag (h : Handler) (s : wxHeaderCtrl) (down : wxMouseEvent) (c : Nat)
    (region : Region) (hwf : WellFormed s) (hidle : IsDragging s = false)
    (hallow : s.allowReorder = true)
    (hdown : down.leftDown = true) (hmoving : down.moving = false)
    (hleave : down.leaving = false)
    (hhit : FindColumnAtPoint s down.x = (c, region))
    (hbody : region = Region.LeftHalf ∨ region = Region.RightHalf)
    (hreorderable : (s.GetColumn c).reorderable = true)
    (haccept : vetoed h (Notification.BeginReorder c) = false) :
    ∃ s1, OnMouse h s down = some (s1, [Notification.BeginReorder c]) ∧
      s1.m_colBeingReordered = c ∧ s1.m_colIndices = s.m_colIndices ∧
      (∀ up : wxMouseEvent, up.leftUp = true → up.buttonUp = true →
        up.button = MouseButton.Left → up.leftDown = false → up.moving = false →
        up.leaving = false → up.x = down.x →
          ∃ s2, OnMouse h s1 up = some (s2, [Notification.Click c]) ∧
            s2.m_colIndices = s.m_colIndices ∧ IsDragging s2 = false) ∧
      (∀ up : wxMouseEvent, up.leftUp = true → up.x ≠ down.x →
          ∃ s2 evs, OnMouse h s1 up = some (s2, evs) ∧
            (∀ col, Notification.Click col ∉ evs) ∧
            (evs = [] ∨ ∃ p, evs = [Notification.EndReorder c p])) := by
  obtain ⟨hperm, hcount, hhover, hresized, hreordered⟩ := hwf
  have hsep : region ≠ Region.Separator := by
    rcases hbody with hb | hb <;> rw [hb] <;> decide
  have hmem : c ∈ s.m_colIndices := by
    rcases FindColumnAtPoint_cases s hperm down.x with h1 | h1
    · rw [hhit] at h1
      have h2 : region = Region.NoWhere := congrArg Prod.snd h1
      rcases hbody with hb | hb <;> rw [hb] at h2 <;> exact absurd h2 (by decide)
    · rw [hhit] at h1; exact h1.1
  have hc : c ≠ COL_NONE := mem_ne_COL_NONE hperm hcount hmem
  have hcN : c < s.m_numColumns := (hperm.mem_iff c).1 hmem
  obtain ⟨start, hstart⟩ := GetColStartLoop_isSome s.GetColumn c s.m_colIndices s.m_scrollOffset
    hmem
  have hstart0 : GetColStart s c = some start := hstart
  have hr : IsResizing s = false := by
    unfold IsDragging at hidle
    cases hh : IsResizing s
    · rfl
    · rw [hh] at hidle; simp at hidle
  refine ⟨_, OnMouse_press_on_body h s down c region start hperm hhover hidle hallow hdown
    hmoving hleave hhit hc hsep hreorderable haccept hstart0, rfl, rfl, ?_, ?_⟩
  · intro up hup hbutton hleft hld hmv hlv hx
    exact OnMouse_release_at_press_point h _ up c region start hperm hcount hr rfl hcN rfl rfl
      hstart0 (by rw [hx]) (by rw [hx]; exact hhit) hsep hup hbutton hleft hld hmv hlv
  · intro up hup hx
    exact OnMouse_release_elsewhere h _ up c start hperm hcount hr rfl hcN hstart0
      (fun heq => hx (by have h3 : up.x - start = down.x - start := heq
                         omega)) hup
theorem click_versus_drag_witness :
    ∃ s1, OnMouse noHandler threeColumns (leftDownAt 10) =
        some (s1, [Notification.BeginReorder 0]) ∧
      (∃ s2, OnMouse noHandler s1 (leftUpAt 10) = some (s2, [Notification.Click 0]) ∧
        s2.m_colIndices = [0, 1, 2]) ∧
      (∃ s2 evs, OnMouse noHandler s1 (leftUpAt 60) = some (s2, evs) ∧
        ∀ col, Notification.Click col ∉ evs) := by
  obtain ⟨s1, h1, -, -, h2, h3⟩ :=
    click_versus_drag noHandler threeColumns (leftDownAt 10) 0 Region.LeftHalf (by decide)
      (by decide) rfl rfl rfl rfl (by decide) (Or.inl rfl) rfl (by decide)
  obtain ⟨s2, h4, h5, -⟩ := h2 (leftUpAt 10) rfl rfl rfl rfl rfl rfl rfl
  obtain ⟨s3, evs, h6, h7, -⟩ := h3 (leftUpAt 60) rfl (by decide)
  exact ⟨s1, h1, ⟨s2, h4, h5⟩, ⟨s3, evs, h6, h7⟩⟩

/-- The press at x = 10 on `threeColumns` followed by a release at the same point:
`BeginReorder 0`, then `Click 0`. -/
theorem press_and_release_in_place :
    OnMouse noHandler threeColumns (leftDownAt 10) =
      some ({ threeColumnsDraggingA with m_wasSeparatorDClick := false },
        [Notification.BeginReorder 0]) ∧
    (OnMouse noHandler threeColumnsDraggingA (leftUpAt 10)).map Prod.snd =
      some [Notification.Click 0] ∧
    (OnMouse noHandler threeColumnsDraggingA (leftUpAt 11)).map Prod.snd = some [] ∧
    (OnMouse noHandler threeColumnsDraggingA (leftUpAt 140)).map Prod.snd =
      some [Notification.EndReorder 0 2] :=
  ⟨rfl, rfl, rfl, rfl⟩

end HeaderCtrl
